import Mathlib

/-!
# genesis-eth2: key pool manager and build strategies

A shallow embedding of `protocols/helpers/keyHandler.go`,
`protocols/ethclassic/etc.go`, `protocols/parity/parity.go` and
`protocols/eth2/validator.go`, followed by the properties proved about them.

Go `error` values are identified with their message (`none` is `nil`).
Go multi-value returns `(v, err)` are pairs `v × Option Error`.
A run-time panic (index out of range) is an explicit `none` / `Res.panic`.

The build strategies are functions of an environment that supplies the results of
everything outside these files (remote commands, helpers, regular expressions), and
they record every interaction in a trace. The tasks of one node-executor call are run
one after the other, in the order the environment schedules them; a task blocked on
the strategy's mutex makes the call hang.
-/

namespace Genesis

/-- Go `error`: `none` is `nil`, `some msg` a non-nil error with that message. -/
abbrev Error := String

/-- Modelled from the spec: `util.LogError` is not among the sources; the spec says
an error "is logged at its point of origin and then returned up the call chain
unmodified in meaning", so the returned value is the argument. -/
def LogError (err : Error) : Error := err

/-! ## Key pool manager (`protocols/helpers/keyHandler.go`) -/

/-- The `util.KeyPair` record. -/
structure KeyPair where
  PrivateKey : String
  PublicKey : String
deriving DecidableEq, Repr

/-- The Go zero value `util.KeyPair{}`. -/
def KeyPair.zero : KeyPair := ⟨"", ""⟩

/-- An `ssh.Client` handle; only its identity matters here. -/
abbrev Client := Nat

/-- Ghost record of the calls made on a key master, oldest first. -/
inductive Call where
  | GetKeyPair (client : Client)
  | generator (client : Client)
deriving DecidableEq, Repr

/-- What lies outside the `KeyMaster` value: the state `ext` a generator closure may
read and write (of an arbitrary type `W`), and the ghost log of calls. The generator
is assumed not to alias the key master itself. -/
structure World (W : Type) where
  ext : W
  calls : List Call

/-- A generator `func(client ssh.Client) (util.KeyPair, error)`: a Go closure, so it
may read and update external state. -/
abbrev Generator (W : Type) := Client → W → (KeyPair × Option Error) × W

/-- The `KeyMaster` struct. `generator = none` is the nil function value. -/
structure KeyMaster (W : Type) where
  PrivateKeys : List String
  PublicKeys : List String
  index : Int
  generator : Option (Generator W)

/-- `NewKeyMaster`: the two fetches (`FetchPreGeneratedPrivateKeys`,
`FetchPreGeneratedPublicKeys`, not among the sources) are passed as their results. -/
def NewKeyMaster {W : Type} (privs pubs : List String × Option Error) :
    Option (KeyMaster W) × Option Error :=
  match privs.2 with
  | some err => (none, some (LogError err))
  | none =>
    match pubs.2 with
    | some err => (none, some (LogError err))
    | none => (some ⟨privs.1, pubs.1, 0, none⟩, none)

/-- `AddGenerator`: `km.generator = gen`. -/
def KeyMaster.AddGenerator {W : Type} (km : KeyMaster W) (gen : Option (Generator W)) :
    KeyMaster W :=
  { km with generator := gen }

/-- `GenerateKeyPair`: the generator's result when one is set, else the zero pair and
the error "no generator provided". -/
def KeyMaster.GenerateKeyPair {W : Type} (km : KeyMaster W) (client : Client)
    (w : World W) : (KeyPair × Option Error) × World W :=
  match km.generator with
  | some gen =>
    let r := gen client w.ext
    (r.1, ⟨r.2, w.calls ++ [Call.generator client]⟩)
  | none => ((KeyPair.zero, some "no generator provided"), w)

/-- `GetKeyPair`. The result is `none` when an index expression panics. -/
def KeyMaster.GetKeyPair {W : Type} (km : KeyMaster W) (client : Client) (w : World W) :
    Option ((KeyPair × Option Error) × KeyMaster W × World W) :=
  let w1 : World W := ⟨w.ext, w.calls ++ [Call.GetKeyPair client]⟩
  if km.index ≥ (km.PrivateKeys.length : Int) ∨ km.index ≥ (km.PublicKeys.length : Int) then
    let r := km.GenerateKeyPair client w1
    some (r.1, km, r.2)
  else if km.index < 0 then none
  else
    match km.PrivateKeys[km.index.toNat]?, km.PublicKeys[km.index.toNat]? with
    | some priv, some pub => some ((⟨priv, pub⟩, none), { km with index := km.index + 1 }, w1)
    | _, _ => none

/-- A Go `map[string]V` as an association list with distinct keys, in order of first
insertion. -/
abbrev GoMap (V : Type) := List (String × V)

/-- The assignment `m[k] = v`. -/
def GoMap.set {V : Type} : GoMap V → String → V → GoMap V
  | [], k, v => [(k, v)]
  | (k1, v1) :: rest, k, v =>
    if k1 = k then (k, v) :: rest else (k1, v1) :: GoMap.set rest k v

/-- The lookup `m[k]` with its presence flag. -/
def GoMap.get? {V : Type} : GoMap V → String → Option V
  | [], _ => none
  | (k1, v1) :: rest, k => if k1 = k then some v1 else GoMap.get? rest k

/-- The loop of `GetMappedKeyPairs` over the remaining identifiers, `keyPairs` being
the map filled so far. -/
def KeyMaster.mappedLoop {W : Type} (client : Client) :
    List String → GoMap KeyPair → KeyMaster W → World W →
    Option ((Option (GoMap KeyPair) × Option Error) × KeyMaster W × World W)
  | [], keyPairs, km, w => some ((some keyPairs, none), km, w)
  | arg :: rest, keyPairs, km, w =>
    match km.GetKeyPair client w with
    | none => none
    | some ((_, some err), km1, w1) => some ((none, some (LogError err)), km1, w1)
    | some ((keyPair, none), km1, w1) =>
      KeyMaster.mappedLoop client rest (GoMap.set keyPairs arg keyPair) km1 w1

/-- `GetMappedKeyPairs`: the returned map is `none` for Go's `nil` map. -/
def KeyMaster.GetMappedKeyPairs {W : Type} (km : KeyMaster W) (args : List String)
    (client : Client) (w : World W) :
    Option ((Option (GoMap KeyPair) × Option Error) × KeyMaster W × World W) :=
  KeyMaster.mappedLoop client args [] km w

/-- The results of `n` successive `GetKeyPair` calls by one caller, oldest first, with
the key master and world they leave. -/
def KeyMaster.successive {W : Type} (client : Client) :
    Nat → KeyMaster W → World W →
    Option (List (KeyPair × Option Error) × KeyMaster W × World W)
  | 0, km, w => some ([], km, w)
  | n + 1, km, w =>
    match km.GetKeyPair client w with
    | none => none
    | some (r, km1, w1) =>
      match KeyMaster.successive client n km1 w1 with
      | none => none
      | some (rs, km2, w2) => some (r :: rs, km2, w2)

/-- Number of `GetKeyPair` calls in a call log. -/
def countGet (calls : List Call) : Nat :=
  (calls.filter (fun c => match c with | Call.GetKeyPair _ => true | _ => false)).length

/-- Number of generator invocations in a call log. -/
def countGen (calls : List Call) : Nat :=
  (calls.filter (fun c => match c with | Call.generator _ => true | _ => false)).length

/-- The static pair at position `i` of the pool, when both sequences reach it. -/
def KeyMaster.poolPair {W : Type} (km : KeyMaster W) (i : Nat) : Option KeyPair :=
  match km.PrivateKeys[i]?, km.PublicKeys[i]? with
  | some priv, some pub => some ⟨priv, pub⟩
  | _, _ => none

/-- The map obtained from `m0` by the assignments `m[args[i]] = ps[i]` in order. -/
def GoMap.fill {V : Type} : GoMap V → List String → List V → GoMap V
  | m0, a :: as, p :: ps => GoMap.fill (GoMap.set m0 a p) as ps
  | m0, _, _ => m0

/-- A two-pair pool with cursor 0 and no generator, over a counter as external state. -/
def demoKeyMaster : KeyMaster Nat := ⟨["priv0", "priv1"], ["pub0", "pub1"], 0, none⟩

/-- The pool of `demoKeyMaster` with the cursor at the end. -/
def demoExhausted : KeyMaster Nat := ⟨["priv0", "priv1"], ["pub0", "pub1"], 2, none⟩

/-- A generator that counts its invocations and returns a fixed pair. -/
def demoGenerator : Generator Nat := fun _ n => ((⟨"gpriv", "gpub"⟩, none), n + 1)

/-- An initial world: counter 0, empty call log. -/
def demoWorld : World Nat := ⟨0, []⟩


/-! ## Call sequences on a key master -/

/-- One call on a key master: the four methods of `keyHandler.go`. -/
inductive Op (W : Type) where
  | AddGenerator (gen : Option (Generator W))
  | GenerateKeyPair (client : Client)
  | GetKeyPair (client : Client)
  | GetMappedKeyPairs (args : List String) (client : Client)

/-- The key master and world one call leaves; `none` when an index expression
panics. The value the call returns to its caller is dropped. -/
def KeyMaster.step {W : Type} (km : KeyMaster W) (w : World W) :
    Op W → Option (KeyMaster W × World W)
  | Op.AddGenerator gen => some (km.AddGenerator gen, w)
  | Op.GenerateKeyPair client => some (km, (km.GenerateKeyPair client w).2)
  | Op.GetKeyPair client =>
    match km.GetKeyPair client w with
    | none => none
    | some r => some r.2
  | Op.GetMappedKeyPairs args client =>
    match km.GetMappedKeyPairs args client w with
    | none => none
    | some r => some r.2

/-- A finite sequence of calls, oldest first. -/
def KeyMaster.run {W : Type} :
    List (Op W) → KeyMaster W → World W → Option (KeyMaster W × World W)
  | [], km, w => some (km, w)
  | op :: ops, km, w =>
    match km.step w op with
    | none => none
    | some (km1, w1) => KeyMaster.run ops km1 w1

/-- The number of static pairs: `min(len(PrivateKeys), len(PublicKeys))`. -/
def KeyMaster.bound {W : Type} (km : KeyMaster W) : Nat :=
  min km.PrivateKeys.length km.PublicKeys.length

/-- A pool whose two sequences differ in length: three private keys, two public. -/
def unevenKeyMaster : KeyMaster Nat :=
  ⟨["priv0", "priv1", "priv2"], ["pub0", "pub1"], 0, none⟩

/-! ## Build state, remote execution and the node executor

The build strategies run against collaborators that are not among the sources: the
remote executor, the build state, the node executor and a few helpers. Their results
are supplied by an environment `Env`; every interaction is recorded in a trace. -/

/-- An `ssh.Node`: its absolute number and its IP address. -/
structure Node where
  AbsoluteNumber : Nat
  IP : String
deriving DecidableEq, Repr

/-- An `ethereum.Account` (declared outside the sources): the values of
`HexPrivateKey()`, `PublicKey` and `HexAddress()` (the latter with its "0x"). -/
structure Account where
  HexPrivateKey : String
  PublicKey : String
  HexAddress : String
deriving DecidableEq, Repr

/-- The remote executor's entry points used by the strategies. -/
inductive ExecKind where
  | DockerExec
  | DockerExecdit
  | DockerRunMainDaemon
  | Run
  | KeepTryRun
  | DockerExecdLog
deriving DecidableEq, Repr

/-- One observable step of a strategy. -/
inductive Event where
  | SetBuildSteps (steps : Int)
  | IncrementBuildProgress
  | SetBuildStage (stage : String)
  | Set (key : String)
  | SetExt (key : String)
  | GetP (key : String)
  | Defer (node : Nat)
  | call (fn : String) (args : List String)
  | exec (kind : ExecKind) (node : Nat) (cmd : String)
  | Sleep (seconds : Nat)
  | Lock
  | Unlock
  | AllNodeExecCon
  | AllNewNodeExecCon
deriving DecidableEq, Repr

/-- The fields of `ethclassic.EtcConf` (declared outside the sources) that the
strategies read. -/
structure EtcConf where
  Identity : String
  Name : String
  NetworkID : Int
  Consensus : String
  ExtraAccounts : Int
  MaxPeers : Int
  InitBalance : String
  Difficulty : Int
  GasLimit : Int
  Nonce : Int
  Timestamp : Int
  Mixhash : String
  ExtraData : String
  BlockPeriodSeconds : Int
  Epoch : Int
deriving DecidableEq, Repr

/-- The Go zero value of `EtcConf`. -/
def EtcConf.zero : EtcConf := ⟨"", "", 0, "", 0, 0, "", 0, 0, 0, 0, "", "", 0, 0⟩

/-- The fields of `parityConf` (declared outside the sources) that the strategies
read or write. -/
structure ParityConf where
  Name : String
  DataDir : String
  NetworkID : Int
  ChainID : Int
  Consensus : String
  InitBalance : String
  MinimumDifficulty : Int
  Difficulty : Int
  GasLimit : Int
  Nonce : Int
  Timestamp : Int
  Mixhash : String
  ExtraData : String
deriving DecidableEq, Repr

/-- The Go zero value of `parityConf`. -/
def ParityConf.zero : ParityConf := ⟨"", "", 0, 0, "", "", 0, 0, 0, 0, 0, "", ""⟩

/-- A value kept in the build state's stores. -/
inductive Val where
  | str (s : String)
  | strs (l : List String)
  | int (n : Int)
  | bool (b : Bool)
  | accounts (l : List Account)
  | alloc (m : GoMap (GoMap String))
  | etcconf (c : EtcConf)
  | gethConf (c : ParityConf)
  | params (m : GoMap String)
deriving Repr

/-- Modelled from the spec: the build state is not among the sources; per the spec it
holds the declared step count, the completed steps (incremented by one, never
clamped), the stage name, the artifact store and the external store (last writer
wins) and the queue of deferred actions (here: the node each was registered for). -/
structure BuildState where
  totalSteps : Int
  completedSteps : Int
  stage : String
  artifacts : GoMap Val
  externals : GoMap Val
  deferred : List Nat
  BuildID : String
deriving Repr

/-- The string slices that a strategy's per-node closures share. -/
inductive Slice where
  | staticNodes
  | wallets
  | rawWallets
  | genWallets
  | enodes
  | nodeIDList
deriving DecidableEq, Repr

/-- The mutable state a strategy runs in: the trace so far, the build state, the
strategy's mutex and the slices its per-node closures share. -/
structure St where
  trace : List Event
  bs : BuildState
  muxLocked : Bool
  slices : Slice → List String

/-- The part of `testnet.TestNet` the strategies read: the nodes, the nodes added by
the current operation and `LDD.Nodes`. -/
structure TestNet where
  Nodes : List Node
  NewlyBuiltNodes : List Node
  LDDNodes : Int
deriving Repr

/-- The environment: the results of everything outside the sources. Results may
depend on the trace so far, so a command can fail a few times and then succeed. -/
structure Env where
  /-- output and error of a remote command -/
  remote : List Event → ExecKind → Node → String → String × Option Error
  /-- error result of a helper of the repository that is not among the sources -/
  helper : List Event → String → List String → Option Error
  /-- result of `ethclassic.newConf` -/
  etcNewConf : EtcConf × Option Error
  /-- result of `parity.newConf` -/
  parityNewConf : ParityConf × Option Error
  /-- result of `ethereum.GenerateAccounts` -/
  GenerateAccounts : Int → List Account × Option Error
  /-- results of `buildSpec` and `buildPoaSpec` -/
  buildSpec : String → ParityConf → List String → String × Option Error
  /-- order in which the node executor's tasks take effect -/
  schedule : List Event → List Node → List Node
  /-- `regexp.FindAllString` for a pattern, an input and a limit -/
  FindAllString : String → String → Int → List String
  /-- `regexp.ReplaceAllString` for a pattern, an input and a replacement -/
  ReplaceAllString : String → String → String → String
  /-- `json.Unmarshal` of a response -/
  jsonUnmarshal : String → Option Error
  /-- `util.GetJSONString(result, "result", &enode)` on a response -/
  GetJSONString : String → String × Option Error
  /-- iteration order of `range` over a map with the given keys -/
  rangeOrder : List String → List String
  /-- bound on the iterations of an unbounded loop, past which the run hangs -/
  fuel : Nat
  /-- `ethereum.RPCPort` -/
  RPCPort : Int
  /-- `conf.DockerOutputFile` -/
  DockerOutputFile : String

/-- How a run ends: normally with a value, with a run-time panic, or never (a task
blocked for ever, or a loop that does not end). -/
inductive Res (α : Type) where
  | ok (a : α)
  | panic
  | hang
deriving DecidableEq, Repr

/-- A computation of a strategy. The state reached is kept also when the run does not
end normally. -/
def Run (α : Type) : Type := St → Res α × St

/-- Return without effect. -/
def Run.pure {α : Type} (a : α) : Run α := fun s => (Res.ok a, s)

/-- Sequencing; a panic or hang ends the run. -/
def Run.bind {α β : Type} (m : Run α) (f : α → Run β) : Run β := fun s =>
  match m s with
  | (Res.ok a, s1) => f a s1
  | (Res.panic, s1) => (Res.panic, s1)
  | (Res.hang, s1) => (Res.hang, s1)

instance : Monad Run where
  pure := Run.pure
  bind := Run.bind

/-- A run-time panic. -/
def Run.panic {α : Type} : Run α := fun s => (Res.panic, s)

/-- A run that never returns. -/
def Run.hang {α : Type} : Run α := fun s => (Res.hang, s)

/-- Append an event to the trace. -/
def emit (e : Event) : Run Unit := fun s => (Res.ok (), { s with trace := s.trace ++ [e] })

/-- The statement `if err != nil { return util.LogError(err) }` followed by `rest`. -/
def orReturn (err : Option Error) (rest : Run (Option Error)) : Run (Option Error) :=
  match err with
  | some e => Run.pure (some (LogError e))
  | none => rest

/-- Modelled from the spec: `SetBuildSteps` sets `totalSteps`. -/
def SetBuildSteps (steps : Int) : Run Unit := fun s =>
  (Res.ok (), { s with trace := s.trace ++ [Event.SetBuildSteps steps],
                        bs := { s.bs with totalSteps := steps } })

/-- Modelled from the spec: `IncrementBuildProgress` adds 1 to `completedSteps`. -/
def IncrementBuildProgress : Run Unit := fun s =>
  (Res.ok (), { s with trace := s.trace ++ [Event.IncrementBuildProgress],
                        bs := { s.bs with completedSteps := s.bs.completedSteps + 1 } })

/-- Modelled from the spec: `SetBuildStage` overwrites `stage`. -/
def SetBuildStage (stage : String) : Run Unit := fun s =>
  (Res.ok (), { s with trace := s.trace ++ [Event.SetBuildStage stage],
                        bs := { s.bs with stage := stage } })

/-- Modelled from the spec: `Set` stores an artifact, last writer wins. -/
def BuildState.Set (key : String) (v : Val) : Run Unit := fun s =>
  (Res.ok (), { s with trace := s.trace ++ [Event.Set key],
                        bs := { s.bs with artifacts := GoMap.set s.bs.artifacts key v } })

/-- Modelled from the spec: `SetExt` stores an externally visible value. -/
def BuildState.SetExt (key : String) (v : Val) : Run Unit := fun s =>
  (Res.ok (), { s with trace := s.trace ++ [Event.SetExt key],
                        bs := { s.bs with externals := GoMap.set s.bs.externals key v } })

/-- Modelled from the spec: `GetP` reads an artifact back, `none` when it is absent. -/
def BuildState.GetP (key : String) : Run (Option Val) := fun s =>
  (Res.ok (GoMap.get? s.bs.artifacts key), { s with trace := s.trace ++ [Event.GetP key] })

/-- Modelled from the spec: `Defer` appends an action to the deferred queue. -/
def BuildState.Defer (node : Nat) : Run Unit := fun s =>
  (Res.ok (), { s with trace := s.trace ++ [Event.Defer node],
                        bs := { s.bs with deferred := s.bs.deferred ++ [node] } })

/-- A remote command on a node: its output and error come from the environment. -/
def remoteExec (env : Env) (kind : ExecKind) (node : Node) (cmd : String) :
    Run (String × Option Error) := fun s =>
  (Res.ok (env.remote s.trace kind node cmd),
    { s with trace := s.trace ++ [Event.exec kind node.AbsoluteNumber cmd] })

/-- A helper of the repository that is not among the sources: only its error result
is observed. -/
def helperCall (env : Env) (fn : String) (args : List String) : Run (Option Error) :=
  fun s => (Res.ok (env.helper s.trace fn args),
    { s with trace := s.trace ++ [Event.call fn args] })

/-- The call `time.Sleep(seconds * time.Second)`. -/
def Sleep (seconds : Nat) : Run Unit := emit (Event.Sleep seconds)

/-- The declaration `mux := sync.Mutex{}`: a fresh, unlocked mutex. -/
def newMutex : Run Unit := fun s => (Res.ok (), { s with muxLocked := false })

/-- The call `mux.Lock()`: blocks for ever when the mutex is held and nothing is left
to release it. -/
def Lock : Run Unit := fun s =>
  if s.muxLocked then (Res.hang, s)
  else (Res.ok (), { s with trace := s.trace ++ [Event.Lock], muxLocked := true })

/-- The call `mux.Unlock()`: a fatal error when the mutex is not held. -/
def Unlock : Run Unit := fun s =>
  if s.muxLocked then (Res.ok (), { s with trace := s.trace ++ [Event.Unlock], muxLocked := false })
  else (Res.panic, s)

/-- The tasks of one node-executor call, run one after the other in the given order.
A task that panics ends the run. A task that blocks for ever does not stop the
remaining tasks, but the call then never returns. The error returned is that of the
first failing task in this order. -/
def forNodes (f : Node → Run (Option Error)) : List Node → Run (Option Error)
  | [] => Run.pure none
  | node :: rest => fun s =>
    match f node s with
    | (Res.ok err, s1) =>
      match forNodes f rest s1 with
      | (Res.ok err2, s2) => (Res.ok (match err with | some e => some e | none => err2), s2)
      | (Res.panic, s2) => (Res.panic, s2)
      | (Res.hang, s2) => (Res.hang, s2)
    | (Res.panic, s1) => (Res.panic, s1)
    | (Res.hang, s1) =>
      match forNodes f rest s1 with
      | (Res.panic, s2) => (Res.panic, s2)
      | (_, s2) => (Res.hang, s2)

/-- Modelled from the spec: `helpers.AllNodeExecCon` is not among the sources; per the
spec it runs the work function once for every node of the network, waits for all
tasks (no early abort) and returns nil or a non-nil error derived from the failing
tasks. The tasks take effect in the order the environment schedules them. -/
def AllNodeExecCon (env : Env) (tn : TestNet) (f : Node → Run (Option Error)) :
    Run (Option Error) := fun s =>
  forNodes f (env.schedule s.trace tn.Nodes)
    { s with trace := s.trace ++ [Event.AllNodeExecCon] }

/-- Modelled from the spec: `helpers.AllNewNodeExecCon`, the same over the nodes
introduced by the add-node operation in progress only. -/
def AllNewNodeExecCon (env : Env) (tn : TestNet) (f : Node → Run (Option Error)) :
    Run (Option Error) := fun s =>
  forNodes f (env.schedule s.trace tn.NewlyBuiltNodes)
    { s with trace := s.trace ++ [Event.AllNewNodeExecCon] }

/-- The call `ethereum.GenerateAccounts(n)`; not among the sources. -/
def GenerateAccounts (env : Env) (n : Int) : Run (List Account × Option Error) := fun s =>
  (Res.ok (env.GenerateAccounts n),
    { s with trace := s.trace ++ [Event.call "ethereum.GenerateAccounts" [toString n]] })

/-- The JSON-RPC request the strategies send to a node with `curl`, for a method and
its parameter list. -/
def curl (ip method params : String) : String :=
  "curl -sS -X POST http://" ++ ip ++ ":8545 -H \"Content-Type: application/json\"  -d " ++
    "'\x7b \"method\": \"" ++ method ++ "\", \"params\": [" ++ params ++
    "], \"id\": 1, \"jsonrpc\": \"2.0\" \x7d'"

/-- The current value of a shared slice. -/
def readSlice (v : Slice) : Run (List String) := fun s => (Res.ok (s.slices v), s)

/-- The assignment `v = l` to a shared slice. -/
def assignSlice (v : Slice) (l : List String) : Run Unit := fun s =>
  (Res.ok (), { s with slices := fun u => if u = v then l else s.slices u })

/-- The statement `v = make([]string, n)`: a panic for a negative length. -/
def makeSlice (v : Slice) (n : Int) : Run Unit :=
  if n < 0 then Run.panic else assignSlice v (List.replicate n.toNat "")

/-- The statement `v = append(v, x)`. -/
def appendSlice (v : Slice) (x : String) : Run Unit := fun s =>
  (Res.ok (), { s with slices := fun u => if u = v then s.slices v ++ [x] else s.slices u })

/-- The statement `v[i] = x`: a panic when `i` is out of range. -/
def storeSlice (v : Slice) (i : Nat) (x : String) : Run Unit := fun s =>
  if i < (s.slices v).length then
    (Res.ok (), { s with slices := fun u => if u = v then (s.slices v).set i x else s.slices u })
  else (Res.panic, s)

/-- The state a strategy starts in: empty trace, unlocked mutex, empty slices, the given
build state. -/
def St.init (bs : BuildState) : St := ⟨[], bs, false, fun _ => []⟩

/-- A fresh build state. -/
def BuildState.fresh : BuildState := ⟨0, 0, "", [], [], [], "build"⟩

/-- Number of `IncrementBuildProgress` events in a trace. -/
def countIncrements (tr : List Event) : Nat :=
  (tr.filter (fun e => match e with | Event.IncrementBuildProgress => true | _ => false)).length

/-- Number of `SetBuildSteps` events in a trace. -/
def countSetBuildSteps (tr : List Event) : Nat :=
  (tr.filter (fun e => match e with | Event.SetBuildSteps _ => true | _ => false)).length

/-- Whether an event is a `SetBuildSteps`. -/
def Event.isSetBuildSteps : Event → Bool
  | Event.SetBuildSteps _ => true
  | _ => false

/-- Whether an event is an `IncrementBuildProgress`. -/
def Event.isIncrement : Event → Bool
  | Event.IncrementBuildProgress => true
  | _ => false

/-- Whether `SetBuildSteps` occurs exactly once in the trace and no
`IncrementBuildProgress` occurs before it. -/
def declaredOnceBeforeIncrements (tr : List Event) : Bool :=
  countSetBuildSteps tr == 1 &&
    (tr.takeWhile (fun e => !e.isSetBuildSteps)).all (fun e => !e.isIncrement)

/-- The network of `n` nodes with absolute numbers `0 .. n-1`, all newly built. -/
def demoNet (n : Nat) : TestNet :=
  let nodes := (List.range n).map (fun i => (⟨i, "10.0.0." ++ toString i⟩ : Node))
  ⟨nodes, nodes, n⟩

/-- An environment in which every remote command and helper succeeds, tasks run in
node order, and every scrape finds its pattern. -/
def okEnv : Env where
  remote := fun _ _ _ _ => ("enode://ab@[::]:30303\n", none)
  helper := fun _ _ _ => none
  etcNewConf := ({ EtcConf.zero with Identity := "mainnet2", Consensus := "ethash" }, none)
  parityNewConf := ({ ParityConf.zero with Consensus := "ethash" }, none)
  GenerateAccounts := fun n =>
    ((List.range n.toNat).map (fun i => ⟨"k" ++ toString i, "p" ++ toString i,
      "0xa" ++ toString i⟩), none)
  buildSpec := fun _ _ _ => ("spec", none)
  schedule := fun _ l => l
  FindAllString := fun _ _ _ => ["enode://ab@[::]:30303"]
  ReplaceAllString := fun _ s _ => s
  jsonUnmarshal := fun _ => none
  GetJSONString := fun _ => ("enode://ab@10.0.0.1:30303", none)
  rangeOrder := fun l => l
  fuel := 1
  RPCPort := 8545
  DockerOutputFile := "/output.log"

/-- Every event a computation appends to the trace satisfies `P`, whatever the state
it starts in and however it ends; earlier events are kept. -/
structure Emits {α : Type} (P : Event → Prop) (m : Run α) : Prop where
  out : ∀ s, ∃ evs, (m s).2.trace = s.trace ++ evs ∧ ∀ e ∈ evs, P e

/-! ## ethclassic (`protocols/ethclassic/etc.go`) -/

namespace ethclassic

/-- The constant `peeringRetries`. -/
def peeringRetries : Nat := 10

/-- The constant `password`. -/
def password : String := "password"

/-- The constant `passwordFile`. -/
def passwordFile : String := "/geth/passwd"

/-- The call `newConf(tn.LDD.Params)`; `newConf` is not among the sources. -/
def newConf (env : Env) : Run (EtcConf × Option Error) := fun s =>
  (Res.ok env.etcNewConf, { s with trace := s.trace ++ [Event.call "newConf" []] })

/-- `generatePasswordFile`: one `password` line per account, copied to the new nodes. -/
def generatePasswordFile (env : Env) (accounts : List Account) (pw dest : String) :
    Run (Option Error) := do
  let data := String.join (accounts.map (fun _ => pw ++ "\n"))
  let err ← helperCall env "helpers.CopyBytesToAllNewNodes" [data, dest]
  return err.map LogError

/-- The loop of the wallet task over `accounts` from position `i` on. -/
def importAccounts (env : Env) (node : Node) : List Account → Nat → Run (Option Error)
  | [], _ => Run.pure none
  | account :: rest, i => do
    let r ← remoteExec env ExecKind.DockerExec node
      ("bash -c 'echo \"" ++ account.HexPrivateKey ++ "\" >> /geth/pk" ++ toString i ++ "'")
    orReturn r.2 do
    let r ← remoteExec env ExecKind.DockerExec node
      ("geth --datadir /geth/ --password /geth/passwd account import /geth/pk" ++ toString i)
    orReturn r.2 do
    importAccounts env node rest (i + 1)

/-- The genesis `alloc` map: one entry per account address without its first two
characters (`HexAddress()[2:]`; addresses are "0x" followed by hex digits, so the
slice expression does not panic), each with the configured balance. -/
def genesisAlloc (etcconf : EtcConf) (accounts : List Account) : GoMap (GoMap String) :=
  accounts.foldl
    (fun alloc account =>
      GoMap.set alloc (account.HexAddress.drop 2) [("balance", etcconf.InitBalance)])
    []

/-- The `extraData` written for the "clique" consensus: `none` when `accounts[0]`
panics. -/
def cliqueExtraData (accounts : List Account) : Option String :=
  match accounts[0]? with
  | none => none
  | some account =>
    some ("0x0000000000000000000000000000000000000000000000000000000000000000" ++
      account.HexAddress.drop 2 ++
      ("000000000000000000000000000000000000000000000000000000000000000000" ++
       "0000000000000000000000000000000000000000000000000000000000000000"))

/-- The value of the `extraData` entry of the genesis map; `none` when it panics. -/
def genesisExtraData (etcconf : EtcConf) (accounts : List Account) : Option String :=
  if etcconf.Consensus = "clique" then cliqueExtraData accounts else some etcconf.ExtraData

/-- `createGenesisfile`: builds the allocation and the genesis map, stores "alloc" and
"etcconf" and has `helpers.CreateConfigs` render "/geth/chain.json" on every node. -/
def createGenesisfile (env : Env) (etcconf : EtcConf) (accounts : List Account) :
    Run (Option Error) := do
  let alloc := genesisAlloc etcconf accounts
  match genesisExtraData etcconf accounts with
  | none => Run.panic
  | some extraData =>
  BuildState.Set "alloc" (Val.alloc alloc)
  BuildState.Set "etcconf" (Val.etcconf etcconf)
  helperCall env "helpers.CreateConfigs" ["/geth/chain.json", extraData]

/-- The regular expression `enodePattern`. -/
def enodePattern : String := "enode:\\/\\/[A-z|0-9]+@(\\[\\:\\:\\]|([0-9]|\\.)+)\\:[0-9]+"

/-- The regular expression `enodeAddressPattern`. -/
def enodeAddressPattern : String :=
  "\\[\\:\\:\\]|([0-9]\x7b1,3\x7d\\.[0-9]\x7b1,3\x7d\\.[0-9]\x7b1,3\x7d\\.[0-9]\x7b1,3\x7d)"

/-- The task of the "Initializing geth" phase on one node. -/
def initGeth (env : Env) (etcconf : EtcConf) (node : Node) : Run (Option Error) := do
  let r ← remoteExec env ExecKind.DockerExec node
    ("bash -c 'echo -e \"admin.nodeInfo.enode\\nexit\\n\" | " ++
      "geth --rpc --datadir=/geth/ --network-id=" ++ toString etcconf.NetworkID ++
      " --chain=/geth/chain.json console'")
  orReturn r.2 do
  match (env.FindAllString enodePattern r.1 1)[0]? with
  | none => Run.panic
  | some enode =>
  let enode := env.ReplaceAllString enodeAddressPattern enode node.IP
  Lock
  storeSlice Slice.staticNodes node.AbsoluteNumber enode
  Unlock
  IncrementBuildProgress
  return none

/-- The first task of the "Starting geth" phase on one node: move the keystore under
the mutex, then read the node's key file. -/
def moveKeystore (env : Env) (etcconf : EtcConf) (node : Node) : Run (Option Error) := do
  Lock
  let r ← remoteExec env ExecKind.DockerExec node
    ("mv /geth/mainnet/keystore/ /geth/" ++ etcconf.Identity ++ "/")
  orReturn r.2 do
  Unlock
  let r ← remoteExec env ExecKind.DockerExec node
    ("bash -c 'cd /geth/" ++ etcconf.Identity ++ "/keystore && cat $(ls | sed -n " ++
      toString (node.AbsoluteNumber + 1) ++ "p)'")
  orReturn r.2 do
  let cont := r.1.replace "\"" "\\\""
  BuildState.Set ("node" ++ toString node.AbsoluteNumber ++ "Key") (Val.str cont)
  IncrementBuildProgress
  return none

/-- The second task of the "Starting geth" phase on one node: start the daemon. -/
def startGeth (env : Env) (etcconf : EtcConf) (accounts : List Account) (unlock : String)
    (node : Node) : Run (Option Error) := do
  IncrementBuildProgress
  match accounts[node.AbsoluteNumber]? with
  | none => Run.panic
  | some account =>
  let gethCmd :=
    "geth --datadir=/geth/ --maxpeers=" ++ toString etcconf.MaxPeers ++
    " --chain=/geth/chain.json --rpc --nodiscover --rpcaddr=" ++ node.IP ++
    " --rpcapi=\"admin,web3,db,eth,net,personal,miner,txpool\" --rpccorsdomain=\"0.0.0.0\"" ++
    " --mine --unlock=\"" ++ unlock ++ "\"" ++
    " --password=/geth/passwd --etherbase=" ++ account.HexAddress ++
    " console  2>&1 | tee " ++ env.DockerOutputFile
  let r ← remoteExec env ExecKind.DockerExecdit node ("bash -ic '" ++ gethCmd ++ "'")
  orReturn r.2 do
  IncrementBuildProgress
  return none

/-- The retry loop of `peerAllNodes` for one peer, with `k` iterations left and `err`
the error of the last attempt: try, stop on success, else sleep one second. -/
def peerRetry (env : Env) (node : Node) (enode : String) :
    Nat → Option Error → Run (Option Error)
  | 0, err => Run.pure err
  | k + 1, _ => do
    let r ← remoteExec env ExecKind.KeepTryRun node
      (curl node.IP "admin_addPeer" ("\"" ++ enode ++ "\""))
    match r.2 with
    | none => Run.pure none
    | some e => do
      Sleep 1
      peerRetry env node enode k (some e)

/-- The loop of a `peerAllNodes` task over `enodes` from position `i` on. -/
def peerLoop (env : Env) (node : Node) : List String → Nat → Run (Option Error)
  | [], _ => Run.pure none
  | enode :: rest, i =>
    if i = node.AbsoluteNumber then peerLoop env node rest (i + 1)
    else do
      let err ← peerRetry env node enode peeringRetries none
      IncrementBuildProgress
      orReturn err do
      peerLoop env node rest (i + 1)

/-- `peerAllNodes`. -/
def peerAllNodes (env : Env) (tn : TestNet) (enodes : List String) : Run (Option Error) :=
  AllNodeExecCon env tn (fun node => peerLoop env node enodes 0)

/-- `unlockAllAccounts`: every node's task registers a deferred action. -/
def unlockAllAccounts (env : Env) (tn : TestNet) : Run (Option Error) :=
  AllNodeExecCon env tn (fun node => do
    BuildState.Defer node.AbsoluteNumber
    return none)

/-- `build`. -/
def build (env : Env) (tn : TestNet) : Run (Option Error) := do
  newMutex
  let c ← newConf env
  let etcconf := c.1
  orReturn c.2 do
  SetBuildSteps (8 + (5 * tn.LDDNodes) + (tn.LDDNodes * (tn.LDDNodes - 1)))
  IncrementBuildProgress
  SetBuildStage "Distributing secrets"
  let _ ← helperCall env "helpers.MkdirAllNodes" ["/geth"]
  IncrementBuildProgress
  SetBuildStage "Creating the wallets"
  let a ← GenerateAccounts env (tn.LDDNodes + etcconf.ExtraAccounts)
  let accounts := a.1
  orReturn a.2 do
  let err ← generatePasswordFile env accounts password passwordFile
  orReturn err do
  let err ← AllNodeExecCon env tn (fun node => importAccounts env node accounts 0)
  orReturn err do
  BuildState.Set "generatedAccs" (Val.accounts accounts)
  IncrementBuildProgress
  let unlock := String.intercalate "," (accounts.map (fun account => account.HexAddress))
  IncrementBuildProgress
  SetBuildStage "Creating the genesis block"
  let err ← createGenesisfile env etcconf accounts
  orReturn err do
  IncrementBuildProgress
  SetBuildStage "Bootstrapping network"
  makeSlice Slice.staticNodes tn.LDDNodes
  SetBuildStage "Initializing geth"
  let _ ← AllNodeExecCon env tn (fun node => initGeth env etcconf node)
  IncrementBuildProgress
  SetBuildStage "Starting geth"
  let _ ← AllNodeExecCon env tn (fun node => moveKeystore env etcconf node)
  let err ← AllNodeExecCon env tn (fun node => startGeth env etcconf accounts unlock node)
  orReturn err do
  IncrementBuildProgress
  BuildState.SetExt "networkID" (Val.int etcconf.NetworkID)
  let _ ← helperCall env "ethereum.ExposeAccounts" []
  BuildState.SetExt "port" (Val.int env.RPCPort)
  BuildState.SetExt "namespace" (Val.str "eth")
  BuildState.SetExt "password" (Val.str password)
  let staticNodes ← readSlice Slice.staticNodes
  BuildState.Set "staticNodes" (Val.strs staticNodes)
  SetBuildStage "peering the nodes"
  Sleep 3
  let err ← peerAllNodes env tn staticNodes
  orReturn err do
  let _ ← unlockAllAccounts env tn
  return none

end ethclassic

/-! ## parity (`protocols/parity/parity.go`) -/

namespace parity

/-- The constant `password`. -/
def password : String := "password"

/-- The constant `passwordFile`. -/
def passwordFile : String := "/parity/passwd"

/-- The call `newConf(tn.LDD.Params)`; `newConf` is not among the sources. -/
def newConf (env : Env) : Run (ParityConf × Option Error) := fun s =>
  (Res.ok env.parityNewConf, { s with trace := s.trace ++ [Event.call "newConf" []] })

/-- The calls `buildSpec` and `buildPoaSpec`; not among the sources. -/
def specCall (env : Env) (fn : String) (pconf : ParityConf) (wallets : List String) :
    Run (String × Option Error) := fun s =>
  (Res.ok (env.buildSpec fn pconf wallets),
    { s with trace := s.trace ++ [Event.call fn wallets] })

/-- The index `a % n` for a non-negative `a`: `none` (a panic) when `n` is zero. -/
def goMod (a : Nat) (n : Int) : Option Nat :=
  if n = 0 then none else some (a % n.natAbs)

/-- The Go expression `res[:len(res)-1]` on a non-empty string: the string without its
last byte. When the last character is a single byte that is the string without the
character; when it takes `k > 1` bytes, the `k - 1` bytes left of it are not valid
UTF-8, and each is written U+FFFD, as Go decodes such a byte. -/
def cutLastByte (res : String) : String :=
  match res.data.getLast? with
  | none => res
  | some c => res.dropRight 1 ++ String.mk (List.replicate (c.utf8Size - 1) (Char.ofNat 65533))

/-- The wallet task of `build` on one node: create an account, keep its address in
`wallets[abs]` and its key file in `rawWallets[abs]`. -/
def createWallet (env : Env) (node : Node) : Run (Option Error) := do
  let r ← remoteExec env ExecKind.DockerExec node
    "parity --base-path=/parity/ --password=/parity/passwd account new"
  orReturn r.2 do
  if r.1.length = 0 then return some "account new returned an empty response" else
  Lock
  storeSlice Slice.wallets node.AbsoluteNumber (cutLastByte r.1)
  Unlock
  let r ← remoteExec env ExecKind.DockerExec node "bash -c 'cat /parity/keys/ethereum/*'"
  orReturn r.2 do
  IncrementBuildProgress
  Lock
  storeSlice Slice.rawWallets node.AbsoluteNumber (r.1.replace "\"" "\\\"")
  Unlock
  return none

/-- The wallet task of `add` on one node: as `createWallet`, but the results are
appended to `wallets` and `rawWallets`. -/
def createWalletAppend (env : Env) (node : Node) : Run (Option Error) := do
  let r ← remoteExec env ExecKind.DockerExec node
    "parity --base-path=/parity/ --password=/parity/passwd account new"
  orReturn r.2 do
  if r.1.length = 0 then return some "account new returned an empty response" else
  Lock
  appendSlice Slice.wallets (cutLastByte r.1)
  Unlock
  let r ← remoteExec env ExecKind.DockerExec node "bash -c 'cat /parity/keys/ethereum/*'"
  orReturn r.2 do
  IncrementBuildProgress
  Lock
  appendSlice Slice.rawWallets (r.1.replace "\"" "\\\"")
  Unlock
  return none

/-- The loop of the import task over `rawWallets` from position `i` on. -/
def importLoop (env : Env) (node : Node) : List String → Nat → Run (Option Error)
  | [], _ => Run.pure none
  | rawWallet :: rest, i => do
    let r ← remoteExec env ExecKind.DockerExec node
      ("bash -c 'echo \"" ++ rawWallet ++ "\">/parity/account" ++ toString i ++ "'")
    orReturn r.2 do
    let r ← remoteExec env ExecKind.DockerExec node
      ("parity --base-path=/parity/ --chain /parity/spec.json --password=/parity/passwd " ++
        "account import /parity/account" ++ toString i)
    orReturn r.2 do
    importLoop env node rest (i + 1)

/-- The import task on one node. -/
def importWallets (env : Env) (node : Node) : Run (Option Error) := do
  let rawWallets ← readSlice Slice.rawWallets
  let err ← importLoop env node rawWallets 0
  orReturn err do
  IncrementBuildProgress
  return none

/-- The daemon task on one node, `author` being the wallet selected for it (`none`
when the index expression panics); the deferred increment runs on every way out. -/
def startDaemon (env : Env) (node : Node) (author : Option String) : Run (Option Error) :=
  match author with
  | none => do
    IncrementBuildProgress
    Run.panic
  | some wallet => do
    let r ← remoteExec env ExecKind.DockerRunMainDaemon node
      ("parity --author=" ++ wallet ++ " -c /parity/config.toml --chain=/parity/spec.json")
    IncrementBuildProgress
    return r.2

/-- The loop `for len(enode) == 0` of the enode task, with `k` iterations allowed:
ask the node for its enode until the answer is non-empty. Returns the enode and the
error on which the task returns. -/
def enodeLoop (env : Env) (node : Node) : Nat → Run (String × Option Error)
  | 0 => Run.hang
  | k + 1 => do
    let r ← remoteExec env ExecKind.KeepTryRun node (curl node.IP "parity_enode" "")
    match r.2 with
    | some e => return ("", some (LogError e))
    | none =>
    match env.jsonUnmarshal r.1 with
    | some e => return ("", some (LogError e))
    | none =>
    let g := env.GetJSONString r.1
    match g.2 with
    | some e => return ("", some (LogError e))
    | none =>
    if g.1.length = 0 then enodeLoop env node k else return (g.1, none)

/-- The enode task on one node, storing the enode at `slot` (`none` when the index
expression panics). -/
def collectEnode (env : Env) (node : Node) (slot : Option Nat) : Run (Option Error) := do
  let r ← enodeLoop env node env.fuel
  match r.2 with
  | some e => return some e
  | none =>
  IncrementBuildProgress
  Lock
  match slot with
  | none => Run.panic
  | some i =>
  storeSlice Slice.enodes i r.1
  Unlock
  return none

/-- The loop of a `peerAllNodes` task over `enodes` from position `i` on. -/
def peerLoop (env : Env) (node : Node) : List String → Nat → Run (Option Error)
  | [], _ => Run.pure none
  | enode :: rest, i =>
    if i = node.AbsoluteNumber then peerLoop env node rest (i + 1)
    else do
      let r ← remoteExec env ExecKind.Run node
        (curl node.IP "parity_addReservedPeer" ("\"" ++ enode ++ "\""))
      IncrementBuildProgress
      orReturn r.2 do
      peerLoop env node rest (i + 1)

/-- `peerAllNodes`: over the newly built nodes. -/
def peerAllNodes (env : Env) (tn : TestNet) (enodes : List String) : Run (Option Error) :=
  AllNewNodeExecCon env tn (fun node => peerLoop env node enodes 0)

/-- The `switch pconf.Consensus` of `storeParameters`. -/
def setMine (pconf : ParityConf) : Run Unit :=
  if pconf.Consensus = "ethash" then BuildState.Set "mine" (Val.bool true)
  else if pconf.Consensus = "poa" then BuildState.Set "mine" (Val.bool false)
  else pure ()

/-- `storeParameters`. -/
def storeParameters (env : Env) (tn : TestNet) (pconf : ParityConf)
    (wallets enodes : List String) : Run Unit := do
  let _ ← GenerateAccounts env tn.LDDNodes
  BuildState.Set "networkID" (Val.int pconf.NetworkID)
  BuildState.SetExt "networkID" (Val.int pconf.NetworkID)
  BuildState.SetExt "port" (Val.int env.RPCPort)
  let _ ← helperCall env "ethereum.ExposeAccounts" []
  setMine pconf
  BuildState.Set "peers" (Val.strs enodes)
  BuildState.Set "gethConf" (Val.gethConf pconf)
  BuildState.Set "wallets" (Val.strs wallets)

/-- `setupPOA`. -/
def setupPOA (env : Env) (pconf : ParityConf) (wallets : List String) : Run (Option Error) := do
  let spec ← specCall env "buildPoaSpec" pconf wallets
  orReturn spec.2 do
  let err ← helperCall env "helpers.CopyBytesToAllNodes" [spec.1, "/parity/spec.json"]
  orReturn err do
  helperCall env "helpers.CreateConfigs" ["/parity/config.toml", "buildPoaConfig"]

/-- `setupPOW`. -/
def setupPOW (env : Env) (pconf : ParityConf) (wallets : List String) : Run (Option Error) := do
  IncrementBuildProgress
  let spec ← specCall env "buildSpec" pconf wallets
  orReturn spec.2 do
  let err ← helperCall env "helpers.CreateConfigs" ["/parity/config.toml", "buildConfig"]
  orReturn err do
  helperCall env "helpers.CopyBytesToAllNodes" [spec.1, "/parity/spec.json"]

/-- `setupNewPOA`. -/
def setupNewPOA (env : Env) (pconf : ParityConf) (_wallets genWallets : List String) :
    Run (Option Error) := do
  let spec ← specCall env "buildPoaSpec" pconf genWallets
  orReturn spec.2 do
  let err ← helperCall env "helpers.CopyBytesToAllNewNodes" [spec.1, "/parity/spec.json"]
  orReturn err do
  helperCall env "helpers.CreateConfigsNewNodes" ["/parity/config.toml", "buildPoaConfig"]

/-- `setupNewPOW`. -/
def setupNewPOW (env : Env) (pconf : ParityConf) (_wallets genWallets : List String) :
    Run (Option Error) := do
  IncrementBuildProgress
  let spec ← specCall env "buildSpec" pconf genWallets
  orReturn spec.2 do
  let err ← helperCall env "helpers.CreateConfigsNewNodes" ["/parity/config.toml", "buildConfig"]
  orReturn err do
  helperCall env "helpers.CopyBytesToAllNewNodes" [spec.1, "/parity/spec.json"]

/-- The `switch pconf.Consensus` of `build`: the setup to run, `none` in the default
case. -/
def chooseSetup (env : Env) (pconf : ParityConf) (wallets : List String) :
    Option (Run (Option Error)) :=
  if pconf.Consensus = "ethash" then some (setupPOW env pconf wallets)
  else if pconf.Consensus = "poa" then some (setupPOA env pconf wallets)
  else none

/-- The `switch etcGenesisFile.Consensus` of `add`: the setup to run, `none` in the
default case. -/
def chooseNewSetup (env : Env) (consensus : String) (pconf : ParityConf)
    (wallets genWallets : List String) : Option (Run (Option Error)) :=
  if consensus = "ethash" then some (setupNewPOW env pconf wallets genWallets)
  else if consensus = "poa" then some (setupNewPOA env pconf wallets genWallets)
  else none

/-- `build`. -/
def build (env : Env) (tn : TestNet) : Run (Option Error) := do
  newMutex
  let c ← newConf env
  let pconf := c.1
  orReturn c.2 do
  SetBuildSteps (9 + (6 * tn.LDDNodes))
  let err ← helperCall env "helpers.MkdirAllNodes" ["/parity"]
  orReturn err do
  IncrementBuildProgress
  let err ← helperCall env "ethereum.CreatePasswordFile" [password, passwordFile]
  orReturn err do
  IncrementBuildProgress
  makeSlice Slice.wallets tn.LDDNodes
  makeSlice Slice.rawWallets tn.LDDNodes
  let err ← AllNodeExecCon env tn (fun node => createWallet env node)
  orReturn err do
  let wallets ← readSlice Slice.wallets
  match chooseSetup env pconf wallets with
  | none => return some (LogError ("Unknown consensus " ++ pconf.Consensus))
  | some run =>
  let err ← run
  orReturn err do
  let err ← AllNodeExecCon env tn (fun node => importWallets env node)
  orReturn err do
  let err ← AllNodeExecCon env tn (fun node => startDaemon env node wallets[node.AbsoluteNumber]?)
  orReturn err do
  Sleep 5
  makeSlice Slice.enodes tn.LDDNodes
  let err ← AllNodeExecCon env tn
    (fun node => collectEnode env node (some node.AbsoluteNumber))
  orReturn err do
  let enodes ← readSlice Slice.enodes
  storeParameters env tn pconf wallets enodes
  IncrementBuildProgress
  peerAllNodes env tn enodes

/-- The mkdir task of `add` on one node. -/
def mkdirTask (env : Env) (node : Node) : Run (Option Error) := do
  let r ← remoteExec env ExecKind.DockerExec node "mkdir -p /parity"
  return r.2

/-- The loop of the keystore task of `add` for positions `i` up to the node's absolute
number, with `k` positions left: append each earlier node's stored key file. -/
def keystoreLoop (env : Env) (node : Node) : Nat → Nat → Run (Option Error)
  | 0, _ => Run.pure none
  | k + 1, i => do
    let v ← BuildState.GetP ("node" ++ toString i ++ "Key")
    let nodeKeyStores := match v with | some (Val.str s) => s | _ => ""
    let r ← remoteExec env ExecKind.DockerExec node
      ("bash -c 'echo \"" ++ nodeKeyStores ++ "\" >> /parity/account" ++ toString (i + 1) ++ "'")
    match r.2 with
    | some e => return some e
    | none =>
    appendSlice Slice.rawWallets nodeKeyStores
    keystoreLoop env node k (i + 1)

/-- The loop `for i := range genesisAlloc` of `add` over the keys in iteration order. -/
def allocWallets : List String → Run Unit
  | [] => pure ()
  | i :: rest => do
    appendSlice Slice.wallets ("0x" ++ i)
    appendSlice Slice.genWallets ("0x" ++ i)
    allocWallets rest

/-- `add`. -/
def add (env : Env) (tn : TestNet) : Run (Option Error) := do
  newMutex
  IncrementBuildProgress
  SetBuildStage "Pulling the genesis block"
  let v ← BuildState.GetP "etcconf"
  let etcGenesisFile := match v with | some (Val.etcconf c) => c | _ => EtcConf.zero
  let v ← BuildState.GetP "alloc"
  let genesisAlloc := match v with | some (Val.alloc m) => m | _ => []
  let c ← newConf env
  SetBuildSteps (1 + 2 * (tn.NewlyBuiltNodes.length : Int))
  orReturn c.2 do
  let parityConf : ParityConf :=
    { c.1 with
      Name := etcGenesisFile.Name
      DataDir := etcGenesisFile.Identity
      NetworkID := etcGenesisFile.NetworkID
      ChainID := etcGenesisFile.NetworkID
      MinimumDifficulty := etcGenesisFile.Difficulty
      Difficulty := etcGenesisFile.Difficulty
      Mixhash := etcGenesisFile.Mixhash
      Nonce := etcGenesisFile.Nonce
      Timestamp := etcGenesisFile.Timestamp
      ExtraData := etcGenesisFile.ExtraData
      GasLimit := etcGenesisFile.GasLimit }
  let _ ← AllNewNodeExecCon env tn (fun node => mkdirTask env node)
  let err ← helperCall env "ethereum.CreatePasswordFile" [password, passwordFile]
  orReturn err do
  assignSlice Slice.genWallets []
  assignSlice Slice.wallets []
  assignSlice Slice.rawWallets []
  let err ← AllNewNodeExecCon env tn (fun node => createWalletAppend env node)
  orReturn err do
  let _ ← AllNewNodeExecCon env tn
    (fun node => keystoreLoop env node node.AbsoluteNumber 0)
  allocWallets (env.rangeOrder (genesisAlloc.map (fun kv => kv.1)))
  let wallets ← readSlice Slice.wallets
  let genWallets ← readSlice Slice.genWallets
  match chooseNewSetup env etcGenesisFile.Consensus parityConf wallets genWallets with
  | none => return some (LogError ("Unknown consensus " ++ parityConf.Consensus))
  | some run =>
  let err ← run
  orReturn err do
  let err ← AllNewNodeExecCon env tn (fun node => importWallets env node)
  orReturn err do
  let err ← AllNewNodeExecCon env tn (fun node =>
    startDaemon env node
      (match goMod node.AbsoluteNumber tn.LDDNodes with
       | none => none
       | some i => wallets[i]?))
  orReturn err do
  let v ← BuildState.GetP "staticNodes"
  let snodes := match v with | some (Val.strs l) => l | _ => []
  Sleep 5
  makeSlice Slice.enodes tn.LDDNodes
  let err ← AllNewNodeExecCon env tn
    (fun node => collectEnode env node (goMod node.AbsoluteNumber tn.LDDNodes))
  orReturn err do
  let enodes ← readSlice Slice.enodes
  storeParameters env tn parityConf wallets enodes
  IncrementBuildProgress
  SetBuildStage "Bootstrapping network"
  peerAllNodes env tn snodes

end parity

/-! ## eth2 (`protocols/eth2/validator.go`) -/

namespace eth2

/-- The loop of the deposit task over the accounts, `err` being the error of the last
attempt: send a deposit from the account, stop on the first success, else sleep one
second and go on with the next account. -/
def depositLoop (env : Env) (node : Node) (contractAddr : String) :
    List Account → Option Error → Run (Option Error)
  | [], err => Run.pure err
  | account :: rest, _ => do
    let r ← remoteExec env ExecKind.KeepTryRun node
      (curl node.IP "personal_sendTransaction"
        ("\"to:" ++ contractAddr ++ ", from:" ++ account.PublicKey ++ "\""))
    match r.2 with
    | none => Run.pure none
    | some e => do
      Sleep 1
      depositLoop env node contractAddr rest (some e)

/-- The deposit task on one node. -/
def depositTask (env : Env) (node : Node) (accounts : List Account) (contractAddr : String) :
    Run (Option Error) := do
  let err ← depositLoop env node contractAddr accounts none
  IncrementBuildProgress
  orReturn err do
  return none

/-- `SendDeposit`: the error of the node executor is logged, and nil is returned. -/
def SendDeposit (env : Env) (tn : TestNet) (accounts : List Account) (contractAddr : String) :
    Run (Option Error) := do
  let err ← AllNodeExecCon env tn (fun node => depositTask env node accounts contractAddr)
  match err with
  | some e =>
    let _ := LogError e
    return none
  | none => return none

end eth2

/-! ## Concrete environments -/

/-- The stage named by the last `SetBuildStage` of a trace. -/
def currentStage (tr : List Event) : String :=
  tr.foldl (fun stage e => match e with | Event.SetBuildStage st => st | _ => stage) ""

/-- As `okEnv`, but both `newConf` calls fail. -/
def noConfEnv : Env :=
  { okEnv with
    etcNewConf := (EtcConf.zero, some "invalid parameters")
    parityNewConf := (ParityConf.zero, some "invalid parameters") }

/-- As `okEnv`, with the parity consensus "poa". -/
def poaEnv : Env :=
  { okEnv with parityNewConf := ({ ParityConf.zero with Consensus := "poa" }, none) }

/-- As `okEnv`, but every remote command issued during the stage "Initializing geth"
fails. -/
def initFailEnv : Env :=
  { okEnv with
    remote := fun tr _ _ _ =>
      if currentStage tr = "Initializing geth" then ("", some "exit status 1")
      else ("enode://ab@[::]:30303\n", none) }

/-- As `okEnv`, but every remote command fails. -/
def remoteFailEnv : Env :=
  { okEnv with remote := fun _ _ _ _ => ("", some "exit status 7") }

/-- Two accounts. -/
def demoAccounts : List Account :=
  [⟨"k0", "p0", "0xa0"⟩, ⟨"k1", "p1", "0xa1"⟩]

/-- Whether the trace holds a remote command of the given kind. -/
def hasExec (kind : ExecKind) (tr : List Event) : Bool :=
  tr.any (fun e => match e with | Event.exec k _ _ => k == kind | _ => false)

/-- Whether the trace holds a `SetExt`. -/
def hasSetExt (tr : List Event) : Bool :=
  tr.any (fun e => match e with | Event.SetExt _ => true | _ => false)


/-! ## polkadot (`blockchains/polkadot/polkadot.go`) -/

namespace polkadot

/-- The call `newConf(tn.LDD.Params)`; `newConf` is not among the sources, and of its
result only the error is used (the configuration is printed). -/
def newConf (env : Env) : Run (Option Error) := helperCall env "newConf" []

/-- The regular expression of the node identity line. -/
def nodeIDPattern : String := "(?m)Local node identity is: (.*)"

/-- The task of the first node-executor call of the "Initializing polkadot" phase:
start the daemon; its result is dropped. -/
def initTask (env : Env) (node : Node) : Run (Option Error) := do
  let _ ← remoteExec env ExecKind.DockerExecdLog node "polkadot"
  return none

/-- The task of the second call: read the output file, take the first match of the
identity pattern, and append the node's address to `nodeIDList`. -/
def nodeIDTask (env : Env) (node : Node) : Run (Option Error) := do
  let r ← remoteExec env ExecKind.DockerExec node ("cat " ++ env.DockerOutputFile)
  orReturn r.2 do
  match (env.FindAllString nodeIDPattern r.1 1)[0]? with
  | none => Run.panic
  | some nodeID =>
  appendSlice Slice.nodeIDList ("/ip4/" ++ node.IP ++ "/tcp/30333/p2p/" ++ nodeID)
  return none

/-- The work function of the inner node-executor call of the "Starting polkadot"
phase: the start command; its result is dropped. -/
def startInner (env : Env) (nid : String) (node : Node) : Run (Option Error) := do
  let _ ← remoteExec env ExecKind.DockerExecdLog node ("polkadot --reserved-nodes " ++ nid)
  return none

/-- The work function of the outer node-executor call of the "Starting polkadot"
phase: a node-executor call over all nodes, then the progress increment. -/
def startTask (env : Env) (tn : TestNet) (nid : String) (_node : Node) :
    Run (Option Error) := do
  let err ← AllNodeExecCon env tn (startInner env nid)
  orReturn err do
  IncrementBuildProgress
  return none

/-- `build`. -/
def build (env : Env) (tn : TestNet) : Run (Option Error) := do
  let err ← newConf env
  orReturn err do
  SetBuildSteps (8 + (5 * tn.LDDNodes))
  IncrementBuildProgress
  SetBuildStage "Distributing secrets"
  let _ ← helperCall env "helpers.MkdirAllNodes" ["/polkadot"]
  assignSlice Slice.nodeIDList []
  IncrementBuildProgress
  IncrementBuildProgress
  SetBuildStage "Initializing polkadot"
  let err ← AllNodeExecCon env tn (initTask env)
  orReturn err do
  let err ← AllNodeExecCon env tn (nodeIDTask env)
  orReturn err do
  IncrementBuildProgress
  SetBuildStage "Starting polkadot"
  let nodeIDList ← readSlice Slice.nodeIDList
  let nid := " ".intercalate nodeIDList
  let err ← AllNodeExecCon env tn (startTask env tn nid)
  orReturn err do
  return none

end polkadot

/-! ## eth2: contract deployment (`protocols/eth2/validator.go`) -/

namespace eth2

/-- The regular expression of a contract address. -/
def addressPattern : String := "(?m)0x[0-9a-fA-F]\x7b40\x7d"

/-- The work function of the node-executor call of `DeploySmartContract`. -/
def npmTask (env : Env) (node : Node) : Run (Option Error) := do
  let r ← remoteExec env ExecKind.DockerExec node "npm init -y"
  orReturn r.2 do
  let r ← remoteExec env ExecKind.DockerExec node "npm install web3@1.0.0-beta.31"
  orReturn r.2 do
  let r ← remoteExec env ExecKind.DockerExec node "npm install solc@0.4.25"
  orReturn r.2 do
  return none

/-- `DeploySmartContract`: the address returned is the second match of the address
pattern in the output of the deploy command on node 0. -/
def DeploySmartContract (env : Env) (tn : TestNet) : Run (String × Option Error) :=
  match tn.Nodes[0]? with
  | none => Run.panic
  | some deployNode => do
  let err ← helperCall env "helpers.CreateConfigs"
    ["/eth2/smartcontracts/validator_registration.v.py"]
  match err with
  | some e => return ("", some (LogError e))
  | none =>
  let err ← AllNewNodeExecCon env tn (npmTask env)
  match err with
  | some e => return ("", some (LogError e))
  | none =>
  let r ← remoteExec env ExecKind.DockerExec deployNode
    ("node deploy.js /eth2/smartcontracts/validator_registration.v.py " ++ deployNode.IP)
  match r.2 with
  | some e => return ("", some (LogError e))
  | none =>
  match (env.FindAllString addressPattern r.1 (-1))[1]? with
  | none => Run.panic
  | some addr => return (addr, none)

end eth2

/-- As `okEnv`, but no regular expression matches anything. -/
def noMatchEnv : Env :=
  { okEnv with FindAllString := fun _ _ _ => [] }


/-! ## parity: the statements before the consensus switch -/

namespace parity

/-- The statements of `build` before `switch pconf.Consensus`: `Sum.inl err` when one
of them returns `err`, else the configuration and the wallets with which the switch
is reached. -/
def buildEarly (env : Env) (tn : TestNet) : Run (Error ⊕ (ParityConf × List String)) := do
  newMutex
  let c ← newConf env
  match c.2 with
  | some e => return Sum.inl (LogError e)
  | none =>
  SetBuildSteps (9 + (6 * tn.LDDNodes))
  let err ← helperCall env "helpers.MkdirAllNodes" ["/parity"]
  match err with
  | some e => return Sum.inl (LogError e)
  | none =>
  IncrementBuildProgress
  let err ← helperCall env "ethereum.CreatePasswordFile" [password, passwordFile]
  match err with
  | some e => return Sum.inl (LogError e)
  | none =>
  IncrementBuildProgress
  makeSlice Slice.wallets tn.LDDNodes
  makeSlice Slice.rawWallets tn.LDDNodes
  let err ← AllNodeExecCon env tn (fun node => createWallet env node)
  match err with
  | some e => return Sum.inl (LogError e)
  | none =>
  let wallets ← readSlice Slice.wallets
  return Sum.inr (c.1, wallets)

/-- The statements of `add` before `switch etcGenesisFile.Consensus`: `Sum.inl err`
when one of them returns `err`, else the configuration read by `newConf` and the
wallets with which the switch is reached. -/
def addEarly (env : Env) (tn : TestNet) : Run (Error ⊕ (ParityConf × List String)) := do
  newMutex
  IncrementBuildProgress
  SetBuildStage "Pulling the genesis block"
  let _ ← BuildState.GetP "etcconf"
  let v ← BuildState.GetP "alloc"
  let genesisAlloc := match v with | some (Val.alloc m) => m | _ => []
  let c ← newConf env
  SetBuildSteps (1 + 2 * (tn.NewlyBuiltNodes.length : Int))
  match c.2 with
  | some e => return Sum.inl (LogError e)
  | none =>
  let _ ← AllNewNodeExecCon env tn (fun node => mkdirTask env node)
  let err ← helperCall env "ethereum.CreatePasswordFile" [password, passwordFile]
  match err with
  | some e => return Sum.inl (LogError e)
  | none =>
  assignSlice Slice.genWallets []
  assignSlice Slice.wallets []
  assignSlice Slice.rawWallets []
  let err ← AllNewNodeExecCon env tn (fun node => createWalletAppend env node)
  match err with
  | some e => return Sum.inl (LogError e)
  | none =>
  let _ ← AllNewNodeExecCon env tn
    (fun node => keystoreLoop env node node.AbsoluteNumber 0)
  allocWallets (env.rangeOrder (genesisAlloc.map (fun kv => kv.1)))
  let wallets ← readSlice Slice.wallets
  return Sum.inr (c.1, wallets)

/-- The consensus `add` switches on: that of the "etcconf" artifact of the build
state, the zero value's when the artifact is absent. -/
def storedConsensus (bs : BuildState) : String :=
  (match GoMap.get? bs.artifacts "etcconf" with
   | some (Val.etcconf c) => c
   | _ => EtcConf.zero).Consensus

/-- How a strategy ends after its statements before the consensus switch, when the
switch takes its default case: with the error one of those statements returned,
else with the error `msg`; a panic or a hang is kept. -/
def endUnknown (msg : Error) :
    Res (Error ⊕ (ParityConf × List String)) × St → Res (Option Error) × St
  | (Res.ok (Sum.inr _), s1) => (Res.ok (some (LogError msg)), s1)
  | (Res.ok (Sum.inl e), s1) => (Res.ok (some e), s1)
  | (Res.panic, s1) => (Res.panic, s1)
  | (Res.hang, s1) => (Res.hang, s1)

end parity

/-- As `okEnv`, with the parity consensus "clique". -/
def cliqueEnv : Env :=
  { okEnv with parityNewConf := ({ ParityConf.zero with Consensus := "clique" }, none) }

/-- A build state whose "etcconf" artifact has the given consensus. -/
def storedState (consensus : String) : BuildState :=
  { BuildState.fresh with
    artifacts := [("etcconf", Val.etcconf { EtcConf.zero with Consensus := consensus })] }


/-! ## Networks and environments for the add-node operation -/

/-- A network of four nodes of which the last two, with absolute numbers 2 and 3, are
newly added; `LDD.Nodes` is 2. -/
def addNet : TestNet :=
  ⟨[⟨0, "10.0.0.0"⟩, ⟨1, "10.0.0.1"⟩, ⟨2, "10.0.0.2"⟩, ⟨3, "10.0.0.3"⟩],
   [⟨2, "10.0.0.2"⟩, ⟨3, "10.0.0.3"⟩], 2⟩

/-- A network in which the newly added nodes have the absolute numbers 2 and 4;
`LDD.Nodes` is 2. -/
def gapNet : TestNet :=
  ⟨[⟨0, "10.0.0.0"⟩, ⟨1, "10.0.0.1"⟩, ⟨2, "10.0.0.2"⟩, ⟨4, "10.0.0.4"⟩],
   [⟨2, "10.0.0.2"⟩, ⟨4, "10.0.0.4"⟩], 2⟩

/-- As `okEnv`, but every remote command on node `n` answers "w" followed by `n` and a
line feed, the enode parsed from a response is the response, and the tasks of a
node-executor call take effect in the reverse of the node order. -/
def reverseEnv : Env :=
  { okEnv with
    remote := fun _ _ node _ => ("w" ++ toString node.AbsoluteNumber ++ "\n", none)
    GetJSONString := fun out => (out, none)
    schedule := fun _ l => l.reverse }

/-- As `reverseEnv`, with the tasks in node order. -/
def inOrderEnv : Env :=
  { reverseEnv with schedule := fun _ l => l }

/-- The daemon commands of a trace, oldest first, each with the absolute number of the
node it was sent to. -/
def daemonCommands (tr : List Event) : List (Nat × String) :=
  tr.filterMap (fun e => match e with
    | Event.exec ExecKind.DockerRunMainDaemon n cmd => some (n, cmd)
    | _ => none)

/-! ## Progress accounting -/

/-- The lengths `L` with the length of `v` replaced by `k`. -/
def setLen (L : Slice → Nat) (v : Slice) (k : Nat) : Slice → Nat :=
  fun u => if u = v then k else L u

/-- What the progress count keeps track of in a state: `n` increments made since a
state with `c0` completed steps and `i0` increments in its trace, the declared total
`t`, whether the mutex is held, and the lengths `L` of the shared slices. -/
structure Inv (L : Slice → Nat) (c0 : Int) (i0 n : Nat) (t : Int) (locked : Bool) (s : St) :
    Prop where
  completed : s.bs.completedSteps = c0 + n
  counted : countIncrements s.trace = i0 + n
  total : s.bs.totalSteps = t
  mux : s.muxLocked = locked
  len : ∀ v, (s.slices v).length = L v

/-- From every state satisfying `I` the computation returns normally, with a value
satisfying `R`, in a state satisfying `I2`. -/
structure Ok {α : Type} (I : St → Prop) (m : Run α) (R : α → Prop) (I2 : St → Prop) : Prop where
  out : ∀ s, I s → ∃ a s1, m s = (Res.ok a, s1) ∧ R a ∧ I2 s1

/-- An environment in which nothing fails: every remote command succeeds with a
non-empty output, every helper succeeds, both configurations parse, the requested
number of accounts is generated, every scrape finds a match, every enode answer is
non-empty, tasks are scheduled in some order of the nodes, and loops may run once. -/
structure AllSucceed (env : Env) : Prop where
  remote : ∀ tr kind node cmd, (env.remote tr kind node cmd).2 = none ∧
    (env.remote tr kind node cmd).1.length ≠ 0
  helper : ∀ tr fn args, env.helper tr fn args = none
  etcConf : env.etcNewConf.2 = none
  parityConf : env.parityNewConf.2 = none
  accounts : ∀ n, (env.GenerateAccounts n).2 = none ∧
    (env.GenerateAccounts n).1.length = n.toNat
  spec : ∀ fn pconf wallets, (env.buildSpec fn pconf wallets).2 = none
  schedule : ∀ tr l, (env.schedule tr l).Perm l
  scrape : ∀ pat out n, env.FindAllString pat out n ≠ []
  json : ∀ out, env.jsonUnmarshal out = none
  enode : ∀ out, (env.GetJSONString out).2 = none ∧ (env.GetJSONString out).1.length ≠ 0
  fuel : 0 < env.fuel

/-- A network of `N` nodes, all newly built, whose absolute numbers are below `N`. -/
structure TestNet.Sized (tn : TestNet) (N : Nat) : Prop where
  count : tn.LDDNodes = N
  nodes : tn.Nodes.length = N
  newly : tn.NewlyBuiltNodes = tn.Nodes
  below : ∀ node ∈ tn.Nodes, node.AbsoluteNumber < N


/-! ## Counting remote commands -/

/-- Number of remote commands of the given kind in a trace. -/
def countExec (kind : ExecKind) (tr : List Event) : Nat :=
  (tr.filter (fun e => match e with | Event.exec k _ _ => k == kind | _ => false)).length

/-- Number of remote commands of the given kind sent to the node with the given
absolute number. -/
def countExecOn (kind : ExecKind) (node : Nat) (tr : List Event) : Nat :=
  (tr.filter (fun e => match e with
    | Event.exec k n _ => k == kind && n == node
    | _ => false)).length

/-- Number of `time.Sleep` calls in a trace. -/
def countSleep (tr : List Event) : Nat :=
  (tr.filter (fun e => match e with | Event.Sleep _ => true | _ => false)).length

/-- The request `peerRetry` sends to `node` for the peer `enode`. -/
def ethclassic.addPeerRequest (node : Node) (enode : String) : String :=
  curl node.IP "admin_addPeer" ("\"" ++ enode ++ "\"")

/-- The events of `j` failed attempts of `cmd` on a node through `KeepTryRun`, each
followed by the one-second sleep. -/
def failedAttempts (node : Node) (cmd : String) : Nat → List Event
  | 0 => []
  | j + 1 =>
    Event.exec ExecKind.KeepTryRun node.AbsoluteNumber cmd :: Event.Sleep 1 ::
      failedAttempts node cmd j

/-- As `okEnv`, but a `KeepTryRun` command fails while fewer than `k` of them have
been issued. -/
def flakyEnv (k : Nat) : Env :=
  { okEnv with
    remote := fun tr kind _ _ =>
      if kind = ExecKind.KeepTryRun ∧ countExec ExecKind.KeepTryRun tr < k then
        ("", some "connection refused")
      else ("", none) }

/-- The deposit request `depositLoop` sends to `node` for an account. -/
def eth2.depositRequest (node : Node) (contractAddr : String) (account : Account) : String :=
  curl node.IP "personal_sendTransaction"
    ("\"to:" ++ contractAddr ++ ", from:" ++ account.PublicKey ++ "\"")


/-! ## Classes of events -/

/-- Whether an event is a step on the build state, the mutex or the clock: anything but
a remote command, a helper call and the start of a node-executor call. -/
def Event.isLocal : Event → Bool
  | Event.exec _ _ _ => false
  | Event.call _ _ => false
  | Event.AllNodeExecCon => false
  | Event.AllNewNodeExecCon => false
  | _ => true

/-- From every state, either every event the computation appends satisfies `P`, or its
run satisfies `Q`. -/
structure Reaches {α : Type} (P : Event → Prop) (Q : Res α × St → Prop) (m : Run α) :
    Prop where
  out : ∀ s, (∃ evs, (m s).2.trace = s.trace ++ evs ∧ ∀ e ∈ evs, P e) ∨ Q (m s)

/-- The request `enodeLoop` sends to a node. -/
def parity.enodeRequest (node : Node) : String := curl node.IP "parity_enode" ""

/-- An address is collected from a node: it is not empty and it is what
`util.GetJSONString` finds in a response of the node to the enode request. -/
def parity.collectedFrom (env : Env) (node : Node) (v : String) : Prop :=
  v ≠ "" ∧ ∃ tr, v = (env.GetJSONString
    (env.remote tr ExecKind.KeepTryRun node (parity.enodeRequest node)).1).1

/-- The statements of the parity `build` that follow the enode-collection call when it
returned nil, for the configuration and wallets of the build. -/
def parity.buildBroadcast (env : Env) (tn : TestNet) (pconf : ParityConf)
    (wallets : List String) : Run (Option Error) := do
  let enodes ← readSlice Slice.enodes
  parity.storeParameters env tn pconf wallets enodes
  IncrementBuildProgress
  parity.peerAllNodes env tn enodes

/-- The enodes list with which the parity build over `N` nodes goes on to peering: `N`
slots, slot `i` holding an address collected from the node with absolute number
`i`. -/
def parity.enodesCollected (env : Env) (tn : TestNet) (N : Nat) (sc : St) : Prop :=
  (sc.slices Slice.enodes).length = N ∧
  ∀ i, i < N → ∃ node ∈ tn.Nodes, node.AbsoluteNumber = i ∧
    ∃ v, (sc.slices Slice.enodes)[i]? = some v ∧ parity.collectedFrom env node v

/-- A run of the parity build that reaches peering: the enode-collection call has
returned nil, leaving a state `sc` whose enodes list is `enodesCollected`, and the
run is that of `buildBroadcast` from `sc`. -/
def parity.broadcastAfterCollection (env : Env) (tn : TestNet) (N : Nat)
    (r : Res (Option Error) × St) : Prop :=
  ∃ s0 sc pconf wallets,
    AllNodeExecCon env tn
      (fun node => parity.collectEnode env node (some node.AbsoluteNumber)) s0 =
        (Res.ok none, sc) ∧
    parity.enodesCollected env tn N sc ∧
    r = parity.buildBroadcast env tn pconf wallets sc


/-! ## The keystore move and the genesis file of ethclassic -/

/-- The command with which the first task of the "Starting geth" phase moves the
keystore. -/
def ethclassic.keystoreMove (etcconf : EtcConf) : String :=
  "mv /geth/mainnet/keystore/ /geth/" ++ etcconf.Identity ++ "/"

/-- As `okEnv`, but every `DockerExec` command on node 0 during the stage "Starting
geth" fails; the first of them is the keystore move. -/
def mvFailEnv : Env :=
  { okEnv with
    remote := fun tr kind node _ =>
      if kind = ExecKind.DockerExec ∧ node.AbsoluteNumber = 0 ∧
          currentStage tr = "Starting geth" then ("", some "exit status 1")
      else ("enode://ab@[::]:30303\n", none) }

/-- As `mvFailEnv`, with the tasks of a node-executor call in the reverse of the node
order. -/
def mvFailLastEnv : Env :=
  { mvFailEnv with schedule := fun _ l => l.reverse }

/-- The string of `n` zero digits. -/
def zeros (n : Nat) : String := String.mk (List.replicate n '0')

/-- A configuration with consensus "clique" and initial balance "100". -/
def cliqueConf : EtcConf :=
  { EtcConf.zero with Identity := "mainnet2", Consensus := "clique", InitBalance := "100" }

/-- Three accounts with 40-digit addresses, the first and the third with the same
address. -/
def longAccounts : List Account :=
  [⟨"k0", "p0", "0x00000000000000000000000000000000000000a0"⟩,
   ⟨"k1", "p1", "0x00000000000000000000000000000000000000a1"⟩,
   ⟨"k2", "p2", "0x00000000000000000000000000000000000000a0"⟩]

/-! ## Properties of the key pool manager -/

section KeyPool

variable {W : Type}

theorem GoMap.get?_set_self {V : Type} (m : GoMap V) (k : String) (v : V) :
    GoMap.get? (GoMap.set m k v) k = some v := by
  induction m with
  | nil => simp [GoMap.set, GoMap.get?]
  | cons p rest ih =>
    obtain ⟨k1, v1⟩ := p
    by_cases h : k1 = k
    · simp [GoMap.set, GoMap.get?, h]
    · simp [GoMap.set, GoMap.get?, h, ih]

theorem GoMap.get?_set_ne {V : Type} (m : GoMap V) (k k2 : String) (v : V) (hne : k ≠ k2) :
    GoMap.get? (GoMap.set m k v) k2 = GoMap.get? m k2 := by
  induction m with
  | nil => simp [GoMap.set, GoMap.get?, hne]
  | cons p rest ih =>
    obtain ⟨k1, v1⟩ := p
    by_cases h : k1 = k
    · subst h
      simp [GoMap.set, GoMap.get?, hne]
    · by_cases h2 : k1 = k2
      · subst h2
        simp [GoMap.set, GoMap.get?, h]
      · simp [GoMap.set, GoMap.get?, h, h2, ih]

theorem GoMap.length_set_of_absent {V : Type} (m : GoMap V) (k : String) (v : V)
    (habs : GoMap.get? m k = none) : (GoMap.set m k v).length = m.length + 1 := by
  induction m with
  | nil => simp [GoMap.set]
  | cons p rest ih =>
    obtain ⟨k1, v1⟩ := p
    by_cases h : k1 = k
    · simp [GoMap.get?, h] at habs
    · simp [GoMap.get?, h] at habs
      simp [GoMap.set, h, ih habs]

theorem GoMap.fill_get?_of_not_mem {V : Type} (args : List String) :
    ∀ (m0 : GoMap V) (ps : List V) (k : String), k ∉ args →
      GoMap.get? (GoMap.fill m0 args ps) k = GoMap.get? m0 k := by
  induction args with
  | nil => intro m0 ps k _; cases ps <;> rfl
  | cons a as ih =>
    intro m0 ps k hk
    cases ps with
    | nil => rfl
    | cons p ps =>
      have hne : a ≠ k := fun h => hk (by simp [h])
      have hk2 : k ∉ as := fun h => hk (by simp [h])
      simp only [GoMap.fill]
      rw [ih _ _ _ hk2, GoMap.get?_set_ne _ _ _ _ hne]

theorem GoMap.fill_get?_last {V : Type} (args : List String) :
    ∀ (m0 : GoMap V) (ps : List V) (i : Nat) (k : String) (p : V),
      args[i]? = some k → ps[i]? = some p →
      (∀ j, i < j → args[j]? ≠ some k) →
      GoMap.get? (GoMap.fill m0 args ps) k = some p := by
  induction args with
  | nil => intro m0 ps i k p h; simp at h
  | cons a as ih =>
    intro m0 ps i k p ha hp hlast
    cases ps with
    | nil => simp at hp
    | cons q qs =>
      cases i with
      | zero =>
        simp at ha hp
        subst ha; subst hp
        have hk : a ∉ as := by
          intro hmem
          obtain ⟨j, hj⟩ := List.getElem?_of_mem hmem
          exact hlast (j + 1) (by omega) (by simpa using hj)
        simp only [GoMap.fill]
        rw [GoMap.fill_get?_of_not_mem _ _ _ _ hk, GoMap.get?_set_self]
      | succ i =>
        simp at ha hp
        simp only [GoMap.fill]
        apply ih _ _ i k p ha hp
        intro j hj
        have := hlast (j + 1) (by omega)
        simpa using this

theorem GoMap.fill_length {V : Type} (args : List String) :
    ∀ (m0 : GoMap V) (ps : List V), args.length = ps.length → args.Nodup →
      (∀ a ∈ args, GoMap.get? m0 a = none) →
      (GoMap.fill m0 args ps).length = m0.length + args.length := by
  induction args with
  | nil => intro m0 ps _ _ _; cases ps <;> simp [GoMap.fill]
  | cons a as ih =>
    intro m0 ps hlen hnd habs
    cases ps with
    | nil => simp at hlen
    | cons q qs =>
      simp only [GoMap.fill]
      have hnd2 := List.nodup_cons.mp hnd
      rw [ih _ _ (by simpa using hlen) hnd2.2]
      · rw [GoMap.length_set_of_absent _ _ _ (habs a (by simp))]
        simp; omega
      · intro b hb
        have hne : a ≠ b := fun h => hnd2.1 (h ▸ hb)
        rw [GoMap.get?_set_ne _ _ _ _ hne]
        exact habs b (by simp [hb])

theorem countGet_append (xs ys : List Call) : countGet (xs ++ ys) = countGet xs + countGet ys := by
  simp [countGet]

theorem countGen_append (xs ys : List Call) : countGen (xs ++ ys) = countGen xs + countGen ys := by
  simp [countGen]

/-- Below both pool lengths, `GetKeyPair` issues the static pair at the cursor. -/
theorem GetKeyPair_of_lt (km : KeyMaster W) (client : Client) (w : World W) (c : Nat)
    (hc : km.index = c) (h1 : c < km.PrivateKeys.length) (h2 : c < km.PublicKeys.length) :
    ∃ kp, km.poolPair c = some kp ∧
      km.GetKeyPair client w =
        some ((kp, none), { km with index := (c : Int) + 1 },
          ⟨w.ext, w.calls ++ [Call.GetKeyPair client]⟩) := by
  have hcond : ¬ (km.index ≥ (km.PrivateKeys.length : Int) ∨
      km.index ≥ (km.PublicKeys.length : Int)) := by
    rw [hc]; omega
  have hneg : ¬ km.index < 0 := by rw [hc]; omega
  have htn : km.index.toNat = c := by rw [hc]; simp
  refine ⟨⟨km.PrivateKeys[c], km.PublicKeys[c]⟩, ?_, ?_⟩
  · simp [KeyMaster.poolPair, List.getElem?_eq_getElem h1, List.getElem?_eq_getElem h2]
  · unfold KeyMaster.GetKeyPair
    rw [if_neg hcond, if_neg hneg, htn]
    simp only [List.getElem?_eq_getElem h1, List.getElem?_eq_getElem h2, hc]

/-- At or past either pool length, `GetKeyPair` returns `GenerateKeyPair`. -/
theorem GetKeyPair_of_exhausted (km : KeyMaster W) (client : Client) (w : World W)
    (h : km.index ≥ (km.PrivateKeys.length : Int) ∨ km.index ≥ (km.PublicKeys.length : Int)) :
    km.GetKeyPair client w =
      some ((km.GenerateKeyPair client ⟨w.ext, w.calls ++ [Call.GetKeyPair client]⟩).1, km,
        (km.GenerateKeyPair client ⟨w.ext, w.calls ++ [Call.GetKeyPair client]⟩).2) := by
  unfold KeyMaster.GetKeyPair
  simp only [h, if_true]

/-- With a non-negative cursor `GetKeyPair` does not panic; it appends one `GetKeyPair`
entry to the log, keeps the pools and the generator, and never lowers the cursor. -/
theorem GetKeyPair_total (km : KeyMaster W) (client : Client) (w : World W)
    (h0 : 0 ≤ km.index) :
    ∃ r km1 w1, km.GetKeyPair client w = some (r, km1, w1) ∧ 0 ≤ km1.index ∧
      countGet w1.calls = countGet w.calls + 1 := by
  by_cases h : km.index ≥ (km.PrivateKeys.length : Int) ∨ km.index ≥ (km.PublicKeys.length : Int)
  · refine ⟨_, _, _, GetKeyPair_of_exhausted km client w h, h0, ?_⟩
    unfold KeyMaster.GenerateKeyPair
    cases km.generator with
    | none => simp [countGet]
    | some g => simp [countGet]
  · obtain ⟨c, hc⟩ := Int.eq_ofNat_of_zero_le h0
    have h1 : c < km.PrivateKeys.length := by omega
    have h2 : c < km.PublicKeys.length := by omega
    obtain ⟨kp, _, hk⟩ := GetKeyPair_of_lt km client w c hc h1 h2
    refine ⟨_, _, _, hk, ?_, ?_⟩
    · show (0 : Int) ≤ (c : Int) + 1
      omega
    · simp [countGet]

theorem successive_add (client : Client) (a b : Nat) :
    ∀ (km : KeyMaster W) (w : World W),
      KeyMaster.successive client (a + b) km w =
        match KeyMaster.successive client a km w with
        | none => none
        | some (rs, km1, w1) =>
          match KeyMaster.successive client b km1 w1 with
          | none => none
          | some (rs2, km2, w2) => some (rs ++ rs2, km2, w2) := by
  induction a with
  | zero =>
    intro km w
    simp only [Nat.zero_add, KeyMaster.successive]
    cases KeyMaster.successive client b km w with
    | none => rfl
    | some x => simp
  | succ a ih =>
    intro km w
    rw [Nat.add_right_comm]
    simp only [KeyMaster.successive]
    cases hg : km.GetKeyPair client w with
    | none => rfl
    | some x =>
      obtain ⟨r, km1, w1⟩ := x
      simp only [ih]
      cases KeyMaster.successive client a km1 w1 with
      | none => rfl
      | some y =>
        obtain ⟨rs, km2, w2⟩ := y
        simp only
        cases KeyMaster.successive client b km2 w2 with
        | none => rfl
        | some z => simp

theorem successive_length (client : Client) (n : Nat) :
    ∀ (km : KeyMaster W) (w : World W) rs km1 w1,
      KeyMaster.successive client n km w = some (rs, km1, w1) → rs.length = n := by
  induction n with
  | zero => intro km w rs km1 w1 h; simp [KeyMaster.successive] at h; simp [h.1]
  | succ n ih =>
    intro km w rs km1 w1 h
    simp only [KeyMaster.successive] at h
    cases hg : km.GetKeyPair client w with
    | none => simp [hg] at h
    | some x =>
      obtain ⟨r, km2, w2⟩ := x
      simp only [hg] at h
      cases hs : KeyMaster.successive client n km2 w2 with
      | none => simp [hs] at h
      | some y =>
        obtain ⟨rs2, km3, w3⟩ := y
        simp only [hs, Option.some.injEq, Prod.mk.injEq] at h
        rw [← h.1]
        simp [ih _ _ _ _ _ hs]

/-- While `n` static pairs remain, `n` successive calls issue them in pool order. -/
theorem successive_static (client : Client) (n : Nat) :
    ∀ (km : KeyMaster W) (w : World W) (c : Nat), km.index = c →
      c + n ≤ km.PrivateKeys.length → c + n ≤ km.PublicKeys.length →
      ∃ rs, KeyMaster.successive client n km w =
          some (rs, { km with index := ((c + n : Nat) : Int) },
            ⟨w.ext, w.calls ++ List.replicate n (Call.GetKeyPair client)⟩) ∧
        (∀ i, i < n → ∃ kp, km.poolPair (c + i) = some kp ∧ rs[i]? = some (kp, none)) := by
  induction n with
  | zero =>
    intro km w c hc _ _
    refine ⟨[], ?_, ?_⟩
    · simp only [KeyMaster.successive, Nat.add_zero, List.replicate, List.append_nil]
      rw [← hc]
    · intro i hi; omega
  | succ n ih =>
    intro km w c hc h1 h2
    obtain ⟨kp, hkp, hget⟩ := GetKeyPair_of_lt km client w c hc (by omega) (by omega)
    obtain ⟨rs, hrs, hall⟩ := ih { km with index := (c : Int) + 1 }
      ⟨w.ext, w.calls ++ [Call.GetKeyPair client]⟩ (c + 1) (by simp)
      (by simp only; omega) (by simp only; omega)
    refine ⟨(kp, none) :: rs, ?_, ?_⟩
    · simp only [KeyMaster.successive, hget, hrs]
      have e1 : ((c + 1 + n : Nat) : Int) = ((c + (n + 1) : Nat) : Int) := by
        congr 1; omega
      simp [e1, List.replicate_succ]
    · intro i hi
      cases i with
      | zero => exact ⟨kp, by simpa using hkp, by simp⟩
      | succ i =>
        obtain ⟨kp2, h3, h4⟩ := hall i (by omega)
        refine ⟨kp2, ?_, by simpa using h4⟩
        have e2 : c + (i + 1) = c + 1 + i := by omega
        rw [e2]
        exact h3

/-- Once the pool is exhausted and no generator is set, every further call fails with
"no generator provided" and changes nothing but the call log. -/
theorem successive_exhausted_none (client : Client) (n : Nat) :
    ∀ (km : KeyMaster W) (w : World W), km.generator = none →
      (km.index ≥ (km.PrivateKeys.length : Int) ∨ km.index ≥ (km.PublicKeys.length : Int)) →
      KeyMaster.successive client n km w =
        some (List.replicate n (KeyPair.zero, some "no generator provided"), km,
          ⟨w.ext, w.calls ++ List.replicate n (Call.GetKeyPair client)⟩) := by
  induction n with
  | zero => intro km w _ _; simp [KeyMaster.successive]
  | succ n ih =>
    intro km w hg hex
    have hget := GetKeyPair_of_exhausted km client w hex
    simp only [KeyMaster.GenerateKeyPair, hg] at hget
    simp only [KeyMaster.successive, hget, ih km _ hg hex]
    simp [List.replicate_succ]

/-- When both fetches succeed, `NewKeyMaster` returns the fetched pools with cursor 0
and no generator. -/
theorem NewKeyMaster_fresh (privs pubs : List String) :
    (NewKeyMaster (privs, none) (pubs, none) : Option (KeyMaster W) × Option Error) =
      (some ⟨privs, pubs, 0, none⟩, none) := rfl

/-- When a fetch fails, `NewKeyMaster` returns no key master and the error. -/
theorem NewKeyMaster_error (privs pubs : List String × Option Error) (e : Error)
    (h : privs.2 = some e ∨ (privs.2 = none ∧ pubs.2 = some e)) :
    (NewKeyMaster privs pubs : Option (KeyMaster W) × Option Error) = (none, some e) := by
  unfold NewKeyMaster
  rcases h with h | ⟨h1, h2⟩
  · simp [h, LogError]
  · simp [h1, h2, LogError]

/-- C1: when the cursor is within both pools, `GetKeyPair` returns the pair at the
cursor with no error, advances the cursor by one, leaves both pools and the generator
as they were, and does not invoke the generator (the external state is untouched and
the call log gains only the `GetKeyPair` entry). -/
theorem GetKeyPair_within_pool (km : KeyMaster W) (client : Client) (w : World W)
    (h0 : 0 ≤ km.index) (h1 : km.index < (km.PrivateKeys.length : Int))
    (h2 : km.index < (km.PublicKeys.length : Int)) :
    ∃ priv pub, km.PrivateKeys[km.index.toNat]? = some priv ∧
      km.PublicKeys[km.index.toNat]? = some pub ∧
      km.GetKeyPair client w =
        some ((⟨priv, pub⟩, none),
          ⟨km.PrivateKeys, km.PublicKeys, km.index + 1, km.generator⟩,
          ⟨w.ext, w.calls ++ [Call.GetKeyPair client]⟩) := by
  obtain ⟨c, hc⟩ := Int.eq_ofNat_of_zero_le h0
  have hl1 : c < km.PrivateKeys.length := by omega
  have hl2 : c < km.PublicKeys.length := by omega
  obtain ⟨kp, hkp, hget⟩ := GetKeyPair_of_lt km client w c hc hl1 hl2
  have htn : km.index.toNat = c := by rw [hc]; simp
  refine ⟨km.PrivateKeys[c], km.PublicKeys[c], ?_, ?_, ?_⟩
  · rw [htn]; exact List.getElem?_eq_getElem hl1
  · rw [htn]; exact List.getElem?_eq_getElem hl2
  · simp only [KeyMaster.poolPair, List.getElem?_eq_getElem hl1,
      List.getElem?_eq_getElem hl2, Option.some.injEq] at hkp
    rw [hget, ← hkp, hc]

/-- C2: with both sequences of length `P`, cursor 0 and no generator, `n` successive
calls all return; call `i+1` returns pool pair `i` without error for `i < P`, every
call after the `P`-th returns the zero pair with the error "no generator provided",
and the key master is left unchanged except for the cursor, at `min n P`. -/
theorem static_pool_in_order (km : KeyMaster W) (client : Client) (w : World W)
    (P n : Nat) (hp : km.PrivateKeys.length = P) (hq : km.PublicKeys.length = P)
    (hi : km.index = 0) (hg : km.generator = none) :
    ∃ rs km1 w1, KeyMaster.successive client n km w = some (rs, km1, w1) ∧
      rs.length = n ∧
      (∀ i, i < n → i < P → ∃ priv pub, km.PrivateKeys[i]? = some priv ∧
        km.PublicKeys[i]? = some pub ∧ rs[i]? = some (⟨priv, pub⟩, none)) ∧
      (∀ i, i < n → P ≤ i →
        rs[i]? = some (KeyPair.zero, some "no generator provided")) ∧
      km1 = ⟨km.PrivateKeys, km.PublicKeys, ((min n P : Nat) : Int), none⟩ ∧
      w1.ext = w.ext ∧ countGet w1.calls = countGet w.calls + n := by
  have hpool : ∀ i kp, km.poolPair i = some kp → ∃ priv pub, km.PrivateKeys[i]? = some priv ∧
      km.PublicKeys[i]? = some pub ∧ kp = ⟨priv, pub⟩ := by
    intro i kp h
    unfold KeyMaster.poolPair at h
    cases h1 : km.PrivateKeys[i]? with
    | none => simp [h1] at h
    | some a =>
      cases h2 : km.PublicKeys[i]? with
      | none => simp [h1, h2] at h
      | some b =>
        simp only [h1, h2, Option.some.injEq] at h
        exact ⟨a, b, rfl, rfl, h.symm⟩
  have hcount : ∀ k, countGet (w.calls ++ List.replicate k (Call.GetKeyPair client)) =
      countGet w.calls + k := by
    intro k
    rw [countGet_append]
    congr 1
    induction k with
    | zero => rfl
    | succ k ih => simp [List.replicate_succ, countGet] at ih ⊢
  by_cases hn : n ≤ P
  · obtain ⟨rs, hrs, hall⟩ := successive_static client n km w 0 (by simpa using hi)
      (by omega) (by omega)
    have hlen := successive_length client n km w _ _ _ hrs
    refine ⟨rs, _, _, hrs, hlen, ?_, ?_, ?_, rfl, hcount n⟩
    · intro i h1 _
      obtain ⟨kp, h3, h4⟩ := hall i h1
      rw [Nat.zero_add] at h3
      obtain ⟨a, b, ha, hb, hk⟩ := hpool i kp h3
      exact ⟨a, b, ha, hb, by rw [h4, hk]⟩
    · intro i h1 h2; omega
    · rw [Nat.min_eq_left hn, ← hg]; simp
  · have hsplit : n = P + (n - P) := by omega
    obtain ⟨rs, hrs, hall⟩ := successive_static client P km w 0 (by simpa using hi)
      (by omega) (by omega)
    have hlenP := successive_length client P km w _ _ _ hrs
    have hex := successive_exhausted_none client (n - P)
      ({ km with index := ((0 + P : Nat) : Int) })
      ⟨w.ext, w.calls ++ List.replicate P (Call.GetKeyPair client)⟩ hg
      (Or.inl (by simp [hp]))
    have htot : KeyMaster.successive client n km w =
        some (rs ++ List.replicate (n - P) (KeyPair.zero, some "no generator provided"),
          { km with index := ((0 + P : Nat) : Int) },
          ⟨w.ext, w.calls ++ List.replicate P (Call.GetKeyPair client) ++
            List.replicate (n - P) (Call.GetKeyPair client)⟩) := by
      rw [hsplit, successive_add, hrs]
      simp only
      rw [hex]
      simp
    refine ⟨_, _, _, htot, ?_, ?_, ?_, ?_, rfl, ?_⟩
    · simp [hlenP]; omega
    · intro i _ h2
      obtain ⟨kp, h3, h4⟩ := hall i h2
      rw [Nat.zero_add] at h3
      obtain ⟨a, b, ha, hb, hk⟩ := hpool i kp h3
      refine ⟨a, b, ha, hb, ?_⟩
      rw [List.getElem?_append_left (by omega), h4, hk]
    · intro i h1 h2
      rw [List.getElem?_append_right (by omega)]
      rw [List.getElem?_replicate]
      simp; omega
    · have : min n P = P := by omega
      rw [this, ← hg]; simp
    · rw [List.append_assoc, ← List.replicate_add, hcount]
      omega

theorem GetKeyPair_countGet (km : KeyMaster W) (client : Client) (w : World W)
    (r : KeyPair × Option Error) (km1 : KeyMaster W) (w1 : World W)
    (h : km.GetKeyPair client w = some (r, km1, w1)) :
    countGet w1.calls = countGet w.calls + 1 := by
  unfold KeyMaster.GetKeyPair at h
  split at h
  · simp only [Option.some.injEq, Prod.mk.injEq] at h
    rw [← h.2.2]
    unfold KeyMaster.GenerateKeyPair
    cases km.generator with
    | none => simp [countGet]
    | some g => simp [countGet]
  · split at h
    · simp at h
    · split at h
      · simp only [Option.some.injEq, Prod.mk.injEq] at h
        rw [← h.2.2]
        simp [countGet]
      · simp at h

theorem successive_countGet (client : Client) (n : Nat) :
    ∀ (km : KeyMaster W) (w : World W) rs km1 w1,
      KeyMaster.successive client n km w = some (rs, km1, w1) →
      countGet w1.calls = countGet w.calls + n := by
  induction n with
  | zero => intro km w rs km1 w1 h; simp [KeyMaster.successive] at h; simp [h.2.2]
  | succ n ih =>
    intro km w rs km1 w1 h
    simp only [KeyMaster.successive] at h
    cases hg : km.GetKeyPair client w with
    | none => simp [hg] at h
    | some x =>
      obtain ⟨r, km2, w2⟩ := x
      simp only [hg] at h
      cases hs : KeyMaster.successive client n km2 w2 with
      | none => simp [hs] at h
      | some y =>
        obtain ⟨rs2, km3, w3⟩ := y
        simp only [hs, Option.some.injEq, Prod.mk.injEq] at h
        rw [← h.2.2, ih _ _ _ _ _ hs, GetKeyPair_countGet _ _ _ _ _ _ hg]
        omega

/-- When the successive calls all succeed, the loop of `GetMappedKeyPairs` makes
exactly those calls and fills the map with their pairs in input order. -/
theorem mappedLoop_of_successive (client : Client) (args : List String) :
    ∀ (m0 : GoMap KeyPair) (km : KeyMaster W) (w : World W) rs km1 w1,
      KeyMaster.successive client args.length km w = some (rs, km1, w1) →
      (∀ r ∈ rs, r.2 = none) →
      KeyMaster.mappedLoop client args m0 km w =
        some ((some (GoMap.fill m0 args (rs.map (fun r => r.1))), none), km1, w1) := by
  induction args with
  | nil =>
    intro m0 km w rs km1 w1 h _
    simp only [List.length_nil, KeyMaster.successive, Option.some.injEq, Prod.mk.injEq] at h
    obtain ⟨h1, h2, h3⟩ := h
    subst h1; subst h2; subst h3
    simp [KeyMaster.mappedLoop, GoMap.fill]
  | cons a as ih =>
    intro m0 km w rs km1 w1 h hok
    simp only [List.length_cons, KeyMaster.successive] at h
    cases hg : km.GetKeyPair client w with
    | none => simp [hg] at h
    | some x =>
      obtain ⟨⟨kp, e⟩, km2, w2⟩ := x
      simp only [hg] at h
      cases hs : KeyMaster.successive client as.length km2 w2 with
      | none => simp [hs] at h
      | some y =>
        obtain ⟨rs2, km3, w3⟩ := y
        simp only [hs, Option.some.injEq, Prod.mk.injEq] at h
        obtain ⟨h1, h2, h3⟩ := h
        subst h1; subst h2; subst h3
        have he : e = none := hok (kp, e) (by simp)
        subst he
        simp only [KeyMaster.mappedLoop, hg]
        rw [ih _ _ _ _ _ _ hs (fun r hr => hok r (by simp [hr]))]
        simp [GoMap.fill]

/-- C3: with a pool of size `P` and a generator installed through `AddGenerator`, a
`GetKeyPair` call made with the cursor at `P` invokes the generator exactly once, with
the caller's client, and returns exactly its result (pair and error); the pools, the
cursor (still `P`) and the generator are unchanged, so the same holds for every
later call. -/
theorem generator_after_pool (km : KeyMaster W) (gen : Generator W) (client : Client)
    (w : World W) (P : Nat) (hp : km.PrivateKeys.length = P)
    (hq : km.PublicKeys.length = P) (hi : km.index = P) :
    (km.AddGenerator (some gen)).GetKeyPair client w =
      some ((gen client w.ext).1,
        ⟨km.PrivateKeys, km.PublicKeys, (P : Int), some gen⟩,
        ⟨(gen client w.ext).2, w.calls ++ [Call.GetKeyPair client, Call.generator client]⟩) := by
  have hex : (km.AddGenerator (some gen)).index ≥
      ((km.AddGenerator (some gen)).PrivateKeys.length : Int) ∨
      (km.AddGenerator (some gen)).index ≥
      ((km.AddGenerator (some gen)).PublicKeys.length : Int) := by
    right
    simp [KeyMaster.AddGenerator, hi, hq]
  rw [GetKeyPair_of_exhausted _ client w hex]
  have _ := hp
  simp [KeyMaster.GenerateKeyPair, KeyMaster.AddGenerator, hi]

/-- C4: when each of the `len(args)` successive `GetKeyPair` calls succeeds,
`GetMappedKeyPairs` returns a map and no error, having made exactly those calls in
input order (it leaves the state they leave, with `len(args)` more `GetKeyPair`
entries in the log); the map sends each identifier to the pair issued for its last
occurrence and holds no other key; when at least `len(args)` static pairs remain the
cursor advances by `len(args)` and call `i` issues pool pair `cursor + i`; for
pairwise distinct identifiers the map has exactly `len(args)` entries. -/
theorem GetMappedKeyPairs_success (km : KeyMaster W) (args : List String)
    (client : Client) (w : World W) (rs : List (KeyPair × Option Error))
    (km1 : KeyMaster W) (w1 : World W)
    (hs : KeyMaster.successive client args.length km w = some (rs, km1, w1))
    (hok : ∀ r ∈ rs, r.2 = none) :
    ∃ m, km.GetMappedKeyPairs args client w = some ((some m, none), km1, w1) ∧
      countGet w1.calls = countGet w.calls + args.length ∧
      (∀ (i : Nat) (id : String) (r : KeyPair × Option Error), args[i]? = some id →
        rs[i]? = some r →
        (∀ j, i < j → args[j]? ≠ some id) → GoMap.get? m id = some r.1) ∧
      (∀ id, id ∉ args → GoMap.get? m id = none) ∧
      (0 ≤ km.index → km.index + args.length ≤ km.PrivateKeys.length →
        km.index + args.length ≤ km.PublicKeys.length →
        km1.index = km.index + args.length ∧
        ∀ i, i < args.length → ∃ priv pub,
          km.PrivateKeys[km.index.toNat + i]? = some priv ∧
          km.PublicKeys[km.index.toNat + i]? = some pub ∧
          rs[i]? = some (⟨priv, pub⟩, none)) ∧
      (args.Nodup → m.length = args.length) := by
  have hlen := successive_length client _ km w _ _ _ hs
  refine ⟨GoMap.fill [] args (rs.map (fun (r : KeyPair × Option Error) => r.1)),
    mappedLoop_of_successive client args [] km w rs km1 w1 hs hok,
    successive_countGet client _ km w _ _ _ hs, ?_, ?_, ?_, ?_⟩
  · intro i id r ha hr hlast
    exact GoMap.fill_get?_last args [] _ i id r.1 ha (by simp [hr]) hlast
  · intro id hid
    rw [GoMap.fill_get?_of_not_mem args [] _ id hid]
    rfl
  · intro h0 h1 h2
    obtain ⟨c, hc⟩ := Int.eq_ofNat_of_zero_le h0
    obtain ⟨rs2, hrs2, hall⟩ := successive_static client args.length km w c hc
      (by omega) (by omega)
    rw [hs] at hrs2
    simp only [Option.some.injEq, Prod.mk.injEq] at hrs2
    obtain ⟨e1, e2, _⟩ := hrs2
    subst e1
    refine ⟨?_, ?_⟩
    · rw [e2, hc]; simp
    · intro i hi
      obtain ⟨kp, h3, h4⟩ := hall i hi
      have htn : km.index.toNat = c := by rw [hc]; simp
      rw [htn]
      unfold KeyMaster.poolPair at h3
      cases h5 : km.PrivateKeys[c + i]? with
      | none => simp [h5] at h3
      | some a =>
        cases h6 : km.PublicKeys[c + i]? with
        | none => simp [h5, h6] at h3
        | some b =>
          simp only [h5, h6, Option.some.injEq] at h3
          exact ⟨a, b, rfl, rfl, by rw [h4, h3]⟩
  · intro hnd
    rw [GoMap.fill_length args [] _ (by simp [hlen]) hnd (fun a _ => rfl)]
    simp

/-- The loop of `GetMappedKeyPairs` either makes all the calls, each succeeding, or
stops at the first failing one. -/
theorem mappedLoop_cases (client : Client) (args : List String) :
    ∀ (m0 : GoMap KeyPair) (km : KeyMaster W) (w : World W), 0 ≤ km.index →
      ∃ res km1 w1, KeyMaster.mappedLoop client args m0 km w = some (res, km1, w1) ∧
        ((∃ rs, KeyMaster.successive client args.length km w = some (rs, km1, w1) ∧
            (∀ r ∈ rs, r.2 = none) ∧
            res = (some (GoMap.fill m0 args (rs.map (fun r => r.1))), none)) ∨
         (∃ k rs kmk wk kp e, k < args.length ∧
            KeyMaster.successive client k km w = some (rs, kmk, wk) ∧
            (∀ r ∈ rs, r.2 = none) ∧
            kmk.GetKeyPair client wk = some ((kp, some e), km1, w1) ∧
            res = (none, some e))) := by
  induction args with
  | nil =>
    intro m0 km w _
    exact ⟨_, _, _, rfl, Or.inl ⟨[], rfl, by simp, by simp [GoMap.fill]⟩⟩
  | cons a as ih =>
    intro m0 km w h0
    obtain ⟨⟨kp, e⟩, km2, w2, hg, h02, _⟩ := GetKeyPair_total km client w h0
    cases e with
    | some err =>
      refine ⟨(none, some err), km2, w2, ?_, Or.inr ⟨0, [], km, w, kp, err, by simp, rfl,
        by simp, hg, rfl⟩⟩
      simp [KeyMaster.mappedLoop, hg, LogError]
    | none =>
      obtain ⟨res, km3, w3, hloop, hcase⟩ := ih (GoMap.set m0 a kp) km2 w2 h02
      refine ⟨res, km3, w3, ?_, ?_⟩
      · simp [KeyMaster.mappedLoop, hg, hloop]
      · rcases hcase with ⟨rs, hs, hok, hres⟩ | ⟨k, rs, kmk, wk, kp2, e, hk, hs, hok, hf, hres⟩
        · refine Or.inl ⟨(kp, none) :: rs, ?_, ?_, ?_⟩
          · simp [KeyMaster.successive, hg, hs]
          · intro r hr
            rcases List.mem_cons.mp hr with h | h
            · rw [h]
            · exact hok r h
          · simp [GoMap.fill, hres]
        · refine Or.inr ⟨k + 1, (kp, none) :: rs, kmk, wk, kp2, e, by simp; omega, ?_, ?_,
            hf, hres⟩
          · simp [KeyMaster.successive, hg, hs]
          · intro r hr
            rcases List.mem_cons.mp hr with h | h
            · rw [h]
            · exact hok r h

theorem successive_mem_of_earlier (client : Client) (k n : Nat) (km : KeyMaster W)
    (w : World W) rs kmk wk r kmf wf rsn kmn wn (hk : k < n)
    (hs : KeyMaster.successive client k km w = some (rs, kmk, wk))
    (hf : kmk.GetKeyPair client wk = some (r, kmf, wf))
    (hn : KeyMaster.successive client n km w = some (rsn, kmn, wn)) : r ∈ rsn := by
  obtain ⟨m, hm⟩ : ∃ m, n = k + (m + 1) := ⟨n - k - 1, by omega⟩
  rw [hm, successive_add, hs] at hn
  simp only [KeyMaster.successive, hf] at hn
  cases h2 : KeyMaster.successive client m kmf wf with
  | none => simp [h2] at hn
  | some y =>
    obtain ⟨rs2, km2, w2⟩ := y
    simp only [h2, Option.some.injEq, Prod.mk.injEq] at hn
    rw [← hn.1]
    simp

/-- C5: `GetMappedKeyPairs` (cursor non-negative) always returns, and it returns an
error exactly when one of the `GetKeyPair` calls it makes fails; in that case the
failing call is the last one it makes (the state left is the state right after it,
with one `GetKeyPair` log entry per identifier up to the failing one and none for the
later ones), the error returned is that call's error, and the map returned is nil. -/
theorem GetMappedKeyPairs_error (km : KeyMaster W) (args : List String) (client : Client)
    (w : World W) (h0 : 0 ≤ km.index) :
    ∃ res km1 w1, km.GetMappedKeyPairs args client w = some (res, km1, w1) ∧
      (res.2 ≠ none ↔
        ∃ k rs kmk wk r kmf wf, k < args.length ∧
          KeyMaster.successive client k km w = some (rs, kmk, wk) ∧
          (∀ r ∈ rs, r.2 = none) ∧
          kmk.GetKeyPair client wk = some (r, kmf, wf) ∧ r.2 ≠ none) ∧
      (res.2 ≠ none →
        ∃ k rs kmk wk kp e, k < args.length ∧
          KeyMaster.successive client k km w = some (rs, kmk, wk) ∧
          (∀ r ∈ rs, r.2 = none) ∧
          kmk.GetKeyPair client wk = some ((kp, some e), km1, w1) ∧
          res = (none, some e) ∧
          countGet w1.calls = countGet w.calls + (k + 1)) := by
  obtain ⟨res, km1, w1, hloop, hcase⟩ := mappedLoop_cases client args [] km w h0
  refine ⟨res, km1, w1, hloop, ?_, ?_⟩
  · constructor
    · intro hne
      rcases hcase with ⟨rs, _, _, hres⟩ | ⟨k, rs, kmk, wk, kp, e, hk, hs, hok, hf, _⟩
      · rw [hres] at hne; simp at hne
      · exact ⟨k, rs, kmk, wk, (kp, some e), km1, w1, hk, hs, hok, hf, by simp⟩
    · rintro ⟨k, rs, kmk, wk, r, kmf, wf, hk, hs, _, hf, hr⟩
      rcases hcase with ⟨rsn, hsn, hokn, _⟩ | ⟨_, _, _, _, _, e, _, _, _, _, hres⟩
      · exact absurd (hokn r (successive_mem_of_earlier client k _ km w _ _ _ _ _ _ _ _ _
          hk hs hf hsn)) hr
      · rw [hres]; simp
  · intro hne
    rcases hcase with ⟨rs, _, _, hres⟩ | ⟨k, rs, kmk, wk, kp, e, hk, hs, hok, hf, hres⟩
    · rw [hres] at hne; simp at hne
    · refine ⟨k, rs, kmk, wk, kp, e, hk, hs, hok, hf, hres, ?_⟩
      rw [GetKeyPair_countGet _ _ _ _ _ _ hf, successive_countGet _ _ _ _ _ _ _ hs]
      omega

theorem GetKeyPair_within_pool_witness :
    ∃ priv pub, demoKeyMaster.PrivateKeys[demoKeyMaster.index.toNat]? = some priv ∧
      demoKeyMaster.PublicKeys[demoKeyMaster.index.toNat]? = some pub ∧
      demoKeyMaster.GetKeyPair 7 demoWorld =
        some ((⟨priv, pub⟩, none),
          ⟨demoKeyMaster.PrivateKeys, demoKeyMaster.PublicKeys, demoKeyMaster.index + 1,
            demoKeyMaster.generator⟩,
          ⟨demoWorld.ext, demoWorld.calls ++ [Call.GetKeyPair 7]⟩) :=
  GetKeyPair_within_pool demoKeyMaster 7 demoWorld (by decide) (by decide) (by decide)

theorem static_pool_in_order_witness :
    ∃ rs km1 w1, KeyMaster.successive 7 3 demoKeyMaster demoWorld = some (rs, km1, w1) ∧
      rs.length = 3 ∧
      (∀ i, i < 3 → i < 2 → ∃ priv pub, demoKeyMaster.PrivateKeys[i]? = some priv ∧
        demoKeyMaster.PublicKeys[i]? = some pub ∧ rs[i]? = some (⟨priv, pub⟩, none)) ∧
      (∀ i, i < 3 → 2 ≤ i →
        rs[i]? = some (KeyPair.zero, some "no generator provided")) ∧
      km1 = ⟨demoKeyMaster.PrivateKeys, demoKeyMaster.PublicKeys, ((min 3 2 : Nat) : Int),
        none⟩ ∧
      w1.ext = demoWorld.ext ∧ countGet w1.calls = countGet demoWorld.calls + 3 :=
  static_pool_in_order demoKeyMaster 7 demoWorld 2 3 rfl rfl rfl rfl

theorem generator_after_pool_witness :
    (demoExhausted.AddGenerator (some demoGenerator)).GetKeyPair 7 demoWorld =
      some ((demoGenerator 7 demoWorld.ext).1,
        ⟨demoExhausted.PrivateKeys, demoExhausted.PublicKeys, ((2 : Nat) : Int),
          some demoGenerator⟩,
        ⟨(demoGenerator 7 demoWorld.ext).2,
          demoWorld.calls ++ [Call.GetKeyPair 7, Call.generator 7]⟩) :=
  generator_after_pool demoExhausted demoGenerator 7 demoWorld 2 rfl rfl rfl

theorem GetMappedKeyPairs_success_witness :
    ∃ m, demoKeyMaster.GetMappedKeyPairs ["10.0.0.1", "10.0.0.2"] 7 demoWorld =
        some ((some m, none), demoExhausted,
          ⟨0, [Call.GetKeyPair 7, Call.GetKeyPair 7]⟩) ∧
      GoMap.get? m "10.0.0.1" = some ⟨"priv0", "pub0"⟩ ∧
      GoMap.get? m "10.0.0.2" = some ⟨"priv1", "pub1"⟩ ∧ m.length = 2 := by
  obtain ⟨m, h1, _, h3, _, _, h6⟩ := GetMappedKeyPairs_success demoKeyMaster
    ["10.0.0.1", "10.0.0.2"] 7 demoWorld
    [(⟨"priv0", "pub0"⟩, none), (⟨"priv1", "pub1"⟩, none)] demoExhausted
    ⟨0, [Call.GetKeyPair 7, Call.GetKeyPair 7]⟩ rfl (by decide)
  exact ⟨m, h1, h3 0 "10.0.0.1" (⟨"priv0", "pub0"⟩, none) rfl rfl (by
      intro j hj
      match j, hj with
      | 1, _ => decide
      | k + 2, _ => simp),
    h3 1 "10.0.0.2" (⟨"priv1", "pub1"⟩, none) rfl rfl (by
      intro j hj
      have e : j = (j - 2) + 2 := by omega
      rw [e]
      simp),
    h6 (by decide)⟩

theorem GetMappedKeyPairs_error_witness :
    ∃ res km1 w1, demoKeyMaster.GetMappedKeyPairs ["a", "b", "c", "d"] 7 demoWorld =
        some (res, km1, w1) ∧
      (res.2 ≠ none ↔
        ∃ k rs kmk wk r kmf wf, k < ["a", "b", "c", "d"].length ∧
          KeyMaster.successive 7 k demoKeyMaster demoWorld = some (rs, kmk, wk) ∧
          (∀ r ∈ rs, r.2 = none) ∧
          kmk.GetKeyPair 7 wk = some (r, kmf, wf) ∧ r.2 ≠ none) ∧
      (res.2 ≠ none →
        ∃ k rs kmk wk kp e, k < ["a", "b", "c", "d"].length ∧
          KeyMaster.successive 7 k demoKeyMaster demoWorld = some (rs, kmk, wk) ∧
          (∀ r ∈ rs, r.2 = none) ∧
          kmk.GetKeyPair 7 wk = some ((kp, some e), km1, w1) ∧
          res = (none, some e) ∧
          countGet w1.calls = countGet demoWorld.calls + (k + 1)) :=
  GetMappedKeyPairs_error demoKeyMaster ["a", "b", "c", "d"] 7 demoWorld (by decide)

end KeyPool


section KeyOps
variable {W : Type}

/-- One `GetKeyPair` call from a cursor within the pool bounds returns, keeps both
sequences and the generator, never moves the cursor back or past the bound, and
fails only with the cursor at the bound. -/
theorem GetKeyPair_bounded (km : KeyMaster W) (client : Client) (w : World W)
    (h0 : 0 ≤ km.index) (hb : km.index ≤ (km.bound : Int)) :
    ∃ r km1 w1, km.GetKeyPair client w = some (r, km1, w1) ∧
      km1.PrivateKeys = km.PrivateKeys ∧ km1.PublicKeys = km.PublicKeys ∧
      km1.generator = km.generator ∧
      km.index ≤ km1.index ∧ km1.index ≤ (km1.bound : Int) ∧
      (r.2 ≠ none → km1.index = (km1.bound : Int)) := by
  unfold KeyMaster.bound at *
  by_cases hex : km.index ≥ (km.PrivateKeys.length : Int) ∨
      km.index ≥ (km.PublicKeys.length : Int)
  · refine ⟨_, _, _, GetKeyPair_of_exhausted km client w hex, rfl, rfl, rfl, le_refl _, hb, ?_⟩
    intro _
    omega
  · obtain ⟨c, hc⟩ := Int.eq_ofNat_of_zero_le h0
    have h1 : c < km.PrivateKeys.length := by omega
    have h2 : c < km.PublicKeys.length := by omega
    obtain ⟨kp, _, hget⟩ := GetKeyPair_of_lt km client w c hc h1 h2
    refine ⟨_, _, _, hget, rfl, rfl, rfl, ?_, ?_, ?_⟩
    · show km.index ≤ (c : Int) + 1
      omega
    · show (c : Int) + 1 ≤ ((min km.PrivateKeys.length km.PublicKeys.length : Nat) : Int)
      omega
    · intro h
      exact absurd rfl h

/-- The loop of `GetMappedKeyPairs` from a cursor within the pool bounds returns, keeps
both sequences, never moves the cursor back or past the bound, and on an error
leaves the cursor at the bound and returns no map. -/
theorem mappedLoop_bounded (client : Client) (args : List String) :
    ∀ (m0 : GoMap KeyPair) (km : KeyMaster W) (w : World W), 0 ≤ km.index →
      km.index ≤ (km.bound : Int) →
      ∃ res km1 w1, KeyMaster.mappedLoop client args m0 km w = some (res, km1, w1) ∧
        km1.PrivateKeys = km.PrivateKeys ∧ km1.PublicKeys = km.PublicKeys ∧
        km1.generator = km.generator ∧
        km.index ≤ km1.index ∧ km1.index ≤ (km1.bound : Int) ∧
        (res.2 ≠ none → res.1 = none ∧ km1.index = (km1.bound : Int)) := by
  induction args with
  | nil =>
    intro m0 km w _ hb
    exact ⟨_, _, _, rfl, rfl, rfl, rfl, le_refl _, hb, fun h => absurd rfl h⟩
  | cons arg rest ih =>
    intro m0 km w h0 hb
    obtain ⟨r, km1, w1, hget, hp, hq, hg, hle, hb1, herr⟩ :=
      GetKeyPair_bounded km client w h0 hb
    obtain ⟨kp, e⟩ := r
    cases e with
    | some err =>
      refine ⟨(none, some (LogError err)), km1, w1, ?_, hp, hq, hg, hle, hb1, ?_⟩
      · simp only [KeyMaster.mappedLoop, hget]
      · intro _
        exact ⟨rfl, herr (by simp)⟩
    | none =>
      obtain ⟨res, km2, w2, hloop, hp2, hq2, hg2, hle2, hb2, herr2⟩ :=
        ih (GoMap.set m0 arg kp) km1 w1 (le_trans h0 hle) hb1
      refine ⟨res, km2, w2, ?_, hp2.trans hp, hq2.trans hq, hg2.trans hg,
        le_trans hle hle2, hb2, herr2⟩
      simp only [KeyMaster.mappedLoop, hget, hloop]

/-- One call of any of the four methods from a cursor within the pool bounds returns,
keeps both sequences, and never moves the cursor back or past the bound. -/
theorem step_bounded (km : KeyMaster W) (w : World W) (op : Op W)
    (h0 : 0 ≤ km.index) (hb : km.index ≤ (km.bound : Int)) :
    ∃ km1 w1, km.step w op = some (km1, w1) ∧
      km1.PrivateKeys = km.PrivateKeys ∧ km1.PublicKeys = km.PublicKeys ∧
      km.index ≤ km1.index ∧ km1.index ≤ (km1.bound : Int) := by
  cases op with
  | AddGenerator gen => exact ⟨_, _, rfl, rfl, rfl, le_refl _, hb⟩
  | GenerateKeyPair client => exact ⟨_, _, rfl, rfl, rfl, le_refl _, hb⟩
  | GetKeyPair client =>
    obtain ⟨r, km1, w1, hget, hp, hq, _, hle, hb1, _⟩ := GetKeyPair_bounded km client w h0 hb
    exact ⟨km1, w1, by simp only [KeyMaster.step, hget], hp, hq, hle, hb1⟩
  | GetMappedKeyPairs args client =>
    obtain ⟨res, km1, w1, hloop, hp, hq, _, hle, hb1, _⟩ :=
      mappedLoop_bounded client args [] km w h0 hb
    exact ⟨km1, w1, by simp only [KeyMaster.step, KeyMaster.GetMappedKeyPairs, hloop],
      hp, hq, hle, hb1⟩

/-- A sequence of calls from a cursor within the pool bounds returns, keeps both
sequences, and never moves the cursor back or past the bound. -/
theorem run_bounded (ops : List (Op W)) :
    ∀ (km : KeyMaster W) (w : World W), 0 ≤ km.index → km.index ≤ (km.bound : Int) →
      ∃ km1 w1, KeyMaster.run ops km w = some (km1, w1) ∧
        km1.PrivateKeys = km.PrivateKeys ∧ km1.PublicKeys = km.PublicKeys ∧
        km.index ≤ km1.index ∧ km1.index ≤ (km1.bound : Int) := by
  induction ops with
  | nil =>
    intro km w _ hb
    exact ⟨km, w, rfl, rfl, rfl, le_refl _, hb⟩
  | cons op ops ih =>
    intro km w h0 hb
    obtain ⟨km1, w1, hstep, hp, hq, hle, hb1⟩ := step_bounded km w op h0 hb
    obtain ⟨km2, w2, hrun, hp2, hq2, hle2, hb2⟩ := ih km1 w1 (le_trans h0 hle) hb1
    exact ⟨km2, w2, by simp only [KeyMaster.run, hstep, hrun], hp2.trans hp, hq2.trans hq,
      le_trans hle hle2, hb2⟩

/-- Running `ops1 ++ ops2` is running `ops2` from what `ops1` leaves. -/
theorem run_append (ops1 ops2 : List (Op W)) :
    ∀ (km : KeyMaster W) (w : World W),
      KeyMaster.run (ops1 ++ ops2) km w =
        match KeyMaster.run ops1 km w with
        | none => none
        | some (km1, w1) => KeyMaster.run ops2 km1 w1 := by
  induction ops1 with
  | nil => intro km w; rfl
  | cons op ops ih =>
    intro km w
    simp only [List.cons_append, KeyMaster.run]
    cases km.step w op with
    | none => rfl
    | some p => exact ih p.1 p.2

/-- C18: from a key master with cursor 0, every finite sequence of `AddGenerator`,
`GenerateKeyPair`, `GetKeyPair` and `GetMappedKeyPairs` calls returns without an
out-of-range access; at every point of the sequence (after `ops1`, and after any
continuation `ops2`) the cursor is between 0 and `min(len(PrivateKeys),
len(PublicKeys))` and not below its earlier value, both sequences are those the key
master started with, a cursor below the bound addresses an element of both
sequences, and `min(...)` successive `GetKeyPair` calls from the start issue exactly
the static pairs at positions 0 .. min-1 and leave the cursor at the bound. -/
theorem cursor_invariant (km : KeyMaster W) (w : World W) (ops1 ops2 : List (Op W))
    (client : Client) (h0 : km.index = 0) :
    ∃ km1 w1 km2 w2, KeyMaster.run ops1 km w = some (km1, w1) ∧
      KeyMaster.run (ops1 ++ ops2) km w = some (km2, w2) ∧
      0 ≤ km1.index ∧ km1.index ≤ km2.index ∧ km2.index ≤ (km.bound : Int) ∧
      km1.PrivateKeys = km.PrivateKeys ∧ km1.PublicKeys = km.PublicKeys ∧
      km2.PrivateKeys = km.PrivateKeys ∧ km2.PublicKeys = km.PublicKeys ∧
      (km2.index < (km.bound : Int) →
        ∃ priv pub, km2.PrivateKeys[km2.index.toNat]? = some priv ∧
          km2.PublicKeys[km2.index.toNat]? = some pub) ∧
      (∃ rs w3, KeyMaster.successive client km.bound km w =
          some (rs, { km with index := (km.bound : Int) }, w3) ∧
        rs.length = km.bound ∧
        ∀ i, i < km.bound → ∃ kp, km.poolPair i = some kp ∧ rs[i]? = some (kp, none)) := by
  have hb0 : km.index ≤ (km.bound : Int) := by rw [h0]; exact Int.ofNat_nonneg _
  obtain ⟨km1, w1, hrun1, hp1, hq1, hle1, hb1⟩ := run_bounded ops1 km w (by omega) hb0
  obtain ⟨km2, w2, hrun2, hp2, hq2, hle2, hb2⟩ :=
    run_bounded ops2 km1 w1 (by omega) hb1
  have hbound2 : km2.bound = km.bound := by
    unfold KeyMaster.bound
    rw [hp2, hq2, hp1, hq1]
  refine ⟨km1, w1, km2, w2, hrun1, ?_, by omega, hle2, by rw [← hbound2]; exact hb2,
    hp1, hq1, hp2.trans hp1, hq2.trans hq1, ?_, ?_⟩
  · rw [run_append, hrun1]
    exact hrun2
  · intro hlt
    have hnn : 0 ≤ km2.index := by omega
    obtain ⟨c, hc⟩ := Int.eq_ofNat_of_zero_le hnn
    have hc1 : c < km2.PrivateKeys.length := by
      rw [hp2, hp1]
      unfold KeyMaster.bound at hlt
      omega
    have hc2 : c < km2.PublicKeys.length := by
      rw [hq2, hq1]
      unfold KeyMaster.bound at hlt
      omega
    have htn : km2.index.toNat = c := by rw [hc]; simp
    rw [htn]
    exact ⟨km2.PrivateKeys[c], km2.PublicKeys[c], List.getElem?_eq_getElem hc1,
      List.getElem?_eq_getElem hc2⟩
  · obtain ⟨rs, hs, hrs⟩ := successive_static client km.bound km w 0 h0
      (by unfold KeyMaster.bound; omega) (by unfold KeyMaster.bound; omega)
    refine ⟨rs, ⟨w.ext, w.calls ++ List.replicate km.bound (Call.GetKeyPair client)⟩,
      ?_, ?_, ?_⟩
    · rw [hs]
      simp
    · exact successive_length client km.bound km w _ _ _ hs
    · intro i hi
      have := hrs i hi
      simpa using this

/-- C18 at a pool of three private and two public keys, with a mapped request for
four identifiers followed by two more calls: the cursor stops at 2. -/
theorem cursor_invariant_witness :
    ∃ km1 w1 km2 w2,
      KeyMaster.run [Op.GetMappedKeyPairs ["a", "b", "c", "d"] 7] unevenKeyMaster demoWorld =
        some (km1, w1) ∧
      KeyMaster.run ([Op.GetMappedKeyPairs ["a", "b", "c", "d"] 7] ++
          [Op.AddGenerator (some demoGenerator), Op.GetKeyPair 7]) unevenKeyMaster demoWorld =
        some (km2, w2) ∧
      0 ≤ km1.index ∧ km1.index ≤ km2.index ∧ km2.index ≤ (unevenKeyMaster.bound : Int) ∧
      km1.PrivateKeys = unevenKeyMaster.PrivateKeys ∧
      km1.PublicKeys = unevenKeyMaster.PublicKeys ∧
      km2.PrivateKeys = unevenKeyMaster.PrivateKeys ∧
      km2.PublicKeys = unevenKeyMaster.PublicKeys ∧
      (km2.index < (unevenKeyMaster.bound : Int) →
        ∃ priv pub, km2.PrivateKeys[km2.index.toNat]? = some priv ∧
          km2.PublicKeys[km2.index.toNat]? = some pub) ∧
      (∃ rs w3, KeyMaster.successive 7 unevenKeyMaster.bound unevenKeyMaster demoWorld =
          some (rs, { unevenKeyMaster with index := (unevenKeyMaster.bound : Int) }, w3) ∧
        rs.length = unevenKeyMaster.bound ∧
        ∀ i, i < unevenKeyMaster.bound →
          ∃ kp, unevenKeyMaster.poolPair i = some kp ∧ rs[i]? = some (kp, none)) :=
  cursor_invariant unevenKeyMaster demoWorld [Op.GetMappedKeyPairs ["a", "b", "c", "d"] 7]
    [Op.AddGenerator (some demoGenerator), Op.GetKeyPair 7] 7 rfl

/-- A request for more identifiers than static pairs are left, where the delegated
call fails with `e` (no generator, or a generator that fails in the external state
of the request): the loop consumes the static pairs left, then returns `e` and no
map, with the cursor at the bound. -/
theorem mappedLoop_fails (client : Client) (e : Error) (args : List String) :
    ∀ (m0 : GoMap KeyPair) (km : KeyMaster W) (w : World W), 0 ≤ km.index →
      km.index ≤ (km.bound : Int) →
      (∀ w2 : World W, w2.ext = w.ext → (km.GenerateKeyPair client w2).1.2 = some e) →
      (km.bound : Int) - km.index < (args.length : Int) →
      ∃ km1 w1, KeyMaster.mappedLoop client args m0 km w =
          some ((none, some e), km1, w1) ∧
        km1.index = (km.bound : Int) ∧
        countGet w1.calls = countGet w.calls + ((km.bound : Int) - km.index).toNat + 1 := by
  induction args with
  | nil =>
    intro m0 km w _ hb _ hlen
    simp only [List.length_nil, Nat.cast_zero] at hlen
    omega
  | cons arg rest ih =>
    intro m0 km w h0 hb herr hlen
    by_cases hex : km.index ≥ (km.PrivateKeys.length : Int) ∨
        km.index ≥ (km.PublicKeys.length : Int)
    · have hget := GetKeyPair_of_exhausted km client w hex
      have hgen := herr ⟨w.ext, w.calls ++ [Call.GetKeyPair client]⟩ rfl
      rcases hg : km.GenerateKeyPair client ⟨w.ext, w.calls ++ [Call.GetKeyPair client]⟩
        with ⟨⟨kp, oe⟩, w2⟩
      rw [hg] at hget hgen
      simp only at hgen
      subst hgen
      have hidx : km.index = (km.bound : Int) := by
        unfold KeyMaster.bound at hb ⊢
        omega
      refine ⟨km, w2, ?_, hidx, ?_⟩
      · simp only [KeyMaster.mappedLoop, hget, LogError]
      · have hw2 : countGet w2.calls = countGet w.calls + 1 := by
          have hc := GetKeyPair_countGet km client w _ _ _ hget
          exact hc
        rw [hw2, hidx]
        simp
    · obtain ⟨c, hc⟩ := Int.eq_ofNat_of_zero_le h0
      have h1 : c < km.PrivateKeys.length := by omega
      have h2 : c < km.PublicKeys.length := by omega
      obtain ⟨kp, _, hget⟩ := GetKeyPair_of_lt km client w c hc h1 h2
      have hlt : (c : Int) < (km.bound : Int) := by
        unfold KeyMaster.bound
        omega
      obtain ⟨km1, w1, hloop, hidx, hcount⟩ := ih (GoMap.set m0 arg kp)
        { km with index := (c : Int) + 1 }
        ⟨w.ext, w.calls ++ [Call.GetKeyPair client]⟩
        (by show (0 : Int) ≤ (c : Int) + 1; omega)
        (by show (c : Int) + 1 ≤ (km.bound : Int); omega)
        (fun w2 h => herr w2 h)
        (by
          show (km.bound : Int) - ((c : Int) + 1) < (rest.length : Int)
          simp only [List.length_cons, Nat.cast_add, Nat.cast_one] at hlen
          omega)
      refine ⟨km1, w1, ?_, hidx, ?_⟩
      · simp only [KeyMaster.mappedLoop, hget, hloop]
      · rw [hcount]
        have hb2 : ({ km with index := (c : Int) + 1 } : KeyMaster W).bound = km.bound := rfl
        have hi2 : ({ km with index := (c : Int) + 1 } : KeyMaster W).index = (c : Int) + 1 :=
          rfl
        rw [hb2, hi2, hc]
        simp only [countGet_append]
        have h3 : countGet [Call.GetKeyPair client] = 1 := rfl
        rw [h3]
        omega

/-- C19: `GetMappedKeyPairs` called with the cursor within the pool bounds returns.
When it returns an error it returns no map, and the cursor afterwards equals
`min(len(PrivateKeys), len(PublicKeys))` of the unchanged sequences: every static
pair still available before the call has been consumed. It does return an error
whenever more identifiers are requested than static pairs are left and the delegated
call fails with `e` (no generator, or a generator failing in the external state of
the request): the result is `e` with a nil map, after one `GetKeyPair` call for each
static pair left and one more. -/
theorem mapped_error_exhausts (km : KeyMaster W) (args : List String) (client : Client)
    (w : World W) (h0 : 0 ≤ km.index) (hb : km.index ≤ (km.bound : Int)) :
    ∃ res km1 w1, km.GetMappedKeyPairs args client w = some (res, km1, w1) ∧
      (res.2 ≠ none →
        res.1 = none ∧ km1.index = (km.bound : Int) ∧
        km1.PrivateKeys = km.PrivateKeys ∧ km1.PublicKeys = km.PublicKeys) ∧
      (∀ e, (∀ w2 : World W, w2.ext = w.ext → (km.GenerateKeyPair client w2).1.2 = some e) →
        (km.bound : Int) - km.index < (args.length : Int) →
        res = (none, some e) ∧ km1.index = (km.bound : Int) ∧
        km1.PrivateKeys = km.PrivateKeys ∧ km1.PublicKeys = km.PublicKeys ∧
        countGet w1.calls = countGet w.calls + ((km.bound : Int) - km.index).toNat + 1) := by
  obtain ⟨res, km1, w1, hloop, hp, hq, _, _, _, herr⟩ :=
    mappedLoop_bounded client args [] km w h0 hb
  have hbound : km1.bound = km.bound := by
    unfold KeyMaster.bound
    rw [hp, hq]
  refine ⟨res, km1, w1, hloop, ?_, ?_⟩
  · intro h
    exact ⟨(herr h).1, by rw [← hbound]; exact (herr h).2, hp, hq⟩
  · intro e hgen hlen
    obtain ⟨km2, w2, hloop2, hidx, hcount⟩ :=
      mappedLoop_fails client e args [] km w h0 hb hgen hlen
    have heq : (some (res, km1, w1) : Option _) = some ((none, some e), km2, w2) :=
      hloop.symm.trans hloop2
    have h3 := Option.some.inj heq
    have hres : res = (none, some e) := (Prod.mk.inj h3).1
    have hkm : km1 = km2 := (Prod.mk.inj (Prod.mk.inj h3).2).1
    have hw : w1 = w2 := (Prod.mk.inj (Prod.mk.inj h3).2).2
    subst hkm
    subst hw
    exact ⟨hres, hidx, hp, hq, hcount⟩

/-- C19 at the two-pair pool without generator and three identifiers: the request
fails with "no generator provided" and no map after three `GetKeyPair` calls, and the
cursor is left at 2, both static pairs consumed. -/
theorem mapped_error_exhausts_witness :
    ∃ km1 w1, demoKeyMaster.GetMappedKeyPairs ["a", "b", "c"] 7 demoWorld =
        some ((none, some "no generator provided"), km1, w1) ∧
      km1.index = 2 ∧
      km1.PrivateKeys = demoKeyMaster.PrivateKeys ∧
      km1.PublicKeys = demoKeyMaster.PublicKeys ∧
      countGet w1.calls = 3 := by
  obtain ⟨res, km1, w1, hrun, _, hfail⟩ :=
    mapped_error_exhausts demoKeyMaster ["a", "b", "c"] 7 demoWorld (by decide) (by decide)
  obtain ⟨hres, hidx, hp, hq, hcount⟩ :=
    hfail "no generator provided" (fun _ _ => rfl) (by decide)
  subst hres
  exact ⟨km1, w1, hrun, hidx, hp, hq, hcount⟩

/-- The request of the C19 witness evaluated. -/
theorem mapped_error_exhausts_eval :
    demoKeyMaster.GetMappedKeyPairs ["a", "b", "c"] 7 demoWorld =
      some ((none, some "no generator provided"), demoExhausted,
        ⟨0, [Call.GetKeyPair 7, Call.GetKeyPair 7, Call.GetKeyPair 7]⟩) := by
  rfl

end KeyOps

/-! ## Properties of the build strategies -/

section Builds

set_option linter.unusedTactic false
set_option linter.unreachableTactic false
set_option linter.unusedVariables false

variable {α β : Type} {P : Event → Prop}

theorem Emits.of_eq {m : Run α} (h : ∀ s, (m s).2.trace = s.trace) : Emits P m :=
  ⟨fun s => ⟨[], by simp [h s], by simp⟩⟩

theorem Emits.one {m : Run α} (e : Event) (he : P e)
    (h : ∀ s, (m s).2.trace = s.trace ++ [e]) : Emits P m :=
  ⟨fun s => ⟨[e], h s, by simpa using he⟩⟩

theorem Emits.pure (a : α) : Emits P (Pure.pure a : Run α) :=
  Emits.of_eq (fun _ => rfl)

theorem Emits.runPure (a : α) : Emits P (Run.pure a) :=
  Emits.of_eq (fun _ => rfl)

theorem Emits.panic : Emits P (Run.panic : Run α) :=
  Emits.of_eq (fun _ => rfl)

theorem Emits.hang : Emits P (Run.hang : Run α) :=
  Emits.of_eq (fun _ => rfl)

theorem Emits.bind {m : Run α} {f : α → Run β} (hm : Emits P m) (hf : ∀ a, Emits P (f a)) :
    Emits P (m >>= f) := by
  constructor
  intro s
  obtain ⟨e1, h1, hp1⟩ := hm.out s
  show ∃ evs, (Run.bind m f s).2.trace = s.trace ++ evs ∧ ∀ e ∈ evs, P e
  unfold Run.bind
  rcases hms : m s with ⟨r, s1⟩
  rw [hms] at h1
  simp only at h1
  cases r with
  | ok a =>
    obtain ⟨e2, h2, hp2⟩ := (hf a).out s1
    refine ⟨e1 ++ e2, ?_, ?_⟩
    · simp only [h2, h1, List.append_assoc]
    · intro e he
      rcases List.mem_append.mp he with h | h
      · exact hp1 e h
      · exact hp2 e h
  | panic => exact ⟨e1, h1, hp1⟩
  | hang => exact ⟨e1, h1, hp1⟩

theorem Emits.orReturn {err : Option Error} {rest : Run (Option Error)} (h : Emits P rest) :
    Emits P (orReturn err rest) := by
  cases err with
  | none => exact h
  | some e => exact Emits.runPure _

theorem Emits.forNodes {f : Node → Run (Option Error)} (hf : ∀ node, Emits P (f node))
    (l : List Node) : Emits P (forNodes f l) := by
  induction l with
  | nil => exact Emits.runPure _
  | cons node rest ih =>
    constructor
    intro s
    obtain ⟨e1, h1, hp1⟩ := (hf node).out s
    unfold Genesis.forNodes
    rcases hms : f node s with ⟨r, s1⟩
    rw [hms] at h1
    simp only at h1
    obtain ⟨e2, h2, hp2⟩ := ih.out s1
    have hmem : ∀ e ∈ e1 ++ e2, P e := by
      intro e he
      rcases List.mem_append.mp he with h | h
      · exact hp1 e h
      · exact hp2 e h
    rcases hrest : Genesis.forNodes f rest s1 with ⟨r2, s2⟩
    rw [hrest] at h2
    simp only at h2
    cases r with
    | ok a =>
      refine ⟨e1 ++ e2, ?_, hmem⟩
      simp only [hrest]
      cases r2 <;> simp [h2, h1]
    | panic => exact ⟨e1, h1, hp1⟩
    | hang =>
      refine ⟨e1 ++ e2, ?_, hmem⟩
      simp only [hrest]
      cases r2 <;> simp [h2, h1]

theorem Emits.AllNodeExecCon (env : Env) (tn : TestNet) {f : Node → Run (Option Error)}
    (h0 : P Event.AllNodeExecCon) (hf : ∀ node, Emits P (f node)) :
    Emits P (AllNodeExecCon env tn f) := by
  constructor
  intro s
  obtain ⟨evs, h1, h2⟩ := (Emits.forNodes hf (env.schedule s.trace tn.Nodes)).out
    { s with trace := s.trace ++ [Event.AllNodeExecCon] }
  refine ⟨Event.AllNodeExecCon :: evs, ?_, ?_⟩
  · unfold Genesis.AllNodeExecCon
    rw [h1]; simp
  · intro e he
    rcases List.mem_cons.mp he with h | h
    · rw [h]; exact h0
    · exact h2 e h

theorem Emits.AllNewNodeExecCon (env : Env) (tn : TestNet) {f : Node → Run (Option Error)}
    (h0 : P Event.AllNewNodeExecCon) (hf : ∀ node, Emits P (f node)) :
    Emits P (AllNewNodeExecCon env tn f) := by
  constructor
  intro s
  obtain ⟨evs, h1, h2⟩ := (Emits.forNodes hf (env.schedule s.trace tn.NewlyBuiltNodes)).out
    { s with trace := s.trace ++ [Event.AllNewNodeExecCon] }
  refine ⟨Event.AllNewNodeExecCon :: evs, ?_, ?_⟩
  · unfold Genesis.AllNewNodeExecCon
    rw [h1]; simp
  · intro e he
    rcases List.mem_cons.mp he with h | h
    · rw [h]; exact h0
    · exact h2 e h

theorem Emits.SetBuildSteps (n : Int) (h : P (Event.SetBuildSteps n)) :
    Emits P (SetBuildSteps n) := Emits.one _ h (fun _ => rfl)

theorem Emits.IncrementBuildProgress (h : P Event.IncrementBuildProgress) :
    Emits P IncrementBuildProgress := Emits.one _ h (fun _ => rfl)

theorem Emits.SetBuildStage (st : String) (h : P (Event.SetBuildStage st)) :
    Emits P (SetBuildStage st) := Emits.one _ h (fun _ => rfl)

theorem Emits.Set (k : String) (v : Val) (h : P (Event.Set k)) :
    Emits P (BuildState.Set k v) := Emits.one _ h (fun _ => rfl)

theorem Emits.SetExt (k : String) (v : Val) (h : P (Event.SetExt k)) :
    Emits P (BuildState.SetExt k v) := Emits.one _ h (fun _ => rfl)

theorem Emits.GetP (k : String) (h : P (Event.GetP k)) :
    Emits P (BuildState.GetP k) := Emits.one _ h (fun _ => rfl)

theorem Emits.Defer (n : Nat) (h : P (Event.Defer n)) :
    Emits P (BuildState.Defer n) := Emits.one _ h (fun _ => rfl)

theorem Emits.remoteExec (env : Env) (kind : ExecKind) (node : Node) (cmd : String)
    (h : P (Event.exec kind node.AbsoluteNumber cmd)) :
    Emits P (remoteExec env kind node cmd) := Emits.one _ h (fun _ => rfl)

theorem Emits.helperCall (env : Env) (fn : String) (args : List String)
    (h : P (Event.call fn args)) : Emits P (helperCall env fn args) :=
  Emits.one _ h (fun _ => rfl)

theorem Emits.GenerateAccounts (env : Env) (n : Int)
    (h : P (Event.call "ethereum.GenerateAccounts" [toString n])) :
    Emits P (GenerateAccounts env n) := Emits.one _ h (fun _ => rfl)

theorem Emits.Sleep (n : Nat) (h : P (Event.Sleep n)) : Emits P (Sleep n) :=
  Emits.one _ h (fun _ => rfl)

theorem Emits.newMutex : Emits P newMutex := Emits.of_eq (fun _ => rfl)

theorem Emits.Lock (h : P Event.Lock) : Emits P Lock := by
  constructor
  intro s
  unfold Genesis.Lock
  by_cases hl : s.muxLocked
  · exact ⟨[], by simp [hl], by simp⟩
  · exact ⟨[Event.Lock], by simp [hl], by simpa using h⟩

theorem Emits.Unlock (h : P Event.Unlock) : Emits P Unlock := by
  constructor
  intro s
  unfold Genesis.Unlock
  by_cases hl : s.muxLocked
  · exact ⟨[Event.Unlock], by simp [hl], by simpa using h⟩
  · exact ⟨[], by simp [hl], by simp⟩

theorem Emits.readSlice (v : Slice) : Emits P (readSlice v) := Emits.of_eq (fun _ => rfl)

theorem Emits.assignSlice (v : Slice) (l : List String) : Emits P (assignSlice v l) :=
  Emits.of_eq (fun _ => rfl)

theorem Emits.appendSlice (v : Slice) (x : String) : Emits P (appendSlice v x) :=
  Emits.of_eq (fun _ => rfl)

theorem Emits.makeSlice (v : Slice) (n : Int) : Emits P (makeSlice v n) := by
  unfold Genesis.makeSlice
  split
  · exact Emits.panic
  · exact Emits.assignSlice _ _

theorem Emits.storeSlice (v : Slice) (i : Nat) (x : String) : Emits P (storeSlice v i x) := by
  constructor
  intro s
  unfold Genesis.storeSlice
  by_cases hl : i < (s.slices v).length
  · exact ⟨[], by simp [hl], by simp⟩
  · exact ⟨[], by simp [hl], by simp⟩

theorem ethclassic_newConf_emits (hP : ∀ e, e.isSetBuildSteps = false → P e) (env : Env) : Emits P (ethclassic.newConf env) :=
  Emits.one (Event.call "newConf" []) (hP _ rfl) (fun _ => rfl)

theorem parity_newConf_emits (hP : ∀ e, e.isSetBuildSteps = false → P e) (env : Env) : Emits P (parity.newConf env) :=
  Emits.one (Event.call "newConf" []) (hP _ rfl) (fun _ => rfl)

theorem parity_specCall_emits (hP : ∀ e, e.isSetBuildSteps = false → P e) (env : Env) (fn : String) (pconf : ParityConf)
    (wallets : List String) : Emits P (parity.specCall env fn pconf wallets) :=
  Emits.one (Event.call fn wallets) (hP _ rfl) (fun _ => rfl)

theorem ethclassic_generatePasswordFile_emits (hP : ∀ e, e.isSetBuildSteps = false → P e) (env : Env) (accounts : List Account) (pw dest : String) :
    Emits P (ethclassic.generatePasswordFile env accounts pw dest) := by
  unfold ethclassic.generatePasswordFile
  repeat' (first
    | exact ih _
    | exact ih _ _
    | exact Emits.runPure _
    | exact Emits.pure _
    | exact Emits.panic
    | exact Emits.hang
    | apply Emits.orReturn
    | apply Emits.bind
    | (apply Emits.remoteExec; exact hP _ rfl)
    | (apply Emits.helperCall; exact hP _ rfl)
    | (apply Emits.GenerateAccounts; exact hP _ rfl)
    | (apply Emits.Lock; exact hP _ rfl)
    | (apply Emits.Unlock; exact hP _ rfl)
    | (apply Emits.IncrementBuildProgress; exact hP _ rfl)
    | (apply Emits.SetBuildStage; exact hP _ rfl)
    | (apply Emits.Set; exact hP _ rfl)
    | (apply Emits.SetExt; exact hP _ rfl)
    | (apply Emits.GetP; exact hP _ rfl)
    | (apply Emits.Defer; exact hP _ rfl)
    | (apply Emits.Sleep; exact hP _ rfl)
    | apply Emits.storeSlice
    | apply Emits.appendSlice
    | apply Emits.assignSlice
    | apply Emits.makeSlice
    | apply Emits.readSlice
    | (apply Emits.AllNodeExecCon; exact hP _ rfl)
    | (apply Emits.AllNewNodeExecCon; exact hP _ rfl)
    | intro _
    | dsimp only
    | split)

theorem ethclassic_importAccounts_emits (hP : ∀ e, e.isSetBuildSteps = false → P e) (env : Env) (node : Node) (accounts : List Account) :
    ∀ i, Emits P (ethclassic.importAccounts env node accounts i) := by
  induction accounts with
  | nil => intro i; exact Emits.runPure _
  | cons x rest ih =>
    intro i
    unfold ethclassic.importAccounts
    repeat' (first
      | exact ih _
      | exact ih _ _
      | exact Emits.runPure _
      | exact Emits.pure _
      | exact Emits.panic
      | exact Emits.hang
      | apply Emits.orReturn
      | apply Emits.bind
      | (apply Emits.remoteExec; exact hP _ rfl)
      | (apply Emits.helperCall; exact hP _ rfl)
      | (apply Emits.GenerateAccounts; exact hP _ rfl)
      | (apply Emits.Lock; exact hP _ rfl)
      | (apply Emits.Unlock; exact hP _ rfl)
      | (apply Emits.IncrementBuildProgress; exact hP _ rfl)
      | (apply Emits.SetBuildStage; exact hP _ rfl)
      | (apply Emits.Set; exact hP _ rfl)
      | (apply Emits.SetExt; exact hP _ rfl)
      | (apply Emits.GetP; exact hP _ rfl)
      | (apply Emits.Defer; exact hP _ rfl)
      | (apply Emits.Sleep; exact hP _ rfl)
      | apply Emits.storeSlice
      | apply Emits.appendSlice
      | apply Emits.assignSlice
      | apply Emits.makeSlice
      | apply Emits.readSlice
      | (apply Emits.AllNodeExecCon; exact hP _ rfl)
      | (apply Emits.AllNewNodeExecCon; exact hP _ rfl)
      | intro _
      | dsimp only
      | split)

theorem ethclassic_createGenesisfile_emits (hP : ∀ e, e.isSetBuildSteps = false → P e) (env : Env) (etcconf : EtcConf) (accounts : List Account) :
    Emits P (ethclassic.createGenesisfile env etcconf accounts) := by
  unfold ethclassic.createGenesisfile
  repeat' (first
    | exact ih _
    | exact ih _ _
    | exact Emits.runPure _
    | exact Emits.pure _
    | exact Emits.panic
    | exact Emits.hang
    | apply Emits.orReturn
    | apply Emits.bind
    | (apply Emits.remoteExec; exact hP _ rfl)
    | (apply Emits.helperCall; exact hP _ rfl)
    | (apply Emits.GenerateAccounts; exact hP _ rfl)
    | (apply Emits.Lock; exact hP _ rfl)
    | (apply Emits.Unlock; exact hP _ rfl)
    | (apply Emits.IncrementBuildProgress; exact hP _ rfl)
    | (apply Emits.SetBuildStage; exact hP _ rfl)
    | (apply Emits.Set; exact hP _ rfl)
    | (apply Emits.SetExt; exact hP _ rfl)
    | (apply Emits.GetP; exact hP _ rfl)
    | (apply Emits.Defer; exact hP _ rfl)
    | (apply Emits.Sleep; exact hP _ rfl)
    | apply Emits.storeSlice
    | apply Emits.appendSlice
    | apply Emits.assignSlice
    | apply Emits.makeSlice
    | apply Emits.readSlice
    | (apply Emits.AllNodeExecCon; exact hP _ rfl)
    | (apply Emits.AllNewNodeExecCon; exact hP _ rfl)
    | intro _
    | dsimp only
    | split)

theorem ethclassic_initGeth_emits (hP : ∀ e, e.isSetBuildSteps = false → P e) (env : Env) (etcconf : EtcConf) (node : Node) :
    Emits P (ethclassic.initGeth env etcconf node) := by
  unfold ethclassic.initGeth
  repeat' (first
    | exact ih _
    | exact ih _ _
    | exact Emits.runPure _
    | exact Emits.pure _
    | exact Emits.panic
    | exact Emits.hang
    | apply Emits.orReturn
    | apply Emits.bind
    | (apply Emits.remoteExec; exact hP _ rfl)
    | (apply Emits.helperCall; exact hP _ rfl)
    | (apply Emits.GenerateAccounts; exact hP _ rfl)
    | (apply Emits.Lock; exact hP _ rfl)
    | (apply Emits.Unlock; exact hP _ rfl)
    | (apply Emits.IncrementBuildProgress; exact hP _ rfl)
    | (apply Emits.SetBuildStage; exact hP _ rfl)
    | (apply Emits.Set; exact hP _ rfl)
    | (apply Emits.SetExt; exact hP _ rfl)
    | (apply Emits.GetP; exact hP _ rfl)
    | (apply Emits.Defer; exact hP _ rfl)
    | (apply Emits.Sleep; exact hP _ rfl)
    | apply Emits.storeSlice
    | apply Emits.appendSlice
    | apply Emits.assignSlice
    | apply Emits.makeSlice
    | apply Emits.readSlice
    | (apply Emits.AllNodeExecCon; exact hP _ rfl)
    | (apply Emits.AllNewNodeExecCon; exact hP _ rfl)
    | intro _
    | dsimp only
    | split)

theorem ethclassic_moveKeystore_emits (hP : ∀ e, e.isSetBuildSteps = false → P e) (env : Env) (etcconf : EtcConf) (node : Node) :
    Emits P (ethclassic.moveKeystore env etcconf node) := by
  unfold ethclassic.moveKeystore
  repeat' (first
    | exact ih _
    | exact ih _ _
    | exact Emits.runPure _
    | exact Emits.pure _
    | exact Emits.panic
    | exact Emits.hang
    | apply Emits.orReturn
    | apply Emits.bind
    | (apply Emits.remoteExec; exact hP _ rfl)
    | (apply Emits.helperCall; exact hP _ rfl)
    | (apply Emits.GenerateAccounts; exact hP _ rfl)
    | (apply Emits.Lock; exact hP _ rfl)
    | (apply Emits.Unlock; exact hP _ rfl)
    | (apply Emits.IncrementBuildProgress; exact hP _ rfl)
    | (apply Emits.SetBuildStage; exact hP _ rfl)
    | (apply Emits.Set; exact hP _ rfl)
    | (apply Emits.SetExt; exact hP _ rfl)
    | (apply Emits.GetP; exact hP _ rfl)
    | (apply Emits.Defer; exact hP _ rfl)
    | (apply Emits.Sleep; exact hP _ rfl)
    | apply Emits.storeSlice
    | apply Emits.appendSlice
    | apply Emits.assignSlice
    | apply Emits.makeSlice
    | apply Emits.readSlice
    | (apply Emits.AllNodeExecCon; exact hP _ rfl)
    | (apply Emits.AllNewNodeExecCon; exact hP _ rfl)
    | intro _
    | dsimp only
    | split)

theorem ethclassic_startGeth_emits (hP : ∀ e, e.isSetBuildSteps = false → P e) (env : Env) (etcconf : EtcConf) (accounts : List Account) (unlock : String) (node : Node) :
    Emits P (ethclassic.startGeth env etcconf accounts unlock node) := by
  unfold ethclassic.startGeth
  repeat' (first
    | exact ih _
    | exact ih _ _
    | exact Emits.runPure _
    | exact Emits.pure _
    | exact Emits.panic
    | exact Emits.hang
    | apply Emits.orReturn
    | apply Emits.bind
    | (apply Emits.remoteExec; exact hP _ rfl)
    | (apply Emits.helperCall; exact hP _ rfl)
    | (apply Emits.GenerateAccounts; exact hP _ rfl)
    | (apply Emits.Lock; exact hP _ rfl)
    | (apply Emits.Unlock; exact hP _ rfl)
    | (apply Emits.IncrementBuildProgress; exact hP _ rfl)
    | (apply Emits.SetBuildStage; exact hP _ rfl)
    | (apply Emits.Set; exact hP _ rfl)
    | (apply Emits.SetExt; exact hP _ rfl)
    | (apply Emits.GetP; exact hP _ rfl)
    | (apply Emits.Defer; exact hP _ rfl)
    | (apply Emits.Sleep; exact hP _ rfl)
    | apply Emits.storeSlice
    | apply Emits.appendSlice
    | apply Emits.assignSlice
    | apply Emits.makeSlice
    | apply Emits.readSlice
    | (apply Emits.AllNodeExecCon; exact hP _ rfl)
    | (apply Emits.AllNewNodeExecCon; exact hP _ rfl)
    | intro _
    | dsimp only
    | split)

theorem ethclassic_peerRetry_emits (hP : ∀ e, e.isSetBuildSteps = false → P e) (env : Env) (node : Node) (enode : String) (k : Nat) :
    ∀ err, Emits P (ethclassic.peerRetry env node enode k err) := by
  induction k with
  | zero => intro err; exact Emits.runPure _
  | succ k ih =>
    intro err
    unfold ethclassic.peerRetry
    repeat' (first
      | exact ih _
      | exact ih _ _
      | exact Emits.runPure _
      | exact Emits.pure _
      | exact Emits.panic
      | exact Emits.hang
      | apply Emits.orReturn
      | apply Emits.bind
      | (apply Emits.remoteExec; exact hP _ rfl)
      | (apply Emits.helperCall; exact hP _ rfl)
      | (apply Emits.GenerateAccounts; exact hP _ rfl)
      | (apply Emits.Lock; exact hP _ rfl)
      | (apply Emits.Unlock; exact hP _ rfl)
      | (apply Emits.IncrementBuildProgress; exact hP _ rfl)
      | (apply Emits.SetBuildStage; exact hP _ rfl)
      | (apply Emits.Set; exact hP _ rfl)
      | (apply Emits.SetExt; exact hP _ rfl)
      | (apply Emits.GetP; exact hP _ rfl)
      | (apply Emits.Defer; exact hP _ rfl)
      | (apply Emits.Sleep; exact hP _ rfl)
      | apply Emits.storeSlice
      | apply Emits.appendSlice
      | apply Emits.assignSlice
      | apply Emits.makeSlice
      | apply Emits.readSlice
      | (apply Emits.AllNodeExecCon; exact hP _ rfl)
      | (apply Emits.AllNewNodeExecCon; exact hP _ rfl)
      | intro _
      | dsimp only
      | split)

theorem ethclassic_peerLoop_emits (hP : ∀ e, e.isSetBuildSteps = false → P e) (env : Env) (node : Node) (enodes : List String) :
    ∀ i, Emits P (ethclassic.peerLoop env node enodes i) := by
  induction enodes with
  | nil => intro i; exact Emits.runPure _
  | cons x rest ih =>
    intro i
    unfold ethclassic.peerLoop
    repeat' (first
      | apply ethclassic_peerRetry_emits hP
      | exact ih _
      | exact ih _ _
      | exact Emits.runPure _
      | exact Emits.pure _
      | exact Emits.panic
      | exact Emits.hang
      | apply Emits.orReturn
      | apply Emits.bind
      | (apply Emits.remoteExec; exact hP _ rfl)
      | (apply Emits.helperCall; exact hP _ rfl)
      | (apply Emits.GenerateAccounts; exact hP _ rfl)
      | (apply Emits.Lock; exact hP _ rfl)
      | (apply Emits.Unlock; exact hP _ rfl)
      | (apply Emits.IncrementBuildProgress; exact hP _ rfl)
      | (apply Emits.SetBuildStage; exact hP _ rfl)
      | (apply Emits.Set; exact hP _ rfl)
      | (apply Emits.SetExt; exact hP _ rfl)
      | (apply Emits.GetP; exact hP _ rfl)
      | (apply Emits.Defer; exact hP _ rfl)
      | (apply Emits.Sleep; exact hP _ rfl)
      | apply Emits.storeSlice
      | apply Emits.appendSlice
      | apply Emits.assignSlice
      | apply Emits.makeSlice
      | apply Emits.readSlice
      | (apply Emits.AllNodeExecCon; exact hP _ rfl)
      | (apply Emits.AllNewNodeExecCon; exact hP _ rfl)
      | intro _
      | dsimp only
      | split)

theorem ethclassic_peerAllNodes_emits (hP : ∀ e, e.isSetBuildSteps = false → P e) (env : Env) (tn : TestNet) (enodes : List String) :
    Emits P (ethclassic.peerAllNodes env tn enodes) := by
  unfold ethclassic.peerAllNodes
  repeat' (first
    | apply ethclassic_peerLoop_emits hP
    | exact ih _
    | exact ih _ _
    | exact Emits.runPure _
    | exact Emits.pure _
    | exact Emits.panic
    | exact Emits.hang
    | apply Emits.orReturn
    | apply Emits.bind
    | (apply Emits.remoteExec; exact hP _ rfl)
    | (apply Emits.helperCall; exact hP _ rfl)
    | (apply Emits.GenerateAccounts; exact hP _ rfl)
    | (apply Emits.Lock; exact hP _ rfl)
    | (apply Emits.Unlock; exact hP _ rfl)
    | (apply Emits.IncrementBuildProgress; exact hP _ rfl)
    | (apply Emits.SetBuildStage; exact hP _ rfl)
    | (apply Emits.Set; exact hP _ rfl)
    | (apply Emits.SetExt; exact hP _ rfl)
    | (apply Emits.GetP; exact hP _ rfl)
    | (apply Emits.Defer; exact hP _ rfl)
    | (apply Emits.Sleep; exact hP _ rfl)
    | apply Emits.storeSlice
    | apply Emits.appendSlice
    | apply Emits.assignSlice
    | apply Emits.makeSlice
    | apply Emits.readSlice
    | (apply Emits.AllNodeExecCon; exact hP _ rfl)
    | (apply Emits.AllNewNodeExecCon; exact hP _ rfl)
    | intro _
    | dsimp only
    | split)

theorem ethclassic_unlockAllAccounts_emits (hP : ∀ e, e.isSetBuildSteps = false → P e) (env : Env) (tn : TestNet) :
    Emits P (ethclassic.unlockAllAccounts env tn) := by
  unfold ethclassic.unlockAllAccounts
  repeat' (first
    | exact ih _
    | exact ih _ _
    | exact Emits.runPure _
    | exact Emits.pure _
    | exact Emits.panic
    | exact Emits.hang
    | apply Emits.orReturn
    | apply Emits.bind
    | (apply Emits.remoteExec; exact hP _ rfl)
    | (apply Emits.helperCall; exact hP _ rfl)
    | (apply Emits.GenerateAccounts; exact hP _ rfl)
    | (apply Emits.Lock; exact hP _ rfl)
    | (apply Emits.Unlock; exact hP _ rfl)
    | (apply Emits.IncrementBuildProgress; exact hP _ rfl)
    | (apply Emits.SetBuildStage; exact hP _ rfl)
    | (apply Emits.Set; exact hP _ rfl)
    | (apply Emits.SetExt; exact hP _ rfl)
    | (apply Emits.GetP; exact hP _ rfl)
    | (apply Emits.Defer; exact hP _ rfl)
    | (apply Emits.Sleep; exact hP _ rfl)
    | apply Emits.storeSlice
    | apply Emits.appendSlice
    | apply Emits.assignSlice
    | apply Emits.makeSlice
    | apply Emits.readSlice
    | (apply Emits.AllNodeExecCon; exact hP _ rfl)
    | (apply Emits.AllNewNodeExecCon; exact hP _ rfl)
    | intro _
    | dsimp only
    | split)

theorem parity_createWallet_emits (hP : ∀ e, e.isSetBuildSteps = false → P e) (env : Env) (node : Node) :
    Emits P (parity.createWallet env node) := by
  unfold parity.createWallet
  repeat' (first
    | exact ih _
    | exact ih _ _
    | exact Emits.runPure _
    | exact Emits.pure _
    | exact Emits.panic
    | exact Emits.hang
    | apply Emits.orReturn
    | apply Emits.bind
    | (apply Emits.remoteExec; exact hP _ rfl)
    | (apply Emits.helperCall; exact hP _ rfl)
    | (apply Emits.GenerateAccounts; exact hP _ rfl)
    | (apply Emits.Lock; exact hP _ rfl)
    | (apply Emits.Unlock; exact hP _ rfl)
    | (apply Emits.IncrementBuildProgress; exact hP _ rfl)
    | (apply Emits.SetBuildStage; exact hP _ rfl)
    | (apply Emits.Set; exact hP _ rfl)
    | (apply Emits.SetExt; exact hP _ rfl)
    | (apply Emits.GetP; exact hP _ rfl)
    | (apply Emits.Defer; exact hP _ rfl)
    | (apply Emits.Sleep; exact hP _ rfl)
    | apply Emits.storeSlice
    | apply Emits.appendSlice
    | apply Emits.assignSlice
    | apply Emits.makeSlice
    | apply Emits.readSlice
    | (apply Emits.AllNodeExecCon; exact hP _ rfl)
    | (apply Emits.AllNewNodeExecCon; exact hP _ rfl)
    | intro _
    | dsimp only
    | split)

theorem parity_createWalletAppend_emits (hP : ∀ e, e.isSetBuildSteps = false → P e) (env : Env) (node : Node) :
    Emits P (parity.createWalletAppend env node) := by
  unfold parity.createWalletAppend
  repeat' (first
    | exact ih _
    | exact ih _ _
    | exact Emits.runPure _
    | exact Emits.pure _
    | exact Emits.panic
    | exact Emits.hang
    | apply Emits.orReturn
    | apply Emits.bind
    | (apply Emits.remoteExec; exact hP _ rfl)
    | (apply Emits.helperCall; exact hP _ rfl)
    | (apply Emits.GenerateAccounts; exact hP _ rfl)
    | (apply Emits.Lock; exact hP _ rfl)
    | (apply Emits.Unlock; exact hP _ rfl)
    | (apply Emits.IncrementBuildProgress; exact hP _ rfl)
    | (apply Emits.SetBuildStage; exact hP _ rfl)
    | (apply Emits.Set; exact hP _ rfl)
    | (apply Emits.SetExt; exact hP _ rfl)
    | (apply Emits.GetP; exact hP _ rfl)
    | (apply Emits.Defer; exact hP _ rfl)
    | (apply Emits.Sleep; exact hP _ rfl)
    | apply Emits.storeSlice
    | apply Emits.appendSlice
    | apply Emits.assignSlice
    | apply Emits.makeSlice
    | apply Emits.readSlice
    | (apply Emits.AllNodeExecCon; exact hP _ rfl)
    | (apply Emits.AllNewNodeExecCon; exact hP _ rfl)
    | intro _
    | dsimp only
    | split)

theorem parity_importLoop_emits (hP : ∀ e, e.isSetBuildSteps = false → P e) (env : Env) (node : Node) (rawWallets : List String) :
    ∀ i, Emits P (parity.importLoop env node rawWallets i) := by
  induction rawWallets with
  | nil => intro i; exact Emits.runPure _
  | cons x rest ih =>
    intro i
    unfold parity.importLoop
    repeat' (first
      | exact ih _
      | exact ih _ _
      | exact Emits.runPure _
      | exact Emits.pure _
      | exact Emits.panic
      | exact Emits.hang
      | apply Emits.orReturn
      | apply Emits.bind
      | (apply Emits.remoteExec; exact hP _ rfl)
      | (apply Emits.helperCall; exact hP _ rfl)
      | (apply Emits.GenerateAccounts; exact hP _ rfl)
      | (apply Emits.Lock; exact hP _ rfl)
      | (apply Emits.Unlock; exact hP _ rfl)
      | (apply Emits.IncrementBuildProgress; exact hP _ rfl)
      | (apply Emits.SetBuildStage; exact hP _ rfl)
      | (apply Emits.Set; exact hP _ rfl)
      | (apply Emits.SetExt; exact hP _ rfl)
      | (apply Emits.GetP; exact hP _ rfl)
      | (apply Emits.Defer; exact hP _ rfl)
      | (apply Emits.Sleep; exact hP _ rfl)
      | apply Emits.storeSlice
      | apply Emits.appendSlice
      | apply Emits.assignSlice
      | apply Emits.makeSlice
      | apply Emits.readSlice
      | (apply Emits.AllNodeExecCon; exact hP _ rfl)
      | (apply Emits.AllNewNodeExecCon; exact hP _ rfl)
      | intro _
      | dsimp only
      | split)

theorem parity_importWallets_emits (hP : ∀ e, e.isSetBuildSteps = false → P e) (env : Env) (node : Node) :
    Emits P (parity.importWallets env node) := by
  unfold parity.importWallets
  repeat' (first
    | apply parity_importLoop_emits hP
    | exact ih _
    | exact ih _ _
    | exact Emits.runPure _
    | exact Emits.pure _
    | exact Emits.panic
    | exact Emits.hang
    | apply Emits.orReturn
    | apply Emits.bind
    | (apply Emits.remoteExec; exact hP _ rfl)
    | (apply Emits.helperCall; exact hP _ rfl)
    | (apply Emits.GenerateAccounts; exact hP _ rfl)
    | (apply Emits.Lock; exact hP _ rfl)
    | (apply Emits.Unlock; exact hP _ rfl)
    | (apply Emits.IncrementBuildProgress; exact hP _ rfl)
    | (apply Emits.SetBuildStage; exact hP _ rfl)
    | (apply Emits.Set; exact hP _ rfl)
    | (apply Emits.SetExt; exact hP _ rfl)
    | (apply Emits.GetP; exact hP _ rfl)
    | (apply Emits.Defer; exact hP _ rfl)
    | (apply Emits.Sleep; exact hP _ rfl)
    | apply Emits.storeSlice
    | apply Emits.appendSlice
    | apply Emits.assignSlice
    | apply Emits.makeSlice
    | apply Emits.readSlice
    | (apply Emits.AllNodeExecCon; exact hP _ rfl)
    | (apply Emits.AllNewNodeExecCon; exact hP _ rfl)
    | intro _
    | dsimp only
    | split)

theorem parity_startDaemon_emits (hP : ∀ e, e.isSetBuildSteps = false → P e) (env : Env) (node : Node) (author : Option String) :
    Emits P (parity.startDaemon env node author) := by
  unfold parity.startDaemon
  repeat' (first
    | exact ih _
    | exact ih _ _
    | exact Emits.runPure _
    | exact Emits.pure _
    | exact Emits.panic
    | exact Emits.hang
    | apply Emits.orReturn
    | apply Emits.bind
    | (apply Emits.remoteExec; exact hP _ rfl)
    | (apply Emits.helperCall; exact hP _ rfl)
    | (apply Emits.GenerateAccounts; exact hP _ rfl)
    | (apply Emits.Lock; exact hP _ rfl)
    | (apply Emits.Unlock; exact hP _ rfl)
    | (apply Emits.IncrementBuildProgress; exact hP _ rfl)
    | (apply Emits.SetBuildStage; exact hP _ rfl)
    | (apply Emits.Set; exact hP _ rfl)
    | (apply Emits.SetExt; exact hP _ rfl)
    | (apply Emits.GetP; exact hP _ rfl)
    | (apply Emits.Defer; exact hP _ rfl)
    | (apply Emits.Sleep; exact hP _ rfl)
    | apply Emits.storeSlice
    | apply Emits.appendSlice
    | apply Emits.assignSlice
    | apply Emits.makeSlice
    | apply Emits.readSlice
    | (apply Emits.AllNodeExecCon; exact hP _ rfl)
    | (apply Emits.AllNewNodeExecCon; exact hP _ rfl)
    | intro _
    | dsimp only
    | split)

theorem parity_enodeLoop_emits (hP : ∀ e, e.isSetBuildSteps = false → P e) (env : Env) (node : Node) (k : Nat) :
    Emits P (parity.enodeLoop env node k) := by
  induction k with
  | zero => exact Emits.hang
  | succ k ih =>
    unfold parity.enodeLoop
    repeat' (first
      | exact ih _
      | exact ih _ _
      | exact Emits.runPure _
      | exact Emits.pure _
      | exact Emits.panic
      | exact Emits.hang
      | apply Emits.orReturn
      | apply Emits.bind
      | (apply Emits.remoteExec; exact hP _ rfl)
      | (apply Emits.helperCall; exact hP _ rfl)
      | (apply Emits.GenerateAccounts; exact hP _ rfl)
      | (apply Emits.Lock; exact hP _ rfl)
      | (apply Emits.Unlock; exact hP _ rfl)
      | (apply Emits.IncrementBuildProgress; exact hP _ rfl)
      | (apply Emits.SetBuildStage; exact hP _ rfl)
      | (apply Emits.Set; exact hP _ rfl)
      | (apply Emits.SetExt; exact hP _ rfl)
      | (apply Emits.GetP; exact hP _ rfl)
      | (apply Emits.Defer; exact hP _ rfl)
      | (apply Emits.Sleep; exact hP _ rfl)
      | apply Emits.storeSlice
      | apply Emits.appendSlice
      | apply Emits.assignSlice
      | apply Emits.makeSlice
      | apply Emits.readSlice
      | (apply Emits.AllNodeExecCon; exact hP _ rfl)
      | (apply Emits.AllNewNodeExecCon; exact hP _ rfl)
      | exact ih
      | intro _
      | dsimp only
      | split)

theorem parity_collectEnode_emits (hP : ∀ e, e.isSetBuildSteps = false → P e) (env : Env) (node : Node) (slot : Option Nat) :
    Emits P (parity.collectEnode env node slot) := by
  unfold parity.collectEnode
  repeat' (first
    | apply parity_enodeLoop_emits hP
    | exact ih _
    | exact ih _ _
    | exact Emits.runPure _
    | exact Emits.pure _
    | exact Emits.panic
    | exact Emits.hang
    | apply Emits.orReturn
    | apply Emits.bind
    | (apply Emits.remoteExec; exact hP _ rfl)
    | (apply Emits.helperCall; exact hP _ rfl)
    | (apply Emits.GenerateAccounts; exact hP _ rfl)
    | (apply Emits.Lock; exact hP _ rfl)
    | (apply Emits.Unlock; exact hP _ rfl)
    | (apply Emits.IncrementBuildProgress; exact hP _ rfl)
    | (apply Emits.SetBuildStage; exact hP _ rfl)
    | (apply Emits.Set; exact hP _ rfl)
    | (apply Emits.SetExt; exact hP _ rfl)
    | (apply Emits.GetP; exact hP _ rfl)
    | (apply Emits.Defer; exact hP _ rfl)
    | (apply Emits.Sleep; exact hP _ rfl)
    | apply Emits.storeSlice
    | apply Emits.appendSlice
    | apply Emits.assignSlice
    | apply Emits.makeSlice
    | apply Emits.readSlice
    | (apply Emits.AllNodeExecCon; exact hP _ rfl)
    | (apply Emits.AllNewNodeExecCon; exact hP _ rfl)
    | intro _
    | dsimp only
    | split)

theorem parity_peerLoop_emits (hP : ∀ e, e.isSetBuildSteps = false → P e) (env : Env) (node : Node) (enodes : List String) :
    ∀ i, Emits P (parity.peerLoop env node enodes i) := by
  induction enodes with
  | nil => intro i; exact Emits.runPure _
  | cons x rest ih =>
    intro i
    unfold parity.peerLoop
    repeat' (first
      | exact ih _
      | exact ih _ _
      | exact Emits.runPure _
      | exact Emits.pure _
      | exact Emits.panic
      | exact Emits.hang
      | apply Emits.orReturn
      | apply Emits.bind
      | (apply Emits.remoteExec; exact hP _ rfl)
      | (apply Emits.helperCall; exact hP _ rfl)
      | (apply Emits.GenerateAccounts; exact hP _ rfl)
      | (apply Emits.Lock; exact hP _ rfl)
      | (apply Emits.Unlock; exact hP _ rfl)
      | (apply Emits.IncrementBuildProgress; exact hP _ rfl)
      | (apply Emits.SetBuildStage; exact hP _ rfl)
      | (apply Emits.Set; exact hP _ rfl)
      | (apply Emits.SetExt; exact hP _ rfl)
      | (apply Emits.GetP; exact hP _ rfl)
      | (apply Emits.Defer; exact hP _ rfl)
      | (apply Emits.Sleep; exact hP _ rfl)
      | apply Emits.storeSlice
      | apply Emits.appendSlice
      | apply Emits.assignSlice
      | apply Emits.makeSlice
      | apply Emits.readSlice
      | (apply Emits.AllNodeExecCon; exact hP _ rfl)
      | (apply Emits.AllNewNodeExecCon; exact hP _ rfl)
      | intro _
      | dsimp only
      | split)

theorem parity_peerAllNodes_emits (hP : ∀ e, e.isSetBuildSteps = false → P e) (env : Env) (tn : TestNet) (enodes : List String) :
    Emits P (parity.peerAllNodes env tn enodes) := by
  unfold parity.peerAllNodes
  repeat' (first
    | apply parity_peerLoop_emits hP
    | exact ih _
    | exact ih _ _
    | exact Emits.runPure _
    | exact Emits.pure _
    | exact Emits.panic
    | exact Emits.hang
    | apply Emits.orReturn
    | apply Emits.bind
    | (apply Emits.remoteExec; exact hP _ rfl)
    | (apply Emits.helperCall; exact hP _ rfl)
    | (apply Emits.GenerateAccounts; exact hP _ rfl)
    | (apply Emits.Lock; exact hP _ rfl)
    | (apply Emits.Unlock; exact hP _ rfl)
    | (apply Emits.IncrementBuildProgress; exact hP _ rfl)
    | (apply Emits.SetBuildStage; exact hP _ rfl)
    | (apply Emits.Set; exact hP _ rfl)
    | (apply Emits.SetExt; exact hP _ rfl)
    | (apply Emits.GetP; exact hP _ rfl)
    | (apply Emits.Defer; exact hP _ rfl)
    | (apply Emits.Sleep; exact hP _ rfl)
    | apply Emits.storeSlice
    | apply Emits.appendSlice
    | apply Emits.assignSlice
    | apply Emits.makeSlice
    | apply Emits.readSlice
    | (apply Emits.AllNodeExecCon; exact hP _ rfl)
    | (apply Emits.AllNewNodeExecCon; exact hP _ rfl)
    | intro _
    | dsimp only
    | split)

theorem parity_setMine_emits (hP : ∀ e, e.isSetBuildSteps = false → P e) (pconf : ParityConf) :
    Emits P (parity.setMine pconf) := by
  unfold parity.setMine
  split
  · exact Emits.Set _ _ (hP _ rfl)
  · split
    · exact Emits.Set _ _ (hP _ rfl)
    · exact Emits.pure _

theorem parity_storeParameters_emits (hP : ∀ e, e.isSetBuildSteps = false → P e) (env : Env) (tn : TestNet) (pconf : ParityConf) (wallets enodes : List String) :
    Emits P (parity.storeParameters env tn pconf wallets enodes) := by
  unfold parity.storeParameters
  repeat' (first
    | apply parity_setMine_emits hP
    | exact ih _
    | exact ih _ _
    | exact Emits.runPure _
    | exact Emits.pure _
    | exact Emits.panic
    | exact Emits.hang
    | apply Emits.orReturn
    | apply Emits.bind
    | (apply Emits.remoteExec; exact hP _ rfl)
    | (apply Emits.helperCall; exact hP _ rfl)
    | (apply Emits.GenerateAccounts; exact hP _ rfl)
    | (apply Emits.Lock; exact hP _ rfl)
    | (apply Emits.Unlock; exact hP _ rfl)
    | (apply Emits.IncrementBuildProgress; exact hP _ rfl)
    | (apply Emits.SetBuildStage; exact hP _ rfl)
    | (apply Emits.Set; exact hP _ rfl)
    | (apply Emits.SetExt; exact hP _ rfl)
    | (apply Emits.GetP; exact hP _ rfl)
    | (apply Emits.Defer; exact hP _ rfl)
    | (apply Emits.Sleep; exact hP _ rfl)
    | apply Emits.storeSlice
    | apply Emits.appendSlice
    | apply Emits.assignSlice
    | apply Emits.makeSlice
    | apply Emits.readSlice
    | (apply Emits.AllNodeExecCon; exact hP _ rfl)
    | (apply Emits.AllNewNodeExecCon; exact hP _ rfl)
    | intro _
    | dsimp only
    | split)

theorem parity_setupPOA_emits (hP : ∀ e, e.isSetBuildSteps = false → P e) (env : Env) (pconf : ParityConf) (wallets : List String) :
    Emits P (parity.setupPOA env pconf wallets) := by
  unfold parity.setupPOA
  repeat' (first
    | apply parity_specCall_emits hP
    | exact ih _
    | exact ih _ _
    | exact Emits.runPure _
    | exact Emits.pure _
    | exact Emits.panic
    | exact Emits.hang
    | apply Emits.orReturn
    | apply Emits.bind
    | (apply Emits.remoteExec; exact hP _ rfl)
    | (apply Emits.helperCall; exact hP _ rfl)
    | (apply Emits.GenerateAccounts; exact hP _ rfl)
    | (apply Emits.Lock; exact hP _ rfl)
    | (apply Emits.Unlock; exact hP _ rfl)
    | (apply Emits.IncrementBuildProgress; exact hP _ rfl)
    | (apply Emits.SetBuildStage; exact hP _ rfl)
    | (apply Emits.Set; exact hP _ rfl)
    | (apply Emits.SetExt; exact hP _ rfl)
    | (apply Emits.GetP; exact hP _ rfl)
    | (apply Emits.Defer; exact hP _ rfl)
    | (apply Emits.Sleep; exact hP _ rfl)
    | apply Emits.storeSlice
    | apply Emits.appendSlice
    | apply Emits.assignSlice
    | apply Emits.makeSlice
    | apply Emits.readSlice
    | (apply Emits.AllNodeExecCon; exact hP _ rfl)
    | (apply Emits.AllNewNodeExecCon; exact hP _ rfl)
    | intro _
    | dsimp only
    | split)

theorem parity_setupPOW_emits (hP : ∀ e, e.isSetBuildSteps = false → P e) (env : Env) (pconf : ParityConf) (wallets : List String) :
    Emits P (parity.setupPOW env pconf wallets) := by
  unfold parity.setupPOW
  repeat' (first
    | apply parity_specCall_emits hP
    | exact ih _
    | exact ih _ _
    | exact Emits.runPure _
    | exact Emits.pure _
    | exact Emits.panic
    | exact Emits.hang
    | apply Emits.orReturn
    | apply Emits.bind
    | (apply Emits.remoteExec; exact hP _ rfl)
    | (apply Emits.helperCall; exact hP _ rfl)
    | (apply Emits.GenerateAccounts; exact hP _ rfl)
    | (apply Emits.Lock; exact hP _ rfl)
    | (apply Emits.Unlock; exact hP _ rfl)
    | (apply Emits.IncrementBuildProgress; exact hP _ rfl)
    | (apply Emits.SetBuildStage; exact hP _ rfl)
    | (apply Emits.Set; exact hP _ rfl)
    | (apply Emits.SetExt; exact hP _ rfl)
    | (apply Emits.GetP; exact hP _ rfl)
    | (apply Emits.Defer; exact hP _ rfl)
    | (apply Emits.Sleep; exact hP _ rfl)
    | apply Emits.storeSlice
    | apply Emits.appendSlice
    | apply Emits.assignSlice
    | apply Emits.makeSlice
    | apply Emits.readSlice
    | (apply Emits.AllNodeExecCon; exact hP _ rfl)
    | (apply Emits.AllNewNodeExecCon; exact hP _ rfl)
    | intro _
    | dsimp only
    | split)

theorem parity_setupNewPOA_emits (hP : ∀ e, e.isSetBuildSteps = false → P e) (env : Env) (pconf : ParityConf) (wallets genWallets : List String) :
    Emits P (parity.setupNewPOA env pconf wallets genWallets) := by
  unfold parity.setupNewPOA
  repeat' (first
    | apply parity_specCall_emits hP
    | exact ih _
    | exact ih _ _
    | exact Emits.runPure _
    | exact Emits.pure _
    | exact Emits.panic
    | exact Emits.hang
    | apply Emits.orReturn
    | apply Emits.bind
    | (apply Emits.remoteExec; exact hP _ rfl)
    | (apply Emits.helperCall; exact hP _ rfl)
    | (apply Emits.GenerateAccounts; exact hP _ rfl)
    | (apply Emits.Lock; exact hP _ rfl)
    | (apply Emits.Unlock; exact hP _ rfl)
    | (apply Emits.IncrementBuildProgress; exact hP _ rfl)
    | (apply Emits.SetBuildStage; exact hP _ rfl)
    | (apply Emits.Set; exact hP _ rfl)
    | (apply Emits.SetExt; exact hP _ rfl)
    | (apply Emits.GetP; exact hP _ rfl)
    | (apply Emits.Defer; exact hP _ rfl)
    | (apply Emits.Sleep; exact hP _ rfl)
    | apply Emits.storeSlice
    | apply Emits.appendSlice
    | apply Emits.assignSlice
    | apply Emits.makeSlice
    | apply Emits.readSlice
    | (apply Emits.AllNodeExecCon; exact hP _ rfl)
    | (apply Emits.AllNewNodeExecCon; exact hP _ rfl)
    | intro _
    | dsimp only
    | split)

theorem parity_setupNewPOW_emits (hP : ∀ e, e.isSetBuildSteps = false → P e) (env : Env) (pconf : ParityConf) (wallets genWallets : List String) :
    Emits P (parity.setupNewPOW env pconf wallets genWallets) := by
  unfold parity.setupNewPOW
  repeat' (first
    | apply parity_specCall_emits hP
    | exact ih _
    | exact ih _ _
    | exact Emits.runPure _
    | exact Emits.pure _
    | exact Emits.panic
    | exact Emits.hang
    | apply Emits.orReturn
    | apply Emits.bind
    | (apply Emits.remoteExec; exact hP _ rfl)
    | (apply Emits.helperCall; exact hP _ rfl)
    | (apply Emits.GenerateAccounts; exact hP _ rfl)
    | (apply Emits.Lock; exact hP _ rfl)
    | (apply Emits.Unlock; exact hP _ rfl)
    | (apply Emits.IncrementBuildProgress; exact hP _ rfl)
    | (apply Emits.SetBuildStage; exact hP _ rfl)
    | (apply Emits.Set; exact hP _ rfl)
    | (apply Emits.SetExt; exact hP _ rfl)
    | (apply Emits.GetP; exact hP _ rfl)
    | (apply Emits.Defer; exact hP _ rfl)
    | (apply Emits.Sleep; exact hP _ rfl)
    | apply Emits.storeSlice
    | apply Emits.appendSlice
    | apply Emits.assignSlice
    | apply Emits.makeSlice
    | apply Emits.readSlice
    | (apply Emits.AllNodeExecCon; exact hP _ rfl)
    | (apply Emits.AllNewNodeExecCon; exact hP _ rfl)
    | intro _
    | dsimp only
    | split)

theorem parity_chooseSetup_emits (hP : ∀ e, e.isSetBuildSteps = false → P e) (env : Env) (pconf : ParityConf)
    (wallets : List String) (run : Run (Option Error))
    (h : parity.chooseSetup env pconf wallets = some run) : Emits P run := by
  unfold parity.chooseSetup at h
  split at h
  · cases h; exact parity_setupPOW_emits hP _ _ _
  · split at h
    · cases h; exact parity_setupPOA_emits hP _ _ _
    · cases h

theorem parity_chooseNewSetup_emits (hP : ∀ e, e.isSetBuildSteps = false → P e) (env : Env) (consensus : String)
    (pconf : ParityConf) (wallets genWallets : List String) (run : Run (Option Error))
    (h : parity.chooseNewSetup env consensus pconf wallets genWallets = some run) :
    Emits P run := by
  unfold parity.chooseNewSetup at h
  split at h
  · cases h; exact parity_setupNewPOW_emits hP _ _ _ _
  · split at h
    · cases h; exact parity_setupNewPOA_emits hP _ _ _ _
    · cases h

theorem parity_mkdirTask_emits (hP : ∀ e, e.isSetBuildSteps = false → P e) (env : Env) (node : Node) :
    Emits P (parity.mkdirTask env node) := by
  unfold parity.mkdirTask
  repeat' (first
    | exact ih _
    | exact ih _ _
    | exact Emits.runPure _
    | exact Emits.pure _
    | exact Emits.panic
    | exact Emits.hang
    | apply Emits.orReturn
    | apply Emits.bind
    | (apply Emits.remoteExec; exact hP _ rfl)
    | (apply Emits.helperCall; exact hP _ rfl)
    | (apply Emits.GenerateAccounts; exact hP _ rfl)
    | (apply Emits.Lock; exact hP _ rfl)
    | (apply Emits.Unlock; exact hP _ rfl)
    | (apply Emits.IncrementBuildProgress; exact hP _ rfl)
    | (apply Emits.SetBuildStage; exact hP _ rfl)
    | (apply Emits.Set; exact hP _ rfl)
    | (apply Emits.SetExt; exact hP _ rfl)
    | (apply Emits.GetP; exact hP _ rfl)
    | (apply Emits.Defer; exact hP _ rfl)
    | (apply Emits.Sleep; exact hP _ rfl)
    | apply Emits.storeSlice
    | apply Emits.appendSlice
    | apply Emits.assignSlice
    | apply Emits.makeSlice
    | apply Emits.readSlice
    | (apply Emits.AllNodeExecCon; exact hP _ rfl)
    | (apply Emits.AllNewNodeExecCon; exact hP _ rfl)
    | intro _
    | dsimp only
    | split)

theorem parity_keystoreLoop_emits (hP : ∀ e, e.isSetBuildSteps = false → P e) (env : Env) (node : Node) (k : Nat) :
    ∀ i, Emits P (parity.keystoreLoop env node k i) := by
  induction k with
  | zero => intro i; exact Emits.runPure _
  | succ k ih =>
    intro i
    unfold parity.keystoreLoop
    repeat' (first
      | exact ih _
      | exact ih _ _
      | exact Emits.runPure _
      | exact Emits.pure _
      | exact Emits.panic
      | exact Emits.hang
      | apply Emits.orReturn
      | apply Emits.bind
      | (apply Emits.remoteExec; exact hP _ rfl)
      | (apply Emits.helperCall; exact hP _ rfl)
      | (apply Emits.GenerateAccounts; exact hP _ rfl)
      | (apply Emits.Lock; exact hP _ rfl)
      | (apply Emits.Unlock; exact hP _ rfl)
      | (apply Emits.IncrementBuildProgress; exact hP _ rfl)
      | (apply Emits.SetBuildStage; exact hP _ rfl)
      | (apply Emits.Set; exact hP _ rfl)
      | (apply Emits.SetExt; exact hP _ rfl)
      | (apply Emits.GetP; exact hP _ rfl)
      | (apply Emits.Defer; exact hP _ rfl)
      | (apply Emits.Sleep; exact hP _ rfl)
      | apply Emits.storeSlice
      | apply Emits.appendSlice
      | apply Emits.assignSlice
      | apply Emits.makeSlice
      | apply Emits.readSlice
      | (apply Emits.AllNodeExecCon; exact hP _ rfl)
      | (apply Emits.AllNewNodeExecCon; exact hP _ rfl)
      | intro _
      | dsimp only
      | split)

theorem parity_allocWallets_emits (keys : List String) :
    Emits P (parity.allocWallets keys) := by
  induction keys with
  | nil => exact Emits.pure _
  | cons x rest ih =>
    unfold parity.allocWallets
    repeat' (first
      | exact ih
      | apply Emits.bind
      | apply Emits.appendSlice
      | intro _)

theorem eth2_depositLoop_emits (hP : ∀ e, e.isSetBuildSteps = false → P e) (env : Env) (node : Node) (contractAddr : String) (accounts : List Account) :
    ∀ err, Emits P (eth2.depositLoop env node contractAddr accounts err) := by
  induction accounts with
  | nil => intro err; exact Emits.runPure _
  | cons x rest ih =>
    intro err
    unfold eth2.depositLoop
    repeat' (first
      | exact ih _
      | exact ih _ _
      | exact Emits.runPure _
      | exact Emits.pure _
      | exact Emits.panic
      | exact Emits.hang
      | apply Emits.orReturn
      | apply Emits.bind
      | (apply Emits.remoteExec; exact hP _ rfl)
      | (apply Emits.helperCall; exact hP _ rfl)
      | (apply Emits.GenerateAccounts; exact hP _ rfl)
      | (apply Emits.Lock; exact hP _ rfl)
      | (apply Emits.Unlock; exact hP _ rfl)
      | (apply Emits.IncrementBuildProgress; exact hP _ rfl)
      | (apply Emits.SetBuildStage; exact hP _ rfl)
      | (apply Emits.Set; exact hP _ rfl)
      | (apply Emits.SetExt; exact hP _ rfl)
      | (apply Emits.GetP; exact hP _ rfl)
      | (apply Emits.Defer; exact hP _ rfl)
      | (apply Emits.Sleep; exact hP _ rfl)
      | apply Emits.storeSlice
      | apply Emits.appendSlice
      | apply Emits.assignSlice
      | apply Emits.makeSlice
      | apply Emits.readSlice
      | (apply Emits.AllNodeExecCon; exact hP _ rfl)
      | (apply Emits.AllNewNodeExecCon; exact hP _ rfl)
      | intro _
      | dsimp only
      | split)

theorem eth2_depositTask_emits (hP : ∀ e, e.isSetBuildSteps = false → P e) (env : Env) (node : Node) (accounts : List Account) (contractAddr : String) :
    Emits P (eth2.depositTask env node accounts contractAddr) := by
  unfold eth2.depositTask
  repeat' (first
    | apply eth2_depositLoop_emits hP
    | exact ih _
    | exact ih _ _
    | exact Emits.runPure _
    | exact Emits.pure _
    | exact Emits.panic
    | exact Emits.hang
    | apply Emits.orReturn
    | apply Emits.bind
    | (apply Emits.remoteExec; exact hP _ rfl)
    | (apply Emits.helperCall; exact hP _ rfl)
    | (apply Emits.GenerateAccounts; exact hP _ rfl)
    | (apply Emits.Lock; exact hP _ rfl)
    | (apply Emits.Unlock; exact hP _ rfl)
    | (apply Emits.IncrementBuildProgress; exact hP _ rfl)
    | (apply Emits.SetBuildStage; exact hP _ rfl)
    | (apply Emits.Set; exact hP _ rfl)
    | (apply Emits.SetExt; exact hP _ rfl)
    | (apply Emits.GetP; exact hP _ rfl)
    | (apply Emits.Defer; exact hP _ rfl)
    | (apply Emits.Sleep; exact hP _ rfl)
    | apply Emits.storeSlice
    | apply Emits.appendSlice
    | apply Emits.assignSlice
    | apply Emits.makeSlice
    | apply Emits.readSlice
    | (apply Emits.AllNodeExecCon; exact hP _ rfl)
    | (apply Emits.AllNewNodeExecCon; exact hP _ rfl)
    | intro _
    | dsimp only
    | split)

theorem eth2_SendDeposit_emits (hP : ∀ e, e.isSetBuildSteps = false → P e) (env : Env) (tn : TestNet) (accounts : List Account) (contractAddr : String) :
    Emits P (eth2.SendDeposit env tn accounts contractAddr) := by
  unfold eth2.SendDeposit
  repeat' (first
    | apply eth2_depositTask_emits hP
    | exact ih _
    | exact ih _ _
    | exact Emits.runPure _
    | exact Emits.pure _
    | exact Emits.panic
    | exact Emits.hang
    | apply Emits.orReturn
    | apply Emits.bind
    | (apply Emits.remoteExec; exact hP _ rfl)
    | (apply Emits.helperCall; exact hP _ rfl)
    | (apply Emits.GenerateAccounts; exact hP _ rfl)
    | (apply Emits.Lock; exact hP _ rfl)
    | (apply Emits.Unlock; exact hP _ rfl)
    | (apply Emits.IncrementBuildProgress; exact hP _ rfl)
    | (apply Emits.SetBuildStage; exact hP _ rfl)
    | (apply Emits.Set; exact hP _ rfl)
    | (apply Emits.SetExt; exact hP _ rfl)
    | (apply Emits.GetP; exact hP _ rfl)
    | (apply Emits.Defer; exact hP _ rfl)
    | (apply Emits.Sleep; exact hP _ rfl)
    | apply Emits.storeSlice
    | apply Emits.appendSlice
    | apply Emits.assignSlice
    | apply Emits.makeSlice
    | apply Emits.readSlice
    | (apply Emits.AllNodeExecCon; exact hP _ rfl)
    | (apply Emits.AllNewNodeExecCon; exact hP _ rfl)
    | intro _
    | dsimp only
    | split)

/-- After `newConf`, and when it succeeded after `SetBuildSteps`, the ethclassic
`build` declares no further step count. -/
theorem ethclassic_build_split (env : Env) (tn : TestNet)
    (hP : ∀ e, e.isSetBuildSteps = false → P e) :
    ∃ rest : EtcConf × Option Error → Run (Option Error),
      (∀ c, Emits P (rest c)) ∧
      ethclassic.build env tn =
        (newMutex >>= fun _ => ethclassic.newConf env >>= fun c =>
          orReturn c.2
            (SetBuildSteps (8 + (5 * tn.LDDNodes) + (tn.LDDNodes * (tn.LDDNodes - 1)))
              >>= fun _ => rest c)) := by
  refine ⟨?r, ?h, ?e⟩
  case e =>
    unfold ethclassic.build
    dsimp only
    exact rfl
  intro c
  repeat' (first
    | apply ethclassic_generatePasswordFile_emits hP
    | apply ethclassic_importAccounts_emits hP
    | apply ethclassic_createGenesisfile_emits hP
    | apply ethclassic_initGeth_emits hP
    | apply ethclassic_moveKeystore_emits hP
    | apply ethclassic_startGeth_emits hP
    | apply ethclassic_peerAllNodes_emits hP
    | apply ethclassic_unlockAllAccounts_emits hP
    | exact ih _
    | exact ih _ _
    | exact Emits.runPure _
    | exact Emits.pure _
    | exact Emits.panic
    | exact Emits.hang
    | apply Emits.orReturn
    | apply Emits.bind
    | (apply Emits.remoteExec; exact hP _ rfl)
    | (apply Emits.helperCall; exact hP _ rfl)
    | (apply Emits.GenerateAccounts; exact hP _ rfl)
    | (apply Emits.Lock; exact hP _ rfl)
    | (apply Emits.Unlock; exact hP _ rfl)
    | (apply Emits.IncrementBuildProgress; exact hP _ rfl)
    | (apply Emits.SetBuildStage; exact hP _ rfl)
    | (apply Emits.Set; exact hP _ rfl)
    | (apply Emits.SetExt; exact hP _ rfl)
    | (apply Emits.GetP; exact hP _ rfl)
    | (apply Emits.Defer; exact hP _ rfl)
    | (apply Emits.Sleep; exact hP _ rfl)
    | apply Emits.storeSlice
    | apply Emits.appendSlice
    | apply Emits.assignSlice
    | apply Emits.makeSlice
    | apply Emits.readSlice
    | (apply Emits.AllNodeExecCon; exact hP _ rfl)
    | (apply Emits.AllNewNodeExecCon; exact hP _ rfl)
    | intro _
    | dsimp only
    | split)

/-- After `newConf`, and when it succeeded after `SetBuildSteps`, the parity `build`
declares no further step count. -/
theorem parity_build_split (env : Env) (tn : TestNet)
    (hP : ∀ e, e.isSetBuildSteps = false → P e) :
    ∃ rest : ParityConf × Option Error → Run (Option Error),
      (∀ c, Emits P (rest c)) ∧
      parity.build env tn =
        (newMutex >>= fun _ => parity.newConf env >>= fun c =>
          orReturn c.2 (SetBuildSteps (9 + (6 * tn.LDDNodes)) >>= fun _ => rest c)) := by
  refine ⟨?r, ?h, ?e⟩
  case e =>
    unfold parity.build
    dsimp only
    exact rfl
  intro c
  repeat' (first
    | (apply parity_chooseSetup_emits hP; assumption)
    | (apply parity_chooseNewSetup_emits hP; assumption)
    | apply parity_allocWallets_emits
    | apply parity_createWallet_emits hP
    | apply parity_createWalletAppend_emits hP
    | apply parity_importWallets_emits hP
    | apply parity_startDaemon_emits hP
    | apply parity_collectEnode_emits hP
    | apply parity_peerAllNodes_emits hP
    | apply parity_storeParameters_emits hP
    | apply parity_mkdirTask_emits hP
    | apply parity_keystoreLoop_emits hP
    | exact ih _
    | exact ih _ _
    | exact Emits.runPure _
    | exact Emits.pure _
    | exact Emits.panic
    | exact Emits.hang
    | apply Emits.orReturn
    | apply Emits.bind
    | (apply Emits.remoteExec; exact hP _ rfl)
    | (apply Emits.helperCall; exact hP _ rfl)
    | (apply Emits.GenerateAccounts; exact hP _ rfl)
    | (apply Emits.Lock; exact hP _ rfl)
    | (apply Emits.Unlock; exact hP _ rfl)
    | (apply Emits.IncrementBuildProgress; exact hP _ rfl)
    | (apply Emits.SetBuildStage; exact hP _ rfl)
    | (apply Emits.Set; exact hP _ rfl)
    | (apply Emits.SetExt; exact hP _ rfl)
    | (apply Emits.GetP; exact hP _ rfl)
    | (apply Emits.Defer; exact hP _ rfl)
    | (apply Emits.Sleep; exact hP _ rfl)
    | apply Emits.storeSlice
    | apply Emits.appendSlice
    | apply Emits.assignSlice
    | apply Emits.makeSlice
    | apply Emits.readSlice
    | (apply Emits.AllNodeExecCon; exact hP _ rfl)
    | (apply Emits.AllNewNodeExecCon; exact hP _ rfl)
    | intro _
    | dsimp only
    | split)

/-- The parity `add` declares its step count once, after an increment, two reads of the
build state and `newConf`, and never again. -/
theorem parity_add_split (env : Env) (tn : TestNet)
    (hP : ∀ e, e.isSetBuildSteps = false → P e) :
    ∃ rest : Option Val → Option Val → ParityConf × Option Error → Run (Option Error),
      (∀ v1 v2 c, Emits P (rest v1 v2 c)) ∧
      parity.add env tn =
        (newMutex >>= fun _ => IncrementBuildProgress >>= fun _ =>
          SetBuildStage "Pulling the genesis block" >>= fun _ =>
          BuildState.GetP "etcconf" >>= fun v1 =>
          BuildState.GetP "alloc" >>= fun v2 =>
          parity.newConf env >>= fun c =>
          SetBuildSteps (1 + 2 * (tn.NewlyBuiltNodes.length : Int)) >>= fun _ =>
          rest v1 v2 c) := by
  refine ⟨?r, ?h, ?e⟩
  case e =>
    unfold parity.add
    dsimp only
    exact rfl
  intro v1 v2 c
  repeat' (first
    | (apply parity_chooseSetup_emits hP; assumption)
    | (apply parity_chooseNewSetup_emits hP; assumption)
    | apply parity_allocWallets_emits
    | apply parity_createWallet_emits hP
    | apply parity_createWalletAppend_emits hP
    | apply parity_importWallets_emits hP
    | apply parity_startDaemon_emits hP
    | apply parity_collectEnode_emits hP
    | apply parity_peerAllNodes_emits hP
    | apply parity_storeParameters_emits hP
    | apply parity_mkdirTask_emits hP
    | apply parity_keystoreLoop_emits hP
    | exact ih _
    | exact ih _ _
    | exact Emits.runPure _
    | exact Emits.pure _
    | exact Emits.panic
    | exact Emits.hang
    | apply Emits.orReturn
    | apply Emits.bind
    | (apply Emits.remoteExec; exact hP _ rfl)
    | (apply Emits.helperCall; exact hP _ rfl)
    | (apply Emits.GenerateAccounts; exact hP _ rfl)
    | (apply Emits.Lock; exact hP _ rfl)
    | (apply Emits.Unlock; exact hP _ rfl)
    | (apply Emits.IncrementBuildProgress; exact hP _ rfl)
    | (apply Emits.SetBuildStage; exact hP _ rfl)
    | (apply Emits.Set; exact hP _ rfl)
    | (apply Emits.SetExt; exact hP _ rfl)
    | (apply Emits.GetP; exact hP _ rfl)
    | (apply Emits.Defer; exact hP _ rfl)
    | (apply Emits.Sleep; exact hP _ rfl)
    | apply Emits.storeSlice
    | apply Emits.appendSlice
    | apply Emits.assignSlice
    | apply Emits.makeSlice
    | apply Emits.readSlice
    | (apply Emits.AllNodeExecCon; exact hP _ rfl)
    | (apply Emits.AllNewNodeExecCon; exact hP _ rfl)
    | intro _
    | dsimp only
    | split)

theorem countSetBuildSteps_of_none (evs : List Event)
    (h : ∀ e ∈ evs, e.isSetBuildSteps = false) : countSetBuildSteps evs = 0 := by
  induction evs with
  | nil => rfl
  | cons e rest ih =>
    have h1 := h e (by simp)
    have h2 := ih (fun x hx => h x (by simp [hx]))
    unfold countSetBuildSteps at h2 ⊢
    cases e <;> simp_all [Event.isSetBuildSteps]

theorem ethclassic_build_declares (env : Env) (tn : TestNet) (s : St) :
    ∃ evs, (ethclassic.build env tn s).2.trace = s.trace ++ evs ∧
      (if env.etcNewConf.2 = none then declaredOnceBeforeIncrements evs = true
       else countSetBuildSteps evs = 0 ∧ countIncrements evs = 0) := by
  obtain ⟨rest, hrest, heq⟩ := ethclassic_build_split env tn
    (fun (e : Event) (h : e.isSetBuildSteps = false) => h)
  rw [heq]
  show ∃ evs, (Run.bind newMutex (fun _ => Run.bind (ethclassic.newConf env) _) s).2.trace =
    s.trace ++ evs ∧ _
  simp only [Run.bind, ethclassic.newConf, newMutex]
  cases hc : env.etcNewConf.2 with
  | some e =>
    refine ⟨[Event.call "newConf" []], ?_, ?_⟩
    · simp [orReturn, Run.pure]
    · simp [countSetBuildSteps, countIncrements]
  | none =>
    simp only [orReturn]
    show ∃ evs, (Run.bind (SetBuildSteps _) _ _).2.trace = s.trace ++ evs ∧ _
    simp only [Run.bind, SetBuildSteps]
    obtain ⟨evs2, h2, hp2⟩ := (hrest env.etcNewConf).out
      { trace := s.trace ++ [Event.call "newConf" []] ++
          [Event.SetBuildSteps (8 + (5 * tn.LDDNodes) + (tn.LDDNodes * (tn.LDDNodes - 1)))],
        bs := { s.bs with totalSteps :=
          8 + (5 * tn.LDDNodes) + (tn.LDDNodes * (tn.LDDNodes - 1)) },
        muxLocked := false, slices := s.slices }
    refine ⟨[Event.call "newConf" [],
      Event.SetBuildSteps (8 + (5 * tn.LDDNodes) + (tn.LDDNodes * (tn.LDDNodes - 1)))] ++ evs2,
      ?_, ?_⟩
    · rw [h2]; simp
    · have h0 := countSetBuildSteps_of_none evs2 hp2
      unfold countSetBuildSteps at h0
      simp [declaredOnceBeforeIncrements, countSetBuildSteps, Event.isSetBuildSteps,
        Event.isIncrement, List.takeWhile, List.filter, h0]

theorem parity_build_declares (env : Env) (tn : TestNet) (s : St) :
    ∃ evs, (parity.build env tn s).2.trace = s.trace ++ evs ∧
      (if env.parityNewConf.2 = none then declaredOnceBeforeIncrements evs = true
       else countSetBuildSteps evs = 0 ∧ countIncrements evs = 0) := by
  obtain ⟨rest, hrest, heq⟩ := parity_build_split env tn
    (fun (e : Event) (h : e.isSetBuildSteps = false) => h)
  rw [heq]
  show ∃ evs, (Run.bind newMutex (fun _ => Run.bind (parity.newConf env) _) s).2.trace =
    s.trace ++ evs ∧ _
  simp only [Run.bind, parity.newConf, newMutex]
  cases hc : env.parityNewConf.2 with
  | some e =>
    refine ⟨[Event.call "newConf" []], ?_, ?_⟩
    · simp [orReturn, Run.pure]
    · simp [countSetBuildSteps, countIncrements]
  | none =>
    simp only [orReturn]
    show ∃ evs, (Run.bind (SetBuildSteps _) _ _).2.trace = s.trace ++ evs ∧ _
    simp only [Run.bind, SetBuildSteps]
    obtain ⟨evs2, h2, hp2⟩ := (hrest env.parityNewConf).out
      { trace := s.trace ++ [Event.call "newConf" []] ++
          [Event.SetBuildSteps (9 + (6 * tn.LDDNodes))],
        bs := { s.bs with totalSteps := 9 + (6 * tn.LDDNodes) },
        muxLocked := false, slices := s.slices }
    refine ⟨[Event.call "newConf" [], Event.SetBuildSteps (9 + (6 * tn.LDDNodes))] ++ evs2,
      ?_, ?_⟩
    · rw [h2]; simp
    · have h0 := countSetBuildSteps_of_none evs2 hp2
      unfold countSetBuildSteps at h0
      simp [declaredOnceBeforeIncrements, countSetBuildSteps, Event.isSetBuildSteps,
        Event.isIncrement, List.takeWhile, List.filter, h0]

theorem parity_add_declares (env : Env) (tn : TestNet) (s : St) :
    ∃ evs, (parity.add env tn s).2.trace = s.trace ++ evs ∧ countSetBuildSteps evs = 1 := by
  obtain ⟨rest, hrest, heq⟩ := parity_add_split env tn
    (fun (e : Event) (h : e.isSetBuildSteps = false) => h)
  rw [heq]
  show ∃ evs, (Run.bind newMutex (fun _ => Run.bind IncrementBuildProgress (fun _ =>
    Run.bind (SetBuildStage _) (fun _ => Run.bind (BuildState.GetP _) (fun v1 =>
      Run.bind (BuildState.GetP _) (fun v2 => Run.bind (parity.newConf env) (fun c =>
        Run.bind (SetBuildSteps _) (fun _ => rest v1 v2 c))))))) s).2.trace =
    s.trace ++ evs ∧ _
  simp only [Run.bind, IncrementBuildProgress, SetBuildStage, BuildState.GetP, parity.newConf,
    SetBuildSteps, newMutex]
  obtain ⟨evs2, h2, hp2⟩ := (hrest (GoMap.get? s.bs.artifacts "etcconf")
      (GoMap.get? s.bs.artifacts "alloc") env.parityNewConf).out
      { trace := s.trace ++ [Event.IncrementBuildProgress] ++
          [Event.SetBuildStage "Pulling the genesis block"] ++ [Event.GetP "etcconf"] ++
          [Event.GetP "alloc"] ++ [Event.call "newConf" []] ++
          [Event.SetBuildSteps (1 + 2 * (tn.NewlyBuiltNodes.length : Int))],
        bs := { totalSteps := 1 + 2 * (tn.NewlyBuiltNodes.length : Int),
                completedSteps := s.bs.completedSteps + 1,
                stage := "Pulling the genesis block",
                artifacts := s.bs.artifacts, externals := s.bs.externals,
                deferred := s.bs.deferred, BuildID := s.bs.BuildID },
        muxLocked := false, slices := s.slices }
  refine ⟨[Event.IncrementBuildProgress, Event.SetBuildStage "Pulling the genesis block",
    Event.GetP "etcconf", Event.GetP "alloc", Event.call "newConf" [],
    Event.SetBuildSteps (1 + 2 * (tn.NewlyBuiltNodes.length : Int))] ++ evs2, ?_, ?_⟩
  · rw [h2]; simp
  · have h0 := countSetBuildSteps_of_none evs2 hp2
    unfold countSetBuildSteps at h0
    simp [countSetBuildSteps, List.filter, h0]

/-- C8 (amended): on every execution path of the ethclassic build and of the parity
build, when `newConf` succeeds `SetBuildSteps` is called exactly once and before the
first `IncrementBuildProgress`, and when `newConf` fails neither is called; on every
execution path of the parity add-node strategy `SetBuildSteps` is called exactly
once. -/
theorem steps_declared_once (env : Env) (tn : TestNet) (s : St) :
    (∃ evs, (ethclassic.build env tn s).2.trace = s.trace ++ evs ∧
      (if env.etcNewConf.2 = none then declaredOnceBeforeIncrements evs = true
       else countSetBuildSteps evs = 0 ∧ countIncrements evs = 0)) ∧
    (∃ evs, (parity.build env tn s).2.trace = s.trace ++ evs ∧
      (if env.parityNewConf.2 = none then declaredOnceBeforeIncrements evs = true
       else countSetBuildSteps evs = 0 ∧ countIncrements evs = 0)) ∧
    (∃ evs, (parity.add env tn s).2.trace = s.trace ++ evs ∧ countSetBuildSteps evs = 1) :=
  ⟨ethclassic_build_declares env tn s, parity_build_declares env tn s,
    parity_add_declares env tn s⟩

/-- Evaluation of the ethclassic build where nothing fails: over 2 nodes the declared
total is 20 while `IncrementBuildProgress` is called 17 times, and over 0 nodes the
total is 8 and the count 7. -/
theorem ethclassic_build_eval :
    (ethclassic.build okEnv (demoNet 2) (St.init BuildState.fresh)).1 = Res.ok none ∧
    (ethclassic.build okEnv (demoNet 2) (St.init BuildState.fresh)).2.bs.totalSteps = 20 ∧
    (ethclassic.build okEnv (demoNet 2) (St.init BuildState.fresh)).2.bs.completedSteps = 17 ∧
    countIncrements (ethclassic.build okEnv (demoNet 2) (St.init BuildState.fresh)).2.trace = 17 ∧
    (ethclassic.build okEnv (demoNet 0) (St.init BuildState.fresh)).1 = Res.ok none ∧
    (ethclassic.build okEnv (demoNet 0) (St.init BuildState.fresh)).2.bs.totalSteps = 8 ∧
    (ethclassic.build okEnv (demoNet 0) (St.init BuildState.fresh)).2.bs.completedSteps = 7 := by
  decide!

/-- Evaluation of the parity build where nothing fails: 4 increments ("ethash") and
3 ("poa") against a declared total of 9 over 0 nodes, 44 and 43 against 39 over 5
nodes. -/
theorem parity_build_eval :
    (parity.build okEnv (demoNet 0) (St.init BuildState.fresh)).1 = Res.ok none ∧
    (parity.build okEnv (demoNet 0) (St.init BuildState.fresh)).2.bs.totalSteps = 9 ∧
    countIncrements (parity.build okEnv (demoNet 0) (St.init BuildState.fresh)).2.trace = 4 ∧
    (parity.build poaEnv (demoNet 0) (St.init BuildState.fresh)).1 = Res.ok none ∧
    (parity.build poaEnv (demoNet 0) (St.init BuildState.fresh)).2.bs.totalSteps = 9 ∧
    countIncrements (parity.build poaEnv (demoNet 0) (St.init BuildState.fresh)).2.trace = 3 ∧
    (parity.build okEnv (demoNet 5) (St.init BuildState.fresh)).1 = Res.ok none ∧
    (parity.build okEnv (demoNet 5) (St.init BuildState.fresh)).2.bs.totalSteps = 39 ∧
    countIncrements (parity.build okEnv (demoNet 5) (St.init BuildState.fresh)).2.trace = 44 ∧
    (parity.build poaEnv (demoNet 5) (St.init BuildState.fresh)).1 = Res.ok none ∧
    (parity.build poaEnv (demoNet 5) (St.init BuildState.fresh)).2.bs.totalSteps = 39 ∧
    countIncrements (parity.build poaEnv (demoNet 5) (St.init BuildState.fresh)).2.trace = 43 := by
  decide!

/-- C8 (counterexample): when `newConf` fails the ethclassic and the parity build
return without calling `SetBuildSteps` at all, and the parity `add` calls
`IncrementBuildProgress` first and `SetBuildSteps` only as its sixth step. -/
theorem steps_not_always_declared_first :
    countSetBuildSteps (ethclassic.build noConfEnv (demoNet 2) (St.init BuildState.fresh)).2.trace = 0 ∧
    countSetBuildSteps (parity.build noConfEnv (demoNet 2) (St.init BuildState.fresh)).2.trace = 0 ∧
    declaredOnceBeforeIncrements
      (parity.add okEnv (demoNet 2) (St.init BuildState.fresh)).2.trace = false ∧
    (parity.add okEnv (demoNet 2) (St.init BuildState.fresh)).2.trace.take 6 =
      [Event.IncrementBuildProgress, Event.SetBuildStage "Pulling the genesis block",
       Event.GetP "etcconf", Event.GetP "alloc", Event.call "newConf" [],
       Event.SetBuildSteps 5] := by
  decide!

/-- C9 (the code goes on after a failed phase): with every command of the
"Initializing geth" phase failing (the task returns the error), the ethclassic build
over 2 nodes still starts the daemons (`DockerExecdit`), exposes the external
artifacts (`SetExt`), peers the nodes (`KeepTryRun`) and returns nil. -/
theorem ethclassic_build_ignores_failed_phase :
    (ethclassic.initGeth initFailEnv EtcConf.zero ⟨0, "10.0.0.0"⟩
      { St.init BuildState.fresh with trace := [Event.SetBuildStage "Initializing geth"] }).1
        = Res.ok (some "exit status 1") ∧
    (ethclassic.build initFailEnv (demoNet 2) (St.init BuildState.fresh)).1 = Res.ok none ∧
    hasExec ExecKind.DockerExecdit
      (ethclassic.build initFailEnv (demoNet 2) (St.init BuildState.fresh)).2.trace = true ∧
    hasSetExt (ethclassic.build initFailEnv (demoNet 2) (St.init BuildState.fresh)).2.trace = true ∧
    hasExec ExecKind.KeepTryRun
      (ethclassic.build initFailEnv (demoNet 2) (St.init BuildState.fresh)).2.trace = true := by
  decide!

/-- The deposit loop always returns. -/
theorem eth2_depositLoop_returns (env : Env) (node : Node) (contractAddr : String)
    (accounts : List Account) :
    ∀ (err : Option Error) (s : St),
      ∃ r s1, eth2.depositLoop env node contractAddr accounts err s = (Res.ok r, s1) := by
  induction accounts with
  | nil => intro err s; exact ⟨err, s, rfl⟩
  | cons a rest ih =>
    intro err s
    unfold eth2.depositLoop
    show ∃ r s1, Run.bind (remoteExec env ExecKind.KeepTryRun node _) _ s = (Res.ok r, s1)
    simp only [Run.bind, remoteExec]
    cases (env.remote s.trace ExecKind.KeepTryRun node
      (curl node.IP "personal_sendTransaction"
        ("\"to:" ++ contractAddr ++ ", from:" ++ a.PublicKey ++ "\""))).2 with
    | none => exact ⟨_, _, rfl⟩
    | some e =>
      show ∃ r s1, Run.bind (Sleep 1) _ _ = (Res.ok r, s1)
      simp only [Run.bind, Sleep, emit]
      exact ih _ _

/-- The deposit task always returns. -/
theorem eth2_depositTask_returns (env : Env) (node : Node) (accounts : List Account)
    (contractAddr : String) (s : St) :
    ∃ r s1, eth2.depositTask env node accounts contractAddr s = (Res.ok r, s1) := by
  obtain ⟨r, s1, h⟩ := eth2_depositLoop_returns env node contractAddr accounts none s
  unfold eth2.depositTask
  show ∃ r s1, Run.bind (eth2.depositLoop env node contractAddr accounts none)
    (fun err => Run.bind IncrementBuildProgress (fun _ => orReturn err (Pure.pure none))) s =
      (Res.ok r, s1)
  simp only [Run.bind, h, IncrementBuildProgress]
  cases r with
  | none => exact ⟨_, _, rfl⟩
  | some e => exact ⟨_, _, rfl⟩

/-- A node-executor call whose tasks always return, returns. -/
theorem forNodes_returns (f : Node → Run (Option Error))
    (hf : ∀ node s, ∃ r s1, f node s = (Res.ok r, s1)) (l : List Node) :
    ∀ s, ∃ r s1, forNodes f l s = (Res.ok r, s1) := by
  induction l with
  | nil => intro s; exact ⟨none, s, rfl⟩
  | cons node rest ih =>
    intro s
    obtain ⟨r, s1, h1⟩ := hf node s
    obtain ⟨r2, s2, h2⟩ := ih s1
    unfold forNodes
    simp only [h1, h2]
    exact ⟨_, _, rfl⟩

/-- `SendDeposit` returns nil in every environment, for every testnet, account list
and start state. -/
theorem eth2_SendDeposit_nil (env : Env) (tn : TestNet) (accounts : List Account)
    (contractAddr : String) (s : St) :
    (eth2.SendDeposit env tn accounts contractAddr s).1 = Res.ok none := by
  obtain ⟨r, s1, h⟩ := forNodes_returns
    (fun node => eth2.depositTask env node accounts contractAddr)
    (fun node s => eth2_depositTask_returns env node accounts contractAddr s)
    (env.schedule s.trace tn.Nodes) { s with trace := s.trace ++ [Event.AllNodeExecCon] }
  unfold eth2.SendDeposit
  show (Run.bind (AllNodeExecCon env tn _) _ s).1 = Res.ok none
  simp only [Run.bind, AllNodeExecCon, h]
  cases r with
  | none => rfl
  | some e => rfl

/-- C10 (the code drops the error): `SendDeposit` returns nil in every environment,
for every testnet, account list and start state; in particular, with every deposit
command failing on two nodes, the node executor reports the error of the deposit
task and `SendDeposit` still returns nil. -/
theorem SendDeposit_drops_task_error :
    (∀ (env : Env) (tn : TestNet) (accounts : List Account) (contractAddr : String) (s : St),
      (eth2.SendDeposit env tn accounts contractAddr s).1 = Res.ok none) ∧
    (AllNodeExecCon remoteFailEnv (demoNet 2)
      (fun node => eth2.depositTask remoteFailEnv node demoAccounts "0xc0")
      (St.init BuildState.fresh)).1 = Res.ok (some "exit status 7") :=
  ⟨eth2_SendDeposit_nil, by decide!⟩

end Builds

/-! ## Progress accounting of the builds -/

section Progress

set_option linter.unusedVariables false

variable {α β : Type} {I I1 I2 : St → Prop} {L : Slice → Nat} {c0 : Int} {i0 n : Nat} {t : Int}
  {b : Bool}

theorem countIncrements_append (xs ys : List Event) :
    countIncrements (xs ++ ys) = countIncrements xs + countIncrements ys := by
  simp [countIncrements]

theorem countIncrements_snoc_inc (tr : List Event) :
    countIncrements (tr ++ [Event.IncrementBuildProgress]) = countIncrements tr + 1 := by
  simp [countIncrements]

theorem countIncrements_snoc_other (tr : List Event) (e : Event) (h : e.isIncrement = false) :
    countIncrements (tr ++ [e]) = countIncrements tr := by
  cases e <;> simp_all [countIncrements, Event.isIncrement]

theorem ok_bind {m : Run α} {f : α → Run β} {R1 : α → Prop} {R2 : β → Prop}
    (h1 : Ok I m R1 I1) (h2 : ∀ a, R1 a → Ok I1 (f a) R2 I2) : Ok I (m >>= f) R2 I2 := by
  constructor
  intro s hs
  obtain ⟨a, s1, hm, hR, hI⟩ := h1.out s hs
  obtain ⟨b, s2, hf, hR2, hI2⟩ := (h2 a hR).out s1 hI
  refine ⟨b, s2, ?_, hR2, hI2⟩
  show Run.bind m f s = _
  simp only [Run.bind, hm, hf]

theorem ok_ret {R : α → Prop} (a : α) (hR : R a) (hI : ∀ s, I s → I2 s) :
    Ok I (Pure.pure a : Run α) R I2 :=
  ⟨fun s hs => ⟨a, s, rfl, hR, hI s hs⟩⟩

theorem ok_runPure {R : α → Prop} (a : α) (hR : R a) (hI : ∀ s, I s → I2 s) :
    Ok I (Run.pure a) R I2 :=
  ⟨fun s hs => ⟨a, s, rfl, hR, hI s hs⟩⟩

theorem ok_weaken {m : Run α} {R R2 : α → Prop} {I3 : St → Prop} (h : Ok I m R I2)
    (hR : ∀ a, R a → R2 a) (hI : ∀ s, I2 s → I3 s) : Ok I m R2 I3 :=
  ⟨fun s hs => by
    obtain ⟨a, s1, hm, h1, h2⟩ := h.out s hs
    exact ⟨a, s1, hm, hR a h1, hI s1 h2⟩⟩

theorem inv_cast {n2 : Nat} (h : n = n2) (s : St) (hs : Inv L c0 i0 n t b s) :
    Inv L c0 i0 n2 t b s := h ▸ hs

/-- A step that returns a value satisfying `R`, makes no increment and leaves counters,
mutex and slices alone, keeps the invariant. -/
theorem ok_neutral {m : Run α} {R : α → Prop}
    (h : ∀ s, ∃ a s1, m s = (Res.ok a, s1) ∧ R a ∧
      s1.bs.completedSteps = s.bs.completedSteps ∧ s1.bs.totalSteps = s.bs.totalSteps ∧
      s1.muxLocked = s.muxLocked ∧ s1.slices = s.slices ∧
      countIncrements s1.trace = countIncrements s.trace) :
    Ok (Inv L c0 i0 n t b) m R (Inv L c0 i0 n t b) := by
  constructor
  intro s hs
  obtain ⟨a, s1, hm, hR, h1, h2, h3, h4, h5⟩ := h s
  exact ⟨a, s1, hm, hR, ⟨by rw [h1, hs.completed], by rw [h5, hs.counted],
    by rw [h2, hs.total], by rw [h3, hs.mux], by rw [h4]; exact hs.len⟩⟩

theorem ok_inc : Ok (Inv L c0 i0 n t b) IncrementBuildProgress (fun _ => True)
    (Inv L c0 i0 (n + 1) t b) := by
  constructor
  intro s hs
  refine ⟨(), _, rfl, trivial, ?_⟩
  exact ⟨by simp [hs.completed]; ring,
    by simp only [countIncrements_snoc_inc, hs.counted]; ring,
    hs.total, hs.mux, hs.len⟩

theorem ok_steps (k : Int) : Ok (Inv L c0 i0 n t b) (SetBuildSteps k) (fun _ => True)
    (Inv L c0 i0 n k b) := by
  constructor
  intro s hs
  refine ⟨(), _, rfl, trivial, ?_⟩
  exact ⟨hs.completed, by rw [countIncrements_snoc_other, hs.counted]; rfl,
    rfl, hs.mux, hs.len⟩

theorem ok_stage (st : String) :
    Ok (Inv L c0 i0 n t b) (SetBuildStage st) (fun _ => True) (Inv L c0 i0 n t b) :=
  ok_neutral (fun s => ⟨_, _, rfl, trivial, rfl, rfl, rfl, rfl,
    countIncrements_snoc_other _ _ rfl⟩)

theorem ok_set (k : String) (v : Val) :
    Ok (Inv L c0 i0 n t b) (BuildState.Set k v) (fun _ => True) (Inv L c0 i0 n t b) :=
  ok_neutral (fun s => ⟨_, _, rfl, trivial, rfl, rfl, rfl, rfl,
    countIncrements_snoc_other _ _ rfl⟩)

theorem ok_setExt (k : String) (v : Val) :
    Ok (Inv L c0 i0 n t b) (BuildState.SetExt k v) (fun _ => True) (Inv L c0 i0 n t b) :=
  ok_neutral (fun s => ⟨_, _, rfl, trivial, rfl, rfl, rfl, rfl,
    countIncrements_snoc_other _ _ rfl⟩)

theorem ok_defer (k : Nat) :
    Ok (Inv L c0 i0 n t b) (BuildState.Defer k) (fun _ => True) (Inv L c0 i0 n t b) :=
  ok_neutral (fun s => ⟨_, _, rfl, trivial, rfl, rfl, rfl, rfl,
    countIncrements_snoc_other _ _ rfl⟩)

theorem ok_sleep (k : Nat) :
    Ok (Inv L c0 i0 n t b) (Sleep k) (fun _ => True) (Inv L c0 i0 n t b) :=
  ok_neutral (fun s => ⟨_, _, rfl, trivial, rfl, rfl, rfl, rfl,
    countIncrements_snoc_other _ _ rfl⟩)

theorem ok_helper {env : Env} (henv : AllSucceed env) (fn : String) (args : List String) :
    Ok (Inv L c0 i0 n t b) (helperCall env fn args) (fun r => r = none) (Inv L c0 i0 n t b) :=
  ok_neutral (fun s => ⟨_, _, rfl, henv.helper _ _ _, rfl, rfl, rfl, rfl,
    countIncrements_snoc_other _ _ rfl⟩)

theorem ok_remote {env : Env} (henv : AllSucceed env) (kind : ExecKind) (node : Node)
    (cmd : String) :
    Ok (Inv L c0 i0 n t b) (remoteExec env kind node cmd)
      (fun r => r.2 = none ∧ r.1.length ≠ 0) (Inv L c0 i0 n t b) :=
  ok_neutral (fun s => ⟨_, _, rfl, henv.remote _ _ _ _, rfl, rfl, rfl, rfl,
    countIncrements_snoc_other _ _ rfl⟩)

theorem ok_GenerateAccounts {env : Env} (k : Int) :
    Ok (Inv L c0 i0 n t b) (GenerateAccounts env k) (fun a => a = env.GenerateAccounts k)
      (Inv L c0 i0 n t b) :=
  ok_neutral (fun s => ⟨_, _, rfl, rfl, rfl, rfl, rfl, rfl,
    countIncrements_snoc_other _ _ rfl⟩)

theorem ok_newMutex : Ok (Inv L c0 i0 n t b) newMutex (fun _ => True) (Inv L c0 i0 n t false) :=
  ⟨fun s hs => ⟨(), _, rfl, trivial, ⟨hs.completed, hs.counted, hs.total, rfl, hs.len⟩⟩⟩

theorem ok_lock : Ok (Inv L c0 i0 n t false) Lock (fun _ => True) (Inv L c0 i0 n t true) := by
  constructor
  intro s hs
  refine ⟨(), { s with trace := s.trace ++ [Event.Lock], muxLocked := true }, ?_, trivial, ?_⟩
  · simp [Lock, hs.mux]
  · exact ⟨hs.completed, by rw [countIncrements_snoc_other, hs.counted]; rfl,
      hs.total, rfl, hs.len⟩

theorem ok_unlock : Ok (Inv L c0 i0 n t true) Unlock (fun _ => True) (Inv L c0 i0 n t false) := by
  constructor
  intro s hs
  refine ⟨(), { s with trace := s.trace ++ [Event.Unlock], muxLocked := false }, ?_, trivial, ?_⟩
  · simp [Unlock, hs.mux]
  · exact ⟨hs.completed, by rw [countIncrements_snoc_other, hs.counted]; rfl,
      hs.total, rfl, hs.len⟩

theorem ok_readSlice (v : Slice) :
    Ok (Inv L c0 i0 n t b) (readSlice v) (fun l => l.length = L v) (Inv L c0 i0 n t b) :=
  ⟨fun s hs => ⟨_, s, rfl, hs.len v, hs⟩⟩

theorem ok_makeSlice (v : Slice) (k : Nat) :
    Ok (Inv L c0 i0 n t b) (makeSlice v (k : Int)) (fun _ => True)
      (Inv (setLen L v k) c0 i0 n t b) := by
  constructor
  intro s hs
  refine ⟨(), { s with slices := fun u => if u = v then List.replicate k "" else s.slices u },
    ?_, trivial, ?_⟩
  · unfold makeSlice
    rw [if_neg (by omega)]
    simp [assignSlice]
  · refine ⟨hs.completed, hs.counted, hs.total, hs.mux, ?_⟩
    intro u
    by_cases hu : u = v
    · simp [setLen, hu]
    · simp [setLen, hu, hs.len u]

theorem ok_storeSlice (v : Slice) (i : Nat) (x : String) (hi : i < L v) :
    Ok (Inv L c0 i0 n t b) (storeSlice v i x) (fun _ => True) (Inv L c0 i0 n t b) := by
  constructor
  intro s hs
  refine ⟨(), { s with slices := fun u => if u = v then (s.slices v).set i x else s.slices u },
    ?_, trivial, ?_⟩
  · unfold storeSlice
    rw [if_pos (by rw [hs.len v]; exact hi)]
  · refine ⟨hs.completed, hs.counted, hs.total, hs.mux, ?_⟩
    intro u
    by_cases hu : u = v
    · subst hu; simp [hs.len u]
    · simp [hu, hs.len u]

/-- Tasks that each return nil and make `k` increments make `length * k` in all. -/
theorem ok_forNodes (f : Node → Run (Option Error)) (k : Nat) (l : List Node)
    (hf : ∀ node ∈ l, ∀ n, Ok (Inv L c0 i0 n t false) (f node) (fun r => r = none)
      (Inv L c0 i0 (n + k) t false)) :
    ∀ n, Ok (Inv L c0 i0 n t false) (forNodes f l) (fun r => r = none)
      (Inv L c0 i0 (n + l.length * k) t false) := by
  induction l with
  | nil => intro n; exact ok_runPure _ rfl (fun s hs => inv_cast (by simp) s hs)
  | cons node rest ih =>
    intro n
    constructor
    intro s hs
    obtain ⟨r, s1, h1, hr, hI⟩ := (hf node (by simp) n).out s hs
    obtain ⟨r2, s2, h2, hr2, hI2⟩ :=
      (ih (fun x hx => hf x (by simp [hx])) (n + k)).out s1 hI
    refine ⟨none, s2, ?_, rfl, inv_cast (by simp; ring) s2 hI2⟩
    unfold forNodes
    simp only [h1, h2, hr, hr2]

theorem ok_AllNodeExecCon {env : Env} (henv : AllSucceed env) (tn : TestNet)
    (f : Node → Run (Option Error)) (k : Nat)
    (hf : ∀ node ∈ tn.Nodes, ∀ n, Ok (Inv L c0 i0 n t false) (f node) (fun r => r = none)
      (Inv L c0 i0 (n + k) t false)) :
    Ok (Inv L c0 i0 n t false) (AllNodeExecCon env tn f) (fun r => r = none)
      (Inv L c0 i0 (n + tn.Nodes.length * k) t false) := by
  constructor
  intro s hs
  have hperm := henv.schedule s.trace tn.Nodes
  have hI : Inv L c0 i0 n t false { s with trace := s.trace ++ [Event.AllNodeExecCon] } :=
    ⟨hs.completed, by rw [countIncrements_snoc_other, hs.counted]; rfl,
      hs.total, hs.mux, hs.len⟩
  obtain ⟨r, s1, h1, hr, hI1⟩ := (ok_forNodes f k (env.schedule s.trace tn.Nodes)
    (fun node hn => hf node (hperm.mem_iff.mp hn)) n).out _ hI
  rw [hperm.length_eq] at hI1
  exact ⟨r, s1, h1, hr, hI1⟩

theorem ok_AllNewNodeExecCon {env : Env} (henv : AllSucceed env) (tn : TestNet)
    (f : Node → Run (Option Error)) (k : Nat)
    (hf : ∀ node ∈ tn.NewlyBuiltNodes, ∀ n, Ok (Inv L c0 i0 n t false) (f node)
      (fun r => r = none) (Inv L c0 i0 (n + k) t false)) :
    Ok (Inv L c0 i0 n t false) (AllNewNodeExecCon env tn f) (fun r => r = none)
      (Inv L c0 i0 (n + tn.NewlyBuiltNodes.length * k) t false) := by
  constructor
  intro s hs
  have hperm := henv.schedule s.trace tn.NewlyBuiltNodes
  have hI : Inv L c0 i0 n t false { s with trace := s.trace ++ [Event.AllNewNodeExecCon] } :=
    ⟨hs.completed, by rw [countIncrements_snoc_other, hs.counted]; rfl,
      hs.total, hs.mux, hs.len⟩
  obtain ⟨r, s1, h1, hr, hI1⟩ := (ok_forNodes f k (env.schedule s.trace tn.NewlyBuiltNodes)
    (fun node hn => hf node (hperm.mem_iff.mp hn)) n).out _ hI
  rw [hperm.length_eq] at hI1
  exact ⟨r, s1, h1, hr, hI1⟩

end Progress

section ProgressEtc

set_option linter.unusedVariables false
set_option linter.unusedTactic false
set_option linter.unreachableTactic false

variable {L : Slice → Nat} {c0 : Int} {i0 n : Nat} {t : Int} {b : Bool} {env : Env}

theorem orReturn_none (rest : Run (Option Error)) : orReturn none rest = rest := rfl

theorem ethclassic_generatePasswordFile_ok (henv : AllSucceed env) (accounts : List Account)
    (pw dest : String) :
    Ok (Inv L c0 i0 n t b) (ethclassic.generatePasswordFile env accounts pw dest)
      (fun r => r = none) (Inv L c0 i0 n t b) := by
  unfold ethclassic.generatePasswordFile
  apply ok_bind (ok_helper henv _ _)
  intro r hr
  subst hr
  exact ok_ret _ rfl (fun s hs => hs)

theorem ethclassic_importAccounts_ok (henv : AllSucceed env) (node : Node)
    (accounts : List Account) :
    ∀ i, Ok (Inv L c0 i0 n t b) (ethclassic.importAccounts env node accounts i)
      (fun r => r = none) (Inv L c0 i0 n t b) := by
  induction accounts with
  | nil => intro i; exact ok_runPure _ rfl (fun s hs => hs)
  | cons a rest ih =>
    intro i
    unfold ethclassic.importAccounts
    apply ok_bind (ok_remote henv _ _ _)
    intro r hr
    simp only [hr.1, orReturn_none]
    apply ok_bind (ok_remote henv _ _ _)
    intro r2 hr2
    simp only [hr2.1, orReturn_none]
    exact ih _

theorem ethclassic_createGenesisfile_ok (henv : AllSucceed env) (etcconf : EtcConf)
    (accounts : List Account) (hx : ethclassic.genesisExtraData etcconf accounts ≠ none) :
    Ok (Inv L c0 i0 n t b) (ethclassic.createGenesisfile env etcconf accounts)
      (fun r => r = none) (Inv L c0 i0 n t b) := by
  unfold ethclassic.createGenesisfile
  cases hg : ethclassic.genesisExtraData etcconf accounts with
  | none => exact absurd hg hx
  | some x =>
    simp only
    apply ok_bind (ok_set _ _)
    intro _ _
    apply ok_bind (ok_set _ _)
    intro _ _
    exact ok_helper henv _ _

theorem ethclassic_initGeth_ok (henv : AllSucceed env) (etcconf : EtcConf) (node : Node)
    (habs : node.AbsoluteNumber < L Slice.staticNodes) :
    Ok (Inv L c0 i0 n t false) (ethclassic.initGeth env etcconf node)
      (fun r => r = none) (Inv L c0 i0 (n + 1) t false) := by
  unfold ethclassic.initGeth
  apply ok_bind (ok_remote henv _ _ _)
  intro r hr
  simp only [hr.1, orReturn_none]
  cases hf : env.FindAllString ethclassic.enodePattern r.1 1 with
  | nil => exact absurd hf (henv.scrape _ _ _)
  | cons x xs =>
    simp only [List.getElem?_cons_zero]
    apply ok_bind ok_lock
    intro _ _
    apply ok_bind (ok_storeSlice _ _ _ habs)
    intro _ _
    apply ok_bind ok_unlock
    intro _ _
    apply ok_bind ok_inc
    intro _ _
    exact ok_ret _ rfl (fun s hs => hs)

theorem ethclassic_moveKeystore_ok (henv : AllSucceed env) (etcconf : EtcConf) (node : Node) :
    Ok (Inv L c0 i0 n t false) (ethclassic.moveKeystore env etcconf node)
      (fun r => r = none) (Inv L c0 i0 (n + 1) t false) := by
  unfold ethclassic.moveKeystore
  apply ok_bind ok_lock
  intro _ _
  apply ok_bind (ok_remote henv _ _ _)
  intro r hr
  simp only [hr.1, orReturn_none]
  apply ok_bind ok_unlock
  intro _ _
  apply ok_bind (ok_remote henv _ _ _)
  intro r2 hr2
  simp only [hr2.1, orReturn_none]
  apply ok_bind (ok_set _ _)
  intro _ _
  apply ok_bind ok_inc
  intro _ _
  exact ok_ret _ rfl (fun s hs => hs)

theorem ethclassic_startGeth_ok (henv : AllSucceed env) (etcconf : EtcConf)
    (accounts : List Account) (unlock : String) (node : Node)
    (habs : node.AbsoluteNumber < accounts.length) :
    Ok (Inv L c0 i0 n t false) (ethclassic.startGeth env etcconf accounts unlock node)
      (fun r => r = none) (Inv L c0 i0 (n + 2) t false) := by
  unfold ethclassic.startGeth
  apply ok_bind ok_inc
  intro _ _
  rw [List.getElem?_eq_getElem habs]
  simp only
  apply ok_bind (ok_remote henv _ _ _)
  intro r hr
  simp only [hr.1, orReturn_none]
  apply ok_bind ok_inc
  intro _ _
  exact ok_ret _ rfl (fun s hs => hs)

theorem ethclassic_peerRetry_ok (henv : AllSucceed env) (node : Node) (enode : String)
    (k : Nat) (err : Option Error) :
    Ok (Inv L c0 i0 n t b) (ethclassic.peerRetry env node enode (k + 1) err)
      (fun r => r = none) (Inv L c0 i0 n t b) := by
  unfold ethclassic.peerRetry
  apply ok_bind (ok_remote henv _ _ _)
  intro r hr
  simp only [hr.1]
  exact ok_runPure _ rfl (fun s hs => hs)

theorem ethclassic_peerLoop_ok (henv : AllSucceed env) (node : Node) (enodes : List String) :
    ∀ i n, Ok (Inv L c0 i0 n t b) (ethclassic.peerLoop env node enodes i)
      (fun r => r = none)
      (Inv L c0 i0 (n + (enodes.length -
        (if i ≤ node.AbsoluteNumber ∧ node.AbsoluteNumber < i + enodes.length then 1 else 0)))
        t b) := by
  induction enodes with
  | nil => intro i n; exact ok_runPure _ rfl (fun s hs => inv_cast (by simp) s hs)
  | cons e rest ih =>
    intro i n
    unfold ethclassic.peerLoop
    by_cases hi : i = node.AbsoluteNumber
    · rw [if_pos hi]
      refine ok_weaken (ih (i + 1) n) (fun _ h => h) (fun s hs => inv_cast ?_ s hs)
      simp only [List.length_cons]
      split_ifs <;> omega
    · rw [if_neg hi]
      apply ok_bind (ethclassic_peerRetry_ok henv _ _ _ _)
      intro r hr
      subst hr
      apply ok_bind ok_inc
      intro _ _
      simp only [orReturn_none]
      refine ok_weaken (ih (i + 1) (n + 1)) (fun _ h => h) (fun s hs => inv_cast ?_ s hs)
      simp only [List.length_cons]
      split_ifs <;> omega

theorem ethclassic_peerAllNodes_ok (henv : AllSucceed env) (tn : TestNet) (N : Nat)
    (htn : tn.Sized N) (enodes : List String) (hlen : enodes.length = N) :
    Ok (Inv L c0 i0 n t false) (ethclassic.peerAllNodes env tn enodes)
      (fun r => r = none) (Inv L c0 i0 (n + N * (N - 1)) t false) := by
  unfold ethclassic.peerAllNodes
  refine ok_weaken (ok_AllNodeExecCon henv tn _ (N - 1) ?_) (fun _ h => h)
    (fun s hs => inv_cast (by rw [htn.nodes]) s hs)
  intro node hnode m
  refine ok_weaken (ethclassic_peerLoop_ok henv node enodes 0 m) (fun _ h => h)
    (fun s hs => inv_cast ?_ s hs)
  have := htn.below node hnode
  rw [hlen]
  split_ifs <;> omega

theorem ethclassic_unlockAllAccounts_ok (henv : AllSucceed env) (tn : TestNet) :
    Ok (Inv L c0 i0 n t false) (ethclassic.unlockAllAccounts env tn)
      (fun r => r = none) (Inv L c0 i0 n t false) := by
  unfold ethclassic.unlockAllAccounts
  refine ok_weaken (ok_AllNodeExecCon henv tn _ 0 ?_) (fun _ h => h)
    (fun s hs => inv_cast (by simp) s hs)
  intro node hnode m
  apply ok_bind (ok_defer _)
  intro _ _
  exact ok_ret _ rfl (fun s hs => hs)

theorem ethclassic_newConf_ok :
    Ok (Inv L c0 i0 n t b) (ethclassic.newConf env) (fun c => c = env.etcNewConf)
      (Inv L c0 i0 n t b) :=
  ok_neutral (fun s => ⟨_, _, rfl, rfl, rfl, rfl, rfl, rfl, by
    rw [countIncrements_snoc_other]; rfl⟩)

/-- In an environment where nothing fails, the ethclassic build over `N` nodes returns
nil having declared `8 + 5*N + N*(N-1)` steps and made `7 + 4*N + N*(N-1)`
increments. -/
theorem ethclassic_build_ok (henv : AllSucceed env) (tn : TestNet) (N : Nat)
    (htn : tn.Sized N) (hextra : 0 ≤ env.etcNewConf.1.ExtraAccounts)
    (hgen : env.etcNewConf.1.Consensus = "clique" →
      0 < (N : Int) + env.etcNewConf.1.ExtraAccounts) :
    Ok (Inv L c0 i0 n t b) (ethclassic.build env tn) (fun r => r = none)
      (Inv (setLen L Slice.staticNodes N) c0 i0 (n + (7 + 4 * N + N * (N - 1)))
        (8 + 5 * (N : Int) + (N : Int) * ((N : Int) - 1)) false) := by
  unfold ethclassic.build
  apply ok_bind ok_newMutex
  intro _ _
  apply ok_bind ethclassic_newConf_ok
  intro c hc
  subst hc
  simp only [henv.etcConf, orReturn_none, htn.count]
  apply ok_bind (ok_steps _)
  intro _ _
  apply ok_bind ok_inc
  intro _ _
  apply ok_bind (ok_stage _)
  intro _ _
  apply ok_bind (ok_helper henv _ _)
  intro _ _
  apply ok_bind ok_inc
  intro _ _
  apply ok_bind (ok_stage _)
  intro _ _
  apply ok_bind (ok_GenerateAccounts _)
  intro a ha
  subst ha
  have hacc := henv.accounts ((N : Int) + env.etcNewConf.1.ExtraAccounts)
  simp only [hacc.1, orReturn_none]
  apply ok_bind (ethclassic_generatePasswordFile_ok henv _ _ _)
  intro r hr
  subst hr
  simp only [orReturn_none]
  apply ok_bind (ok_AllNodeExecCon henv tn _ 0
    (fun node _ m => ok_weaken (ethclassic_importAccounts_ok henv node _ 0) (fun _ h => h)
      (fun s hs => hs)))
  intro r hr
  subst hr
  simp only [orReturn_none]
  apply ok_bind (ok_set _ _)
  intro _ _
  apply ok_bind ok_inc
  intro _ _
  apply ok_bind ok_inc
  intro _ _
  apply ok_bind (ok_stage _)
  intro _ _
  apply ok_bind (ethclassic_createGenesisfile_ok henv _ _ ?_)
  · intro r hr
    subst hr
    simp only [orReturn_none]
    apply ok_bind ok_inc
    intro _ _
    apply ok_bind (ok_stage _)
    intro _ _
    apply ok_bind (ok_makeSlice Slice.staticNodes N)
    intro _ _
    apply ok_bind (ok_stage _)
    intro _ _
    apply ok_bind (ok_AllNodeExecCon henv tn _ 1
      (fun node hnode m => ethclassic_initGeth_ok henv _ node
        (by simpa [setLen] using htn.below node hnode)))
    intro _ _
    apply ok_bind ok_inc
    intro _ _
    apply ok_bind (ok_stage _)
    intro _ _
    apply ok_bind (ok_AllNodeExecCon henv tn _ 1
      (fun node hnode m => ethclassic_moveKeystore_ok henv _ node))
    intro _ _
    apply ok_bind (ok_AllNodeExecCon henv tn _ 2
      (fun node hnode m => ethclassic_startGeth_ok henv _ _ _ node
        (by
          have := htn.below node hnode
          rw [hacc.2]
          omega)))
    intro r hr
    subst hr
    simp only [orReturn_none]
    apply ok_bind ok_inc
    intro _ _
    apply ok_bind (ok_setExt _ _)
    intro _ _
    apply ok_bind (ok_helper henv _ _)
    intro _ _
    apply ok_bind (ok_setExt _ _)
    intro _ _
    apply ok_bind (ok_setExt _ _)
    intro _ _
    apply ok_bind (ok_setExt _ _)
    intro _ _
    apply ok_bind (ok_readSlice Slice.staticNodes)
    intro staticNodes hlen
    apply ok_bind (ok_set _ _)
    intro _ _
    apply ok_bind (ok_stage _)
    intro _ _
    apply ok_bind (ok_sleep _)
    intro _ _
    apply ok_bind (ethclassic_peerAllNodes_ok henv tn N htn staticNodes
      (by simpa [setLen] using hlen))
    intro r hr
    subst hr
    simp only [orReturn_none]
    apply ok_bind (ethclassic_unlockAllAccounts_ok henv tn)
    intro _ _
    refine ok_ret _ rfl (fun s hs => inv_cast ?_ s hs)
    rw [htn.nodes]
    ring
  · unfold ethclassic.genesisExtraData
    split
    · rename_i hcl
      have := hgen hcl
      unfold ethclassic.cliqueExtraData
      cases hl : (env.GenerateAccounts ((N : Int) + env.etcNewConf.1.ExtraAccounts)).1 with
      | nil =>
        have h2 := hacc.2
        rw [hl] at h2
        simp at h2
        omega
      | cons x xs => simp
    · simp

end ProgressEtc
section ProgressParity

set_option linter.unusedVariables false
set_option linter.unusedTactic false
set_option linter.unreachableTactic false

variable {L : Slice → Nat} {c0 : Int} {i0 n : Nat} {t : Int} {b : Bool} {env : Env}

theorem parity_createWallet_ok (henv : AllSucceed env) (node : Node)
    (h1 : node.AbsoluteNumber < L Slice.wallets)
    (h2 : node.AbsoluteNumber < L Slice.rawWallets) :
    Ok (Inv L c0 i0 n t false) (parity.createWallet env node)
      (fun r => r = none) (Inv L c0 i0 (n + 1) t false) := by
  unfold parity.createWallet
  apply ok_bind (ok_remote henv _ _ _)
  intro r hr
  simp only [hr.1, orReturn_none]
  rw [if_neg hr.2]
  apply ok_bind ok_lock
  intro _ _
  apply ok_bind (ok_storeSlice _ _ _ h1)
  intro _ _
  apply ok_bind ok_unlock
  intro _ _
  apply ok_bind (ok_remote henv _ _ _)
  intro r2 hr2
  simp only [hr2.1, orReturn_none]
  apply ok_bind ok_inc
  intro _ _
  apply ok_bind ok_lock
  intro _ _
  apply ok_bind (ok_storeSlice _ _ _ h2)
  intro _ _
  apply ok_bind ok_unlock
  intro _ _
  exact ok_ret _ rfl (fun s hs => hs)

theorem parity_importLoop_ok (henv : AllSucceed env) (node : Node) (rawWallets : List String) :
    ∀ i, Ok (Inv L c0 i0 n t b) (parity.importLoop env node rawWallets i)
      (fun r => r = none) (Inv L c0 i0 n t b) := by
  induction rawWallets with
  | nil => intro i; exact ok_runPure _ rfl (fun s hs => hs)
  | cons a rest ih =>
    intro i
    unfold parity.importLoop
    apply ok_bind (ok_remote henv _ _ _)
    intro r hr
    simp only [hr.1, orReturn_none]
    apply ok_bind (ok_remote henv _ _ _)
    intro r2 hr2
    simp only [hr2.1, orReturn_none]
    exact ih _

theorem parity_importWallets_ok (henv : AllSucceed env) (node : Node) :
    Ok (Inv L c0 i0 n t b) (parity.importWallets env node)
      (fun r => r = none) (Inv L c0 i0 (n + 1) t b) := by
  unfold parity.importWallets
  apply ok_bind (ok_readSlice _)
  intro rawWallets _
  apply ok_bind (parity_importLoop_ok henv node rawWallets 0)
  intro r hr
  subst hr
  simp only [orReturn_none]
  apply ok_bind ok_inc
  intro _ _
  exact ok_ret _ rfl (fun s hs => hs)

theorem parity_startDaemon_ok (henv : AllSucceed env) (node : Node) (wallet : String) :
    Ok (Inv L c0 i0 n t b) (parity.startDaemon env node (some wallet))
      (fun r => r = none) (Inv L c0 i0 (n + 1) t b) := by
  unfold parity.startDaemon
  simp only
  apply ok_bind (ok_remote henv _ _ _)
  intro r hr
  apply ok_bind ok_inc
  intro _ _
  exact ok_ret _ hr.1 (fun s hs => hs)

theorem parity_enodeLoop_ok (henv : AllSucceed env) (node : Node) (k : Nat) :
    Ok (Inv L c0 i0 n t b) (parity.enodeLoop env node (k + 1))
      (fun r => r.2 = none) (Inv L c0 i0 n t b) := by
  unfold parity.enodeLoop
  apply ok_bind (ok_remote henv _ _ _)
  intro r hr
  simp only [hr.1, henv.json, (henv.enode r.1).1]
  rw [if_neg (henv.enode r.1).2]
  exact ok_ret _ rfl (fun s hs => hs)

theorem parity_collectEnode_ok (henv : AllSucceed env) (node : Node) (i : Nat)
    (hi : i < L Slice.enodes) :
    Ok (Inv L c0 i0 n t false) (parity.collectEnode env node (some i))
      (fun r => r = none) (Inv L c0 i0 (n + 1) t false) := by
  unfold parity.collectEnode
  obtain ⟨k, hk⟩ : ∃ k, env.fuel = k + 1 := ⟨env.fuel - 1, by have := henv.fuel; omega⟩
  rw [hk]
  apply ok_bind (parity_enodeLoop_ok henv node k)
  intro r hr
  simp only [hr]
  apply ok_bind ok_inc
  intro _ _
  apply ok_bind ok_lock
  intro _ _
  apply ok_bind (ok_storeSlice _ _ _ hi)
  intro _ _
  apply ok_bind ok_unlock
  intro _ _
  exact ok_ret _ rfl (fun s hs => hs)

theorem parity_peerLoop_ok (henv : AllSucceed env) (node : Node) (enodes : List String) :
    ∀ i n, Ok (Inv L c0 i0 n t b) (parity.peerLoop env node enodes i)
      (fun r => r = none)
      (Inv L c0 i0 (n + (enodes.length -
        (if i ≤ node.AbsoluteNumber ∧ node.AbsoluteNumber < i + enodes.length then 1 else 0)))
        t b) := by
  induction enodes with
  | nil => intro i n; exact ok_runPure _ rfl (fun s hs => inv_cast (by simp) s hs)
  | cons e rest ih =>
    intro i n
    unfold parity.peerLoop
    by_cases hi : i = node.AbsoluteNumber
    · rw [if_pos hi]
      refine ok_weaken (ih (i + 1) n) (fun _ h => h) (fun s hs => inv_cast ?_ s hs)
      simp only [List.length_cons]
      split_ifs <;> omega
    · rw [if_neg hi]
      apply ok_bind (ok_remote henv _ _ _)
      intro r hr
      apply ok_bind ok_inc
      intro _ _
      simp only [hr.1, orReturn_none]
      refine ok_weaken (ih (i + 1) (n + 1)) (fun _ h => h) (fun s hs => inv_cast ?_ s hs)
      simp only [List.length_cons]
      split_ifs <;> omega

theorem parity_peerAllNodes_ok (henv : AllSucceed env) (tn : TestNet) (N : Nat)
    (htn : tn.Sized N) (enodes : List String) (hlen : enodes.length = N) :
    Ok (Inv L c0 i0 n t false) (parity.peerAllNodes env tn enodes)
      (fun r => r = none) (Inv L c0 i0 (n + N * (N - 1)) t false) := by
  unfold parity.peerAllNodes
  refine ok_weaken (ok_AllNewNodeExecCon henv tn _ (N - 1) ?_) (fun _ h => h)
    (fun s hs => inv_cast (by rw [htn.newly, htn.nodes]) s hs)
  intro node hnode m
  refine ok_weaken (parity_peerLoop_ok henv node enodes 0 m) (fun _ h => h)
    (fun s hs => inv_cast ?_ s hs)
  have := htn.below node (htn.newly ▸ hnode)
  rw [hlen]
  split_ifs <;> omega

theorem parity_setMine_ok (pconf : ParityConf) :
    Ok (Inv L c0 i0 n t b) (parity.setMine pconf) (fun _ => True) (Inv L c0 i0 n t b) := by
  unfold parity.setMine
  split
  · exact ok_set _ _
  · split
    · exact ok_set _ _
    · exact ok_ret _ trivial (fun s hs => hs)

theorem parity_storeParameters_ok (henv : AllSucceed env) (tn : TestNet) (pconf : ParityConf)
    (wallets enodes : List String) :
    Ok (Inv L c0 i0 n t b) (parity.storeParameters env tn pconf wallets enodes)
      (fun _ => True) (Inv L c0 i0 n t b) := by
  unfold parity.storeParameters
  apply ok_bind (ok_GenerateAccounts _)
  intro _ _
  apply ok_bind (ok_set _ _)
  intro _ _
  apply ok_bind (ok_setExt _ _)
  intro _ _
  apply ok_bind (ok_setExt _ _)
  intro _ _
  apply ok_bind (ok_helper henv _ _)
  intro _ _
  apply ok_bind (parity_setMine_ok pconf)
  intro _ _
  apply ok_bind (ok_set _ _)
  intro _ _
  apply ok_bind (ok_set _ _)
  intro _ _
  exact ok_set _ _

theorem parity_specCall_ok (henv : AllSucceed env) (fn : String) (pconf : ParityConf)
    (wallets : List String) :
    Ok (Inv L c0 i0 n t b) (parity.specCall env fn pconf wallets) (fun r => r.2 = none)
      (Inv L c0 i0 n t b) :=
  ok_neutral (fun s => ⟨_, _, rfl, henv.spec _ _ _, rfl, rfl, rfl, rfl, by
    rw [countIncrements_snoc_other]; rfl⟩)

theorem parity_setupPOA_ok (henv : AllSucceed env) (pconf : ParityConf)
    (wallets : List String) :
    Ok (Inv L c0 i0 n t b) (parity.setupPOA env pconf wallets)
      (fun r => r = none) (Inv L c0 i0 n t b) := by
  unfold parity.setupPOA
  apply ok_bind (parity_specCall_ok henv _ _ _)
  intro r hr
  simp only [hr, orReturn_none]
  apply ok_bind (ok_helper henv _ _)
  intro r2 hr2
  subst hr2
  simp only [orReturn_none]
  exact ok_helper henv _ _

theorem parity_setupPOW_ok (henv : AllSucceed env) (pconf : ParityConf)
    (wallets : List String) :
    Ok (Inv L c0 i0 n t b) (parity.setupPOW env pconf wallets)
      (fun r => r = none) (Inv L c0 i0 (n + 1) t b) := by
  unfold parity.setupPOW
  apply ok_bind ok_inc
  intro _ _
  apply ok_bind (parity_specCall_ok henv _ _ _)
  intro r hr
  simp only [hr, orReturn_none]
  apply ok_bind (ok_helper henv _ _)
  intro r2 hr2
  subst hr2
  simp only [orReturn_none]
  exact ok_helper henv _ _

theorem parity_newConf_ok :
    Ok (Inv L c0 i0 n t b) (parity.newConf env) (fun c => c = env.parityNewConf)
      (Inv L c0 i0 n t b) :=
  ok_neutral (fun s => ⟨_, _, rfl, rfl, rfl, rfl, rfl, rfl, by
    rw [countIncrements_snoc_other]; rfl⟩)

/-- The rest of the parity `build` after the consensus setup. -/
theorem parity_build_tail_ok (henv : AllSucceed env) (tn : TestNet) (N : Nat)
    (htn : tn.Sized N) (pconf : ParityConf) (wallets : List String)
    (hw : wallets.length = N) (rest : Run (Option Error))
    (hrest : rest = (do
      let err ← AllNodeExecCon env tn (fun node => parity.importWallets env node)
      orReturn err do
      let err ← AllNodeExecCon env tn
        (fun node => parity.startDaemon env node wallets[node.AbsoluteNumber]?)
      orReturn err do
      Sleep 5
      makeSlice Slice.enodes (N : Int)
      let err ← AllNodeExecCon env tn
        (fun node => parity.collectEnode env node (some node.AbsoluteNumber))
      orReturn err do
      let enodes ← readSlice Slice.enodes
      parity.storeParameters env tn pconf wallets enodes
      IncrementBuildProgress
      parity.peerAllNodes env tn enodes)) :
    Ok (Inv L c0 i0 n t false) rest (fun r => r = none)
      (Inv (setLen L Slice.enodes N) c0 i0 (n + (1 + 3 * N + N * (N - 1))) t false) := by
  subst hrest
  apply ok_bind (ok_AllNodeExecCon henv tn _ 1
    (fun node hnode m => parity_importWallets_ok henv node))
  intro r hr
  subst hr
  simp only [orReturn_none]
  apply ok_bind (ok_AllNodeExecCon henv tn _ 1
    (fun node hnode m => by
      have hb := htn.below node hnode
      rw [List.getElem?_eq_getElem (by omega)]
      exact parity_startDaemon_ok henv node _))
  intro r hr
  subst hr
  simp only [orReturn_none]
  apply ok_bind (ok_sleep _)
  intro _ _
  apply ok_bind (ok_makeSlice Slice.enodes N)
  intro _ _
  apply ok_bind (ok_AllNodeExecCon henv tn _ 1
    (fun node hnode m => parity_collectEnode_ok henv node _
      (by simpa [setLen] using htn.below node hnode)))
  intro r hr
  subst hr
  simp only [orReturn_none]
  apply ok_bind (ok_readSlice Slice.enodes)
  intro enodes hlen
  apply ok_bind (parity_storeParameters_ok henv tn _ _ _)
  intro _ _
  apply ok_bind ok_inc
  intro _ _
  refine ok_weaken (parity_peerAllNodes_ok henv tn N htn enodes (by simpa [setLen] using hlen))
    (fun _ h => h) (fun s hs => inv_cast ?_ s hs)
  rw [htn.nodes]
  ring

/-- In an environment where nothing fails, the parity build over `N` newly built nodes
returns nil having declared `9 + 6*N` steps and made `4 + 4*N + N*(N-1)` increments for
"ethash" and `3 + 4*N + N*(N-1)` for "poa". -/
theorem parity_build_ok (henv : AllSucceed env) (tn : TestNet) (N : Nat)
    (htn : tn.Sized N)
    (hcons : env.parityNewConf.1.Consensus = "ethash" ∨ env.parityNewConf.1.Consensus = "poa") :
    Ok (Inv L c0 i0 n t b) (parity.build env tn) (fun r => r = none)
      (Inv (setLen (setLen (setLen L Slice.wallets N) Slice.rawWallets N) Slice.enodes N)
        c0 i0
        (n + ((if env.parityNewConf.1.Consensus = "ethash" then 4 else 3) + 4 * N + N * (N - 1)))
        (9 + 6 * (N : Int)) false) := by
  unfold parity.build
  apply ok_bind ok_newMutex
  intro _ _
  apply ok_bind parity_newConf_ok
  intro c hc
  subst hc
  simp only [henv.parityConf, orReturn_none, htn.count]
  apply ok_bind (ok_steps _)
  intro _ _
  apply ok_bind (ok_helper henv _ _)
  intro r hr
  subst hr
  simp only [orReturn_none]
  apply ok_bind ok_inc
  intro _ _
  apply ok_bind (ok_helper henv _ _)
  intro r hr
  subst hr
  simp only [orReturn_none]
  apply ok_bind ok_inc
  intro _ _
  apply ok_bind (ok_makeSlice Slice.wallets N)
  intro _ _
  apply ok_bind (ok_makeSlice Slice.rawWallets N)
  intro _ _
  apply ok_bind (ok_AllNodeExecCon henv tn _ 1
    (fun node hnode m => parity_createWallet_ok henv node
      (by simpa [setLen] using htn.below node hnode)
      (by simpa [setLen] using htn.below node hnode)))
  intro r hr
  subst hr
  simp only [orReturn_none]
  apply ok_bind (ok_readSlice Slice.wallets)
  intro wallets hlen
  have hw : wallets.length = N := by simpa [setLen] using hlen
  unfold parity.chooseSetup
  by_cases h1 : env.parityNewConf.1.Consensus = "ethash"
  · simp only [h1, if_true]
    apply ok_bind (parity_setupPOW_ok henv _ _)
    intro r hr
    subst hr
    simp only [orReturn_none]
    refine ok_weaken (parity_build_tail_ok henv tn N htn _ wallets hw _ rfl) (fun _ h => h)
      (fun s hs => inv_cast ?_ s hs)
    rw [htn.nodes]
    ring
  · have h2 : env.parityNewConf.1.Consensus = "poa" := hcons.resolve_left h1
    have h3 : ¬ ("poa" = "ethash") := by decide
    simp only [h2, h3, if_true, if_false]
    apply ok_bind (parity_setupPOA_ok henv _ _)
    intro r hr
    subst hr
    simp only [orReturn_none]
    refine ok_weaken (parity_build_tail_ok henv tn N htn _ wallets hw _ rfl) (fun _ h => h)
      (fun s hs => inv_cast ?_ s hs)
    rw [htn.nodes]
    ring

end ProgressParity
section ProgressTotals

set_option linter.unusedVariables false

theorem okEnv_allSucceed : AllSucceed okEnv where
  remote := fun _ _ _ _ =>
    ⟨rfl, by show ("enode://ab@[::]:30303\n" : String).length ≠ 0; decide⟩
  helper := fun _ _ _ => rfl
  etcConf := rfl
  parityConf := rfl
  accounts := fun n => ⟨rfl, by simp [okEnv]⟩
  spec := fun _ _ _ => rfl
  schedule := fun _ l => List.Perm.refl l
  scrape := fun _ _ _ => by simp [okEnv]
  json := fun _ => rfl
  enode := fun _ =>
    ⟨rfl, by show ("enode://ab@10.0.0.1:30303" : String).length ≠ 0; decide⟩
  fuel := by decide

theorem poaEnv_allSucceed : AllSucceed poaEnv where
  remote := fun _ _ _ _ =>
    ⟨rfl, by show ("enode://ab@[::]:30303\n" : String).length ≠ 0; decide⟩
  helper := fun _ _ _ => rfl
  etcConf := rfl
  parityConf := rfl
  accounts := fun n => ⟨rfl, by simp [poaEnv, okEnv]⟩
  spec := fun _ _ _ => rfl
  schedule := fun _ l => List.Perm.refl l
  scrape := fun _ _ _ => by simp [poaEnv, okEnv]
  json := fun _ => rfl
  enode := fun _ =>
    ⟨rfl, by show ("enode://ab@10.0.0.1:30303" : String).length ≠ 0; decide⟩
  fuel := by decide

theorem demoNet_sized (N : Nat) : (demoNet N).Sized N where
  count := rfl
  nodes := by simp [demoNet]
  newly := rfl
  below := by
    intro node hnode
    simp only [demoNet, List.mem_map, List.mem_range] at hnode
    obtain ⟨i, hi, rfl⟩ := hnode
    exact hi

theorem cast_mul_pred (N : Nat) : ((N * (N - 1) : Nat) : Int) = (N : Int) * ((N : Int) - 1) := by
  cases N with
  | zero => simp
  | succ k => simp

/-- C6 (the code falls short of the total it declares): in every environment where
nothing fails, the ethclassic build over `N` nodes, started with no completed step,
returns nil, has declared `8 + 5*N + N*(N-1)` steps, has called
`IncrementBuildProgress` exactly `7 + 4*N + N*(N-1)` times, and ends with
`completedSteps` equal to `totalSteps - (N + 1)`, never to `totalSteps`. -/
theorem ethclassic_build_progress (env : Env) (tn : TestNet) (N : Nat) (s : St)
    (henv : AllSucceed env) (htn : tn.Sized N)
    (hextra : 0 ≤ env.etcNewConf.1.ExtraAccounts)
    (hgen : env.etcNewConf.1.Consensus = "clique" →
      0 < (N : Int) + env.etcNewConf.1.ExtraAccounts)
    (hfresh : s.bs.completedSteps = 0) :
    ∃ s1, ethclassic.build env tn s = (Res.ok none, s1) ∧
      s1.bs.totalSteps = 8 + 5 * (N : Int) + (N : Int) * ((N : Int) - 1) ∧
      countIncrements s1.trace = countIncrements s.trace + (7 + 4 * N + N * (N - 1)) ∧
      s1.bs.completedSteps = s1.bs.totalSteps - ((N : Int) + 1) ∧
      s1.bs.completedSteps ≠ s1.bs.totalSteps := by
  have hok : Ok (Inv (fun v => (s.slices v).length) s.bs.completedSteps
      (countIncrements s.trace) 0 s.bs.totalSteps s.muxLocked) (ethclassic.build env tn) _ _ :=
    ethclassic_build_ok henv tn N htn hextra hgen
  obtain ⟨r, s1, hrun, hr, hI⟩ := hok.out s ⟨by simp, by simp, rfl, rfl, fun _ => rfl⟩
  subst hr
  have hc := hI.completed
  have ht := hI.total
  have hn := hI.counted
  rw [hfresh] at hc
  have hcomp : s1.bs.completedSteps = s1.bs.totalSteps - ((N : Int) + 1) := by
    rw [hc, ht]
    simp only [Nat.zero_add, Int.zero_add, Nat.cast_add, cast_mul_pred]
    push_cast
    ring
  refine ⟨s1, hrun, ht, ?_, hcomp, ?_⟩
  · rw [hn]; simp
  · rw [hcomp]
    omega

theorem ethclassic_build_progress_witness :
    ∃ s1, ethclassic.build okEnv (demoNet 2) (St.init BuildState.fresh) = (Res.ok none, s1) ∧
      s1.bs.totalSteps = 20 ∧ countIncrements s1.trace = 17 ∧ s1.bs.completedSteps = 17 := by
  obtain ⟨s1, h1, h2, h3, h4, _⟩ := ethclassic_build_progress okEnv (demoNet 2) 2
    (St.init BuildState.fresh) okEnv_allSucceed (demoNet_sized 2) (by decide)
    (fun h => absurd h (by decide)) rfl
  refine ⟨s1, h1, ?_, ?_, ?_⟩
  · rw [h2]; norm_num
  · rw [h3]; rfl
  · rw [h4, h2]; norm_num

/-- C7 (the code misses the total it declares): in every environment where nothing
fails, the parity build over `N` newly built nodes with consensus "ethash" or "poa",
started with no completed step, returns nil, has declared `9 + 6*N` steps and has
called `IncrementBuildProgress` exactly `k + 4*N + N*(N-1)` times with `k = 4` for
"ethash" and `k = 3` for "poa"; `completedSteps` never equals `totalSteps`, and
exceeds it as soon as `N ≥ 5`. -/
theorem parity_build_progress (env : Env) (tn : TestNet) (N : Nat) (s : St)
    (henv : AllSucceed env) (htn : tn.Sized N)
    (hcons : env.parityNewConf.1.Consensus = "ethash" ∨ env.parityNewConf.1.Consensus = "poa")
    (hfresh : s.bs.completedSteps = 0) :
    ∃ s1, parity.build env tn s = (Res.ok none, s1) ∧
      s1.bs.totalSteps = 9 + 6 * (N : Int) ∧
      countIncrements s1.trace = countIncrements s.trace +
        ((if env.parityNewConf.1.Consensus = "ethash" then 4 else 3) + 4 * N + N * (N - 1)) ∧
      s1.bs.completedSteps =
        (((if env.parityNewConf.1.Consensus = "ethash" then 4 else 3) + 4 * N + N * (N - 1)
          : Nat) : Int) ∧
      s1.bs.completedSteps ≠ s1.bs.totalSteps ∧
      (5 ≤ N → s1.bs.totalSteps < s1.bs.completedSteps) := by
  have hok : Ok (Inv (fun v => (s.slices v).length) s.bs.completedSteps
      (countIncrements s.trace) 0 s.bs.totalSteps s.muxLocked) (parity.build env tn) _ _ :=
    parity_build_ok henv tn N htn hcons
  obtain ⟨r, s1, hrun, hr, hI⟩ := hok.out s ⟨by simp, by simp, rfl, rfl, fun _ => rfl⟩
  subst hr
  have hc := hI.completed
  have ht := hI.total
  have hn := hI.counted
  rw [hfresh] at hc
  simp only [Nat.zero_add, Int.zero_add] at hc hn
  have hk : (3 : Nat) ≤ (if env.parityNewConf.1.Consensus = "ethash" then 4 else 3) ∧
      (if env.parityNewConf.1.Consensus = "ethash" then 4 else 3) ≤ (4 : Nat) := by
    split_ifs <;> omega
  generalize (if env.parityNewConf.1.Consensus = "ethash" then 4 else 3 : Nat) = k at *
  have hbig : 5 ≤ N → 9 + 6 * N < k + 4 * N + N * (N - 1) := by
    intro h5
    have h4 : N * 4 ≤ N * (N - 1) := Nat.mul_le_mul_left N (by omega)
    omega
  refine ⟨s1, hrun, ht, ?_, hc, ?_, ?_⟩
  · rw [hn]
  · rw [hc, ht]
    by_cases h5 : 5 ≤ N
    · have := hbig h5
      omega
    · have hN : N ≤ 4 := by omega
      interval_cases N <;> omega
  · intro h5
    rw [hc, ht]
    have := hbig h5
    omega

theorem parity_build_progress_witness :
    ∃ s1, parity.build okEnv (demoNet 5) (St.init BuildState.fresh) = (Res.ok none, s1) ∧
      s1.bs.totalSteps = 39 ∧ countIncrements s1.trace = 44 ∧ s1.bs.completedSteps = 44 := by
  obtain ⟨s1, h1, h2, h3, h4, _⟩ := parity_build_progress okEnv (demoNet 5) 5
    (St.init BuildState.fresh) okEnv_allSucceed (demoNet_sized 5) (Or.inl rfl) rfl
  refine ⟨s1, h1, ?_, ?_, ?_⟩
  · rw [h2]; norm_num
  · rw [h3]; rfl
  · rw [h4]; rfl

end ProgressTotals

section Retry

/-! ## The deposit loop and the peering retry loop -/

theorem failedAttempts_succ_append (node : Node) (cmd : String) (tr : List Event) (j : Nat) :
    tr ++ failedAttempts node cmd (j + 1) =
      (tr ++ [Event.exec ExecKind.KeepTryRun node.AbsoluteNumber cmd, Event.Sleep 1]) ++
        failedAttempts node cmd j := by
  simp [failedAttempts]

theorem countExec_append (kind : ExecKind) (a b : List Event) :
    countExec kind (a ++ b) = countExec kind a + countExec kind b := by
  simp [countExec]

theorem countSleep_append (a b : List Event) :
    countSleep (a ++ b) = countSleep a + countSleep b := by
  simp [countSleep]

theorem countExec_failedAttempts (node : Node) (cmd : String) (j : Nat) :
    countExec ExecKind.KeepTryRun (failedAttempts node cmd j) = j := by
  induction j with
  | zero => rfl
  | succ j ih =>
    have : countExec ExecKind.KeepTryRun (failedAttempts node cmd (j + 1)) =
        countExec ExecKind.KeepTryRun (failedAttempts node cmd j) + 1 := by
      simp [failedAttempts, countExec]
    rw [this, ih]

theorem countSleep_failedAttempts (node : Node) (cmd : String) (j : Nat) :
    countSleep (failedAttempts node cmd j) = j := by
  induction j with
  | zero => rfl
  | succ j ih =>
    have : countSleep (failedAttempts node cmd (j + 1)) =
        countSleep (failedAttempts node cmd j) + 1 := by
      simp [failedAttempts, countSleep]
    rw [this, ih]

/-- After `m` failed attempts the retry loop of `peerAllNodes` stands where it would
with `m` fewer attempts left, the error of the last attempt in hand. -/
theorem ethclassic_peerRetry_failed (env : Env) (node : Node) (enode : String) (m : Nat) :
    ∀ (k : Nat) (err : Option Error) (s : St), m ≤ k →
      (∀ j, j < m →
        (env.remote (s.trace ++ failedAttempts node (ethclassic.addPeerRequest node enode) j)
          ExecKind.KeepTryRun node (ethclassic.addPeerRequest node enode)).2 ≠ none) →
      ethclassic.peerRetry env node enode k err s =
        ethclassic.peerRetry env node enode (k - m)
          (if m = 0 then err else
            (env.remote
              (s.trace ++ failedAttempts node (ethclassic.addPeerRequest node enode) (m - 1))
              ExecKind.KeepTryRun node (ethclassic.addPeerRequest node enode)).2)
          { s with trace :=
              s.trace ++ failedAttempts node (ethclassic.addPeerRequest node enode) m } := by
  induction m with
  | zero =>
    intro k err s _ _
    simp [failedAttempts]
  | succ m ih =>
    intro k err s hk hfail
    obtain ⟨k1, rfl⟩ : ∃ k1, k = k1 + 1 := ⟨k - 1, by omega⟩
    have h0 := hfail 0 (by omega)
    simp only [failedAttempts, List.append_nil] at h0
    obtain ⟨e, he⟩ := Option.ne_none_iff_exists'.mp h0
    have hstep : ethclassic.peerRetry env node enode (k1 + 1) err s =
        ethclassic.peerRetry env node enode k1 (some e)
          { s with trace := s.trace ++
              [Event.exec ExecKind.KeepTryRun node.AbsoluteNumber
                (ethclassic.addPeerRequest node enode), Event.Sleep 1] } := by
      simp only [ethclassic.peerRetry, bind, Run.bind, remoteExec, Sleep, emit,
        ethclassic.addPeerRequest] at he ⊢
      simp only [he, Run.bind, emit, List.append_assoc, List.singleton_append,
        List.cons_append, List.nil_append]
    rw [hstep, ih k1 (some e) _ (by omega)]
    · have hk : k1 + 1 - (m + 1) = k1 - m := by omega
      rw [hk]
      congr 1
      · cases m with
        | zero => simp [failedAttempts, he]
        | succ m1 =>
          simp only [Nat.add_one_ne_zero, if_false, Nat.add_sub_cancel]
          rw [failedAttempts_succ_append]
      · simp [failedAttempts]
    · intro j hj
      have := hfail (j + 1) (by omega)
      rw [failedAttempts_succ_append] at this
      exact this

/-- C12: the retry loop of the ethclassic `peerAllNodes` (at most `peeringRetries`
= 10 attempts). If the add-peer command fails `m` times, then: when `m < 10` and
the next attempt succeeds, the loop makes exactly `m + 1` attempts and `m` sleeps
of one second and ends with a nil error, and the task goes on (progress increment,
next peer); when `m = 10` the loop makes exactly 10 attempts and ends with the
error of the tenth attempt, which the task returns after the progress increment. -/
theorem peerRetry_attempts (env : Env) (node : Node) (enode : String) (rest : List String)
    (i : Nat) (s : St) (m : Nat)
    (hfail : ∀ j, j < m →
      (env.remote (s.trace ++ failedAttempts node (ethclassic.addPeerRequest node enode) j)
        ExecKind.KeepTryRun node (ethclassic.addPeerRequest node enode)).2 ≠ none) :
    (m < ethclassic.peeringRetries →
      (env.remote (s.trace ++ failedAttempts node (ethclassic.addPeerRequest node enode) m)
        ExecKind.KeepTryRun node (ethclassic.addPeerRequest node enode)).2 = none →
      ∃ s1, ethclassic.peerRetry env node enode ethclassic.peeringRetries none s =
          (Res.ok none, s1) ∧
        s1.trace = s.trace ++ failedAttempts node (ethclassic.addPeerRequest node enode) m ++
          [Event.exec ExecKind.KeepTryRun node.AbsoluteNumber
            (ethclassic.addPeerRequest node enode)] ∧
        countExec ExecKind.KeepTryRun s1.trace =
          countExec ExecKind.KeepTryRun s.trace + (m + 1) ∧
        countSleep s1.trace = countSleep s.trace + m ∧
        (i ≠ node.AbsoluteNumber →
          ethclassic.peerLoop env node (enode :: rest) i s =
            (IncrementBuildProgress >>= fun _ =>
              ethclassic.peerLoop env node rest (i + 1)) s1)) ∧
    (m = ethclassic.peeringRetries →
      ∃ e s1,
        (env.remote
          (s.trace ++ failedAttempts node (ethclassic.addPeerRequest node enode)
            (ethclassic.peeringRetries - 1))
          ExecKind.KeepTryRun node (ethclassic.addPeerRequest node enode)).2 = some e ∧
        ethclassic.peerRetry env node enode ethclassic.peeringRetries none s =
          (Res.ok (some e), s1) ∧
        s1.trace = s.trace ++ failedAttempts node (ethclassic.addPeerRequest node enode)
          ethclassic.peeringRetries ∧
        countExec ExecKind.KeepTryRun s1.trace =
          countExec ExecKind.KeepTryRun s.trace + ethclassic.peeringRetries ∧
        (i ≠ node.AbsoluteNumber →
          ethclassic.peerLoop env node (enode :: rest) i s =
            (IncrementBuildProgress >>= fun _ => Run.pure (some (LogError e))) s1)) := by
  constructor
  · intro hm hsucc
    have hred := ethclassic_peerRetry_failed env node enode m ethclassic.peeringRetries none s
      (by omega) hfail
    obtain ⟨k1, hk1⟩ : ∃ k1, ethclassic.peeringRetries - m = k1 + 1 :=
      ⟨ethclassic.peeringRetries - m - 1, by omega⟩
    have hrun : ethclassic.peerRetry env node enode ethclassic.peeringRetries none s =
        (Res.ok none,
          { s with trace :=
              s.trace ++ failedAttempts node (ethclassic.addPeerRequest node enode) m ++
              [Event.exec ExecKind.KeepTryRun node.AbsoluteNumber
                (ethclassic.addPeerRequest node enode)] }) := by
      rw [hred, hk1]
      simp only [ethclassic.peerRetry, bind, Run.bind, remoteExec, Run.pure,
        ethclassic.addPeerRequest] at hsucc ⊢
      simp only [hsucc]
      rfl
    refine ⟨_, hrun, rfl, ?_, ?_, ?_⟩
    · simp only [countExec_append, countExec_failedAttempts]
      simp [countExec]
      omega
    · simp only [countSleep_append, countSleep_failedAttempts]
      simp [countSleep]
    · intro hi
      simp only [ethclassic.peerLoop, if_neg hi, bind, Run.bind, hrun, orReturn]
  · intro hm
    subst hm
    have hred := ethclassic_peerRetry_failed env node enode ethclassic.peeringRetries
      ethclassic.peeringRetries none s (le_refl _) hfail
    have hlast := hfail (ethclassic.peeringRetries - 1) (by decide)
    obtain ⟨e, he⟩ := Option.ne_none_iff_exists'.mp hlast
    have hrun : ethclassic.peerRetry env node enode ethclassic.peeringRetries none s =
        (Res.ok (some e),
          { s with trace :=
              (s.trace ++ failedAttempts node (ethclassic.addPeerRequest node enode)
                ethclassic.peeringRetries) }) := by
      rw [hred, Nat.sub_self, if_neg (by decide), he]
      rfl
    refine ⟨e, _, he, hrun, rfl, ?_, ?_⟩
    · simp only [countExec_append, countExec_failedAttempts]
    · intro hi
      simp only [ethclassic.peerLoop, if_neg hi, bind, Run.bind, hrun, orReturn]

/-- C12 where the command fails twice and then succeeds: three attempts, two
sleeps, nil, and the task goes on. -/
theorem peerRetry_attempts_witness :
    ∃ s1, ethclassic.peerRetry (flakyEnv 2) ⟨0, "10.0.0.0"⟩ "enode://b"
          ethclassic.peeringRetries none (St.init BuildState.fresh) =
        (Res.ok none, s1) ∧
      s1.trace = (St.init BuildState.fresh).trace ++
        failedAttempts ⟨0, "10.0.0.0"⟩
          (ethclassic.addPeerRequest ⟨0, "10.0.0.0"⟩ "enode://b") 2 ++
        [Event.exec ExecKind.KeepTryRun 0
          (ethclassic.addPeerRequest ⟨0, "10.0.0.0"⟩ "enode://b")] ∧
      countExec ExecKind.KeepTryRun s1.trace =
        countExec ExecKind.KeepTryRun (St.init BuildState.fresh).trace + (2 + 1) ∧
      countSleep s1.trace = countSleep (St.init BuildState.fresh).trace + 2 ∧
      (1 ≠ (⟨0, "10.0.0.0"⟩ : Node).AbsoluteNumber →
        ethclassic.peerLoop (flakyEnv 2) ⟨0, "10.0.0.0"⟩ ("enode://b" :: []) 1
            (St.init BuildState.fresh) =
          (IncrementBuildProgress >>= fun _ =>
            ethclassic.peerLoop (flakyEnv 2) ⟨0, "10.0.0.0"⟩ [] (1 + 1)) s1) :=
  (peerRetry_attempts (flakyEnv 2) ⟨0, "10.0.0.0"⟩ "enode://b" [] 1
      (St.init BuildState.fresh) 2
      (by
        intro j hj
        have hc : countExec ExecKind.KeepTryRun
            ((St.init BuildState.fresh).trace ++ failedAttempts ⟨0, "10.0.0.0"⟩
              (ethclassic.addPeerRequest ⟨0, "10.0.0.0"⟩ "enode://b") j) = j := by
          rw [countExec_append, countExec_failedAttempts]
          simp [St.init, countExec]
        simp only [flakyEnv, hc, hj, and_self, if_true]
        exact Option.some_ne_none _)).1 (by decide)
    (by
      have hc : countExec ExecKind.KeepTryRun
          ((St.init BuildState.fresh).trace ++ failedAttempts ⟨0, "10.0.0.0"⟩
            (ethclassic.addPeerRequest ⟨0, "10.0.0.0"⟩ "enode://b") 2) = 2 := by
        rw [countExec_append, countExec_failedAttempts]
        simp [St.init, countExec]
      simp only [flakyEnv, hc]
      rfl)

/-- The retry loop where the command never succeeds, evaluated: ten attempts, ten
sleeps, and the error of the last attempt. -/
theorem ethclassic_peerRetry_exhausted :
    (ethclassic.peerRetry remoteFailEnv ⟨0, "10.0.0.0"⟩ "enode://b"
      ethclassic.peeringRetries none (St.init BuildState.fresh)).1 =
        Res.ok (some "exit status 7") ∧
    countExec ExecKind.KeepTryRun
      (ethclassic.peerRetry remoteFailEnv ⟨0, "10.0.0.0"⟩ "enode://b"
        ethclassic.peeringRetries none (St.init BuildState.fresh)).2.trace = 10 ∧
    countSleep
      (ethclassic.peerRetry remoteFailEnv ⟨0, "10.0.0.0"⟩ "enode://b"
        ethclassic.peeringRetries none (St.init BuildState.fresh)).2.trace = 10 := by
  decide!

/-- When the first deposit request of a node's task succeeds, the task sends that one
request and no other: the remaining accounts send nothing. -/
theorem eth2_depositTask_first_only (env : Env) (node : Node) (contractAddr : String)
    (account : Account) (rest : List Account) (s : St)
    (hok : (env.remote s.trace ExecKind.KeepTryRun node
      (eth2.depositRequest node contractAddr account)).2 = none) :
    eth2.depositTask env node (account :: rest) contractAddr s =
      (Res.ok none,
        { s with
          trace := s.trace ++
            [Event.exec ExecKind.KeepTryRun node.AbsoluteNumber
              (eth2.depositRequest node contractAddr account),
             Event.IncrementBuildProgress]
          bs := { s.bs with completedSteps := s.bs.completedSteps + 1 } }) := by
  simp only [eth2.depositRequest] at hok
  simp only [eth2.depositTask, eth2.depositLoop, bind, Run.bind, remoteExec, hok, Run.pure,
    IncrementBuildProgress, orReturn, pure, eth2.depositRequest, List.append_assoc,
    List.singleton_append]

/-- The deposit tasks of a list of nodes, when every request succeeds: one request per
node, from the first account. -/
theorem eth2_depositTasks_first_only (env : Env) (contractAddr : String)
    (account : Account) (rest : List Account)
    (hok : ∀ tr node cmd, (env.remote tr ExecKind.KeepTryRun node cmd).2 = none) :
    ∀ (l : List Node) (s : St),
      ∃ s1, forNodes (fun node => eth2.depositTask env node (account :: rest) contractAddr) l s =
          (Res.ok none, s1) ∧
        s1.trace = s.trace ++ l.flatMap (fun node =>
          [Event.exec ExecKind.KeepTryRun node.AbsoluteNumber
            (eth2.depositRequest node contractAddr account),
           Event.IncrementBuildProgress]) := by
  intro l
  induction l with
  | nil =>
    intro s
    exact ⟨s, rfl, by simp⟩
  | cons node l ih =>
    intro s
    have h1 := eth2_depositTask_first_only env node contractAddr account rest s (hok _ _ _)
    obtain ⟨s2, h2, htr⟩ := ih
      { s with
        trace := s.trace ++
          [Event.exec ExecKind.KeepTryRun node.AbsoluteNumber
            (eth2.depositRequest node contractAddr account),
           Event.IncrementBuildProgress]
        bs := { s.bs with completedSteps := s.bs.completedSteps + 1 } }
    refine ⟨s2, ?_, ?_⟩
    · simp only [forNodes, h1, h2]
    · rw [htr]
      simp

/-- C11: when every remote command succeeds, `SendDeposit` over a non-empty account
list sends on every node exactly one deposit request, that of the first account;
the accounts after the first send none. (The claim and the function's own comment
say every account sends one.) -/
theorem SendDeposit_first_account_only (env : Env) (tn : TestNet) (contractAddr : String)
    (account : Account) (rest : List Account) (s : St)
    (hok : ∀ tr node cmd, (env.remote tr ExecKind.KeepTryRun node cmd).2 = none) :
    ∃ s1, eth2.SendDeposit env tn (account :: rest) contractAddr s = (Res.ok none, s1) ∧
      s1.trace = s.trace ++ Event.AllNodeExecCon ::
        (env.schedule s.trace tn.Nodes).flatMap (fun node =>
          [Event.exec ExecKind.KeepTryRun node.AbsoluteNumber
            (eth2.depositRequest node contractAddr account),
           Event.IncrementBuildProgress]) ∧
      countExec ExecKind.KeepTryRun s1.trace =
        countExec ExecKind.KeepTryRun s.trace + (env.schedule s.trace tn.Nodes).length := by
  obtain ⟨s1, h1, htr⟩ := eth2_depositTasks_first_only env contractAddr account rest hok
    (env.schedule s.trace tn.Nodes) { s with trace := s.trace ++ [Event.AllNodeExecCon] }
  have htr2 : s1.trace = s.trace ++ Event.AllNodeExecCon ::
      (env.schedule s.trace tn.Nodes).flatMap (fun node =>
        [Event.exec ExecKind.KeepTryRun node.AbsoluteNumber
          (eth2.depositRequest node contractAddr account),
         Event.IncrementBuildProgress]) := by
    rw [htr]
    simp
  refine ⟨s1, ?_, htr2, ?_⟩
  · simp only [eth2.SendDeposit, AllNodeExecCon, bind, Run.bind, h1, pure, Run.pure]
  · rw [htr2, countExec_append]
    congr 1
    generalize env.schedule s.trace tn.Nodes = l
    induction l with
    | nil => rfl
    | cons node l ih =>
      simp only [List.flatMap_cons, List.length_cons] at ih ⊢
      simp only [countExec, List.filter_cons, List.cons_append, List.nil_append] at ih ⊢
      simp only [beq_self_eq_true, if_true, List.length_cons] at ih ⊢
      simp at ih ⊢
      omega

/-- C11 at two nodes and the accounts with public keys "p0" and "p1", every command
succeeding: two requests in all, both from "p0". -/
theorem SendDeposit_first_account_only_witness :
    ∃ s1, eth2.SendDeposit okEnv (demoNet 2) (⟨"k0", "p0", "0xa0"⟩ :: [⟨"k1", "p1", "0xa1"⟩])
          "0xc0" (St.init BuildState.fresh) = (Res.ok none, s1) ∧
      s1.trace = (St.init BuildState.fresh).trace ++ Event.AllNodeExecCon ::
        (okEnv.schedule (St.init BuildState.fresh).trace (demoNet 2).Nodes).flatMap
          (fun node =>
            [Event.exec ExecKind.KeepTryRun node.AbsoluteNumber
              (eth2.depositRequest node "0xc0" ⟨"k0", "p0", "0xa0"⟩),
             Event.IncrementBuildProgress]) ∧
      countExec ExecKind.KeepTryRun s1.trace =
        countExec ExecKind.KeepTryRun (St.init BuildState.fresh).trace +
          (okEnv.schedule (St.init BuildState.fresh).trace (demoNet 2).Nodes).length :=
  SendDeposit_first_account_only okEnv (demoNet 2) "0xc0" ⟨"k0", "p0", "0xa0"⟩
    [⟨"k1", "p1", "0xa1"⟩] (St.init BuildState.fresh) (fun _ _ _ => rfl)

/-- The run of the C11 witness, evaluated: with two nodes and two accounts, two deposit
requests are sent, not four. -/
theorem eth2_SendDeposit_eval :
    countExec ExecKind.KeepTryRun
      (eth2.SendDeposit okEnv (demoNet 2) demoAccounts "0xc0"
        (St.init BuildState.fresh)).2.trace = 2 ∧
    demoAccounts.length * (demoNet 2).Nodes.length = 4 := by
  decide!

end Retry


section Polkadot

/-! ## Scraping, and the start phase of polkadot -/

/-- A node-executor run whose tasks all return nil returns nil. -/
theorem forNodes_all_nil (f : Node → Run (Option Error))
    (hf : ∀ node s, ∃ s1, f node s = (Res.ok none, s1)) :
    ∀ (l : List Node) (s : St), ∃ s1, forNodes f l s = (Res.ok none, s1) := by
  intro l
  induction l with
  | nil => intro s; exact ⟨s, rfl⟩
  | cons node l ih =>
    intro s
    obtain ⟨s1, h1⟩ := hf node s
    obtain ⟨s2, h2⟩ := ih s1
    exact ⟨s2, by simp only [forNodes, h1, h2]⟩

theorem eth2_npmTask_nil (env : Env) (out : String)
    (hout : ∀ tr n cmd, env.remote tr ExecKind.DockerExec n cmd = (out, none))
    (node : Node) (s : St) : ∃ s1, eth2.npmTask env node s = (Res.ok none, s1) := by
  refine ⟨(eth2.npmTask env node s).2, ?_⟩
  simp only [eth2.npmTask, bind, Run.bind, remoteExec, hout, orReturn, pure, Run.pure]

/-- C13: where a remote command succeeds with an output in which the expected pattern
is absent, the scraping step does not return an error: the index expression on the
list of matches is out of range and the run panics. This holds for the enode of the
geth console output (`initGeth`, no match), the node identity of the polkadot log
(`nodeIDTask`, no match) and the contract address of the deploy output
(`DeploySmartContract`, fewer than two matches). -/
theorem scrape_absent_pattern_panics (env : Env) (tn : TestNet) (etcconf : EtcConf)
    (node : Node) (s : St) (out : String)
    (hout : ∀ tr n cmd, env.remote tr ExecKind.DockerExec n cmd = (out, none))
    (hhelper : ∀ tr fn args, env.helper tr fn args = none)
    (hnodes : tn.Nodes ≠ []) :
    (env.FindAllString ethclassic.enodePattern out 1 = [] →
      (ethclassic.initGeth env etcconf node s).1 = Res.panic) ∧
    (env.FindAllString polkadot.nodeIDPattern out 1 = [] →
      (polkadot.nodeIDTask env node s).1 = Res.panic) ∧
    ((env.FindAllString eth2.addressPattern out (-1)).length < 2 →
      (eth2.DeploySmartContract env tn s).1 = Res.panic) := by
  refine ⟨?_, ?_, ?_⟩
  · intro h
    simp only [ethclassic.initGeth, bind, Run.bind, remoteExec, hout, orReturn, h,
      List.getElem?_nil, Run.panic]
  · intro h
    simp only [polkadot.nodeIDTask, bind, Run.bind, remoteExec, hout, orReturn, h,
      List.getElem?_nil, Run.panic]
  · intro h
    obtain ⟨deployNode, rest, hn⟩ := List.exists_cons_of_ne_nil hnodes
    have hidx : (env.FindAllString eth2.addressPattern out (-1))[1]? = none :=
      List.getElem?_eq_none (by omega)
    obtain ⟨s1, h1⟩ := forNodes_all_nil (eth2.npmTask env) (eth2_npmTask_nil env out hout)
      (env.schedule (s.trace ++ [Event.call "helpers.CreateConfigs"
        ["/eth2/smartcontracts/validator_registration.v.py"]]) tn.NewlyBuiltNodes)
      { s with trace := s.trace ++ [Event.call "helpers.CreateConfigs"
          ["/eth2/smartcontracts/validator_registration.v.py"]] ++
          [Event.AllNewNodeExecCon] }
    simp only [eth2.DeploySmartContract, hn, List.getElem?_cons_zero, bind, Run.bind,
      helperCall, hhelper, AllNewNodeExecCon, h1, remoteExec, hout, hidx, Run.panic]

/-- C13 in the environment where no pattern matches anything, on a network of two
nodes. -/
theorem scrape_absent_pattern_panics_witness :
    (noMatchEnv.FindAllString ethclassic.enodePattern "enode://ab@[::]:30303\n" 1 = [] →
      (ethclassic.initGeth noMatchEnv EtcConf.zero ⟨0, "10.0.0.0"⟩
        (St.init BuildState.fresh)).1 = Res.panic) ∧
    (noMatchEnv.FindAllString polkadot.nodeIDPattern "enode://ab@[::]:30303\n" 1 = [] →
      (polkadot.nodeIDTask noMatchEnv ⟨0, "10.0.0.0"⟩ (St.init BuildState.fresh)).1 =
        Res.panic) ∧
    ((noMatchEnv.FindAllString eth2.addressPattern "enode://ab@[::]:30303\n" (-1)).length < 2 →
      (eth2.DeploySmartContract noMatchEnv (demoNet 2) (St.init BuildState.fresh)).1 =
        Res.panic) :=
  scrape_absent_pattern_panics noMatchEnv (demoNet 2) EtcConf.zero ⟨0, "10.0.0.0"⟩
    (St.init BuildState.fresh) "enode://ab@[::]:30303\n" (fun _ _ _ => rfl)
    (fun _ _ _ => rfl) (by decide)

/-- The three scraping sites evaluated where no pattern matches: each run panics, and
so do the ethclassic and polkadot builds. -/
theorem scrape_absent_eval :
    (ethclassic.initGeth noMatchEnv EtcConf.zero ⟨0, "10.0.0.0"⟩
      (St.init BuildState.fresh)).1 = Res.panic ∧
    (polkadot.nodeIDTask noMatchEnv ⟨0, "10.0.0.0"⟩ (St.init BuildState.fresh)).1 =
      Res.panic ∧
    (eth2.DeploySmartContract noMatchEnv (demoNet 2) (St.init BuildState.fresh)).1 =
      Res.panic ∧
    (ethclassic.build noMatchEnv (demoNet 2) (St.init BuildState.fresh)).1 = Res.panic ∧
    (polkadot.build noMatchEnv (demoNet 2) (St.init BuildState.fresh)).1 = Res.panic := by
  decide!

theorem countExecOn_append (kind : ExecKind) (n : Nat) (a b : List Event) :
    countExecOn kind n (a ++ b) = countExecOn kind n a + countExecOn kind n b := by
  simp [countExecOn]

/-- The inner node-executor run of the "Starting polkadot" phase over a list of nodes:
one start command per node of the list, nil. -/
theorem polkadot_startInner_run (env : Env) (nid : String) :
    ∀ (l : List Node) (s : St),
      ∃ s1, forNodes (polkadot.startInner env nid) l s = (Res.ok none, s1) ∧
        s1.trace = s.trace ++ l.map (fun node =>
          Event.exec ExecKind.DockerExecdLog node.AbsoluteNumber
            ("polkadot --reserved-nodes " ++ nid)) := by
  intro l
  induction l with
  | nil => intro s; exact ⟨s, rfl, by simp⟩
  | cons node l ih =>
    intro s
    obtain ⟨s2, h2, htr⟩ := ih
      { s with trace := s.trace ++
          [Event.exec ExecKind.DockerExecdLog node.AbsoluteNumber
            ("polkadot --reserved-nodes " ++ nid)] }
    refine ⟨s2, ?_, ?_⟩
    · have h1 : polkadot.startInner env nid node s = (Res.ok none,
          { s with trace := s.trace ++
              [Event.exec ExecKind.DockerExecdLog node.AbsoluteNumber
                ("polkadot --reserved-nodes " ++ nid)] }) := by
        simp only [polkadot.startInner, bind, Run.bind, remoteExec, pure, Run.pure]
      simp only [forNodes, h1, h2]
    · rw [htr]
      simp

theorem countExec_map_exec (kind : ExecKind) (cmd : String) (l : List Node) :
    countExec kind (l.map (fun node => Event.exec kind node.AbsoluteNumber cmd)) =
      l.length := by
  induction l with
  | nil => rfl
  | cons node l ih =>
    simp only [countExec, List.map_cons, List.filter_cons, beq_self_eq_true, if_true,
      List.length_cons] at ih ⊢
    rw [ih]

theorem countExecOn_map_exec (kind : ExecKind) (cmd : String) (n : Nat) (l : List Node) :
    countExecOn kind n (l.map (fun node => Event.exec kind node.AbsoluteNumber cmd)) =
      (l.map (fun node => node.AbsoluteNumber)).count n := by
  induction l with
  | nil => rfl
  | cons node l ih =>
    simp only [countExecOn, List.map_cons, List.filter_cons, beq_self_eq_true,
      Bool.true_and, List.count_cons] at ih ⊢
    by_cases h : node.AbsoluteNumber = n
    · simp only [h, beq_self_eq_true, if_true, List.length_cons]
      rw [ih]
    · have hb : (node.AbsoluteNumber == n) = false := by simpa using h
      simp only [hb, if_false, Bool.false_eq_true]
      rw [ih]
      simp

theorem countIncrements_map_exec (kind : ExecKind) (cmd : String) (l : List Node) :
    countIncrements (l.map (fun node => Event.exec kind node.AbsoluteNumber cmd)) = 0 := by
  induction l with
  | nil => rfl
  | cons node l ih =>
    simp only [countIncrements, List.map_cons, List.filter_cons] at ih ⊢
    simp

/-- One outer task of the "Starting polkadot" phase: it sends the start command to
every node of the network and increments the progress once. -/
theorem polkadot_startTask_run (env : Env) (tn : TestNet) (nid : String)
    (hsched : ∀ tr, (env.schedule tr tn.Nodes).Perm tn.Nodes) (n : Nat)
    (node : Node) (s : St) :
    ∃ s1, polkadot.startTask env tn nid node s = (Res.ok none, s1) ∧
      countExec ExecKind.DockerExecdLog s1.trace =
        countExec ExecKind.DockerExecdLog s.trace + tn.Nodes.length ∧
      countExecOn ExecKind.DockerExecdLog n s1.trace =
        countExecOn ExecKind.DockerExecdLog n s.trace +
          (tn.Nodes.map (fun x => x.AbsoluteNumber)).count n ∧
      countIncrements s1.trace = countIncrements s.trace + 1 := by
  obtain ⟨s1, h1, htr⟩ := polkadot_startInner_run env nid (env.schedule s.trace tn.Nodes)
    { s with trace := s.trace ++ [Event.AllNodeExecCon] }
  have hrun : polkadot.startTask env tn nid node s =
      (Res.ok none,
        { s1 with trace := s1.trace ++ [Event.IncrementBuildProgress]
                  bs := { s1.bs with completedSteps := s1.bs.completedSteps + 1 } }) := by
    simp only [polkadot.startTask, AllNodeExecCon, bind, Run.bind, h1, orReturn,
      IncrementBuildProgress, pure, Run.pure]
  refine ⟨_, hrun, ?_, ?_, ?_⟩
  · show countExec _ (s1.trace ++ [Event.IncrementBuildProgress]) = _
    rw [htr]
    simp only [countExec_append, countExec_map_exec, (hsched s.trace).length_eq]
    simp [countExec]
  · show countExecOn _ _ (s1.trace ++ [Event.IncrementBuildProgress]) = _
    rw [htr]
    simp only [countExecOn_append, countExecOn_map_exec,
      ((hsched s.trace).map (fun x => x.AbsoluteNumber)).count_eq]
    simp [countExecOn]
  · show countIncrements (s1.trace ++ [Event.IncrementBuildProgress]) = _
    rw [htr]
    simp only [countIncrements_append, countIncrements_map_exec]
    simp [countIncrements]

/-- The outer tasks of the "Starting polkadot" phase over a list of nodes. -/
theorem polkadot_startTasks_run (env : Env) (tn : TestNet) (nid : String)
    (hsched : ∀ tr, (env.schedule tr tn.Nodes).Perm tn.Nodes) (n : Nat) :
    ∀ (l : List Node) (s : St),
      ∃ s1, forNodes (polkadot.startTask env tn nid) l s = (Res.ok none, s1) ∧
        countExec ExecKind.DockerExecdLog s1.trace =
          countExec ExecKind.DockerExecdLog s.trace + l.length * tn.Nodes.length ∧
        countExecOn ExecKind.DockerExecdLog n s1.trace =
          countExecOn ExecKind.DockerExecdLog n s.trace +
            l.length * (tn.Nodes.map (fun x => x.AbsoluteNumber)).count n ∧
        countIncrements s1.trace = countIncrements s.trace + l.length := by
  intro l
  induction l with
  | nil => intro s; exact ⟨s, rfl, by simp, by simp, by simp⟩
  | cons node l ih =>
    intro s
    obtain ⟨s1, h1, a1, b1, c1⟩ := polkadot_startTask_run env tn nid hsched n node s
    obtain ⟨s2, h2, a2, b2, c2⟩ := ih s1
    refine ⟨s2, by simp only [forNodes, h1, h2], ?_, ?_, ?_⟩
    · rw [a2, a1, List.length_cons]
      ring
    · rw [b2, b1, List.length_cons]
      ring
    · rw [c2, c1, List.length_cons]
      ring

/-- C20: the "Starting polkadot" phase of the polkadot build on a network of `N`
nodes, whatever the peer list: the phase returns nil having issued the start command
`N * N` times in all, `N` times (not once) to a node whose absolute number is that
of no other node, and having incremented the progress `N` times. The claim's one
command per node holds only for `N ≤ 1`. -/
theorem polkadot_start_executions (env : Env) (tn : TestNet) (nid : String) (N : Nat)
    (s : St) (hN : tn.Nodes.length = N)
    (hsched : ∀ tr, (env.schedule tr tn.Nodes).Perm tn.Nodes)
    (hnodup : (tn.Nodes.map (fun x => x.AbsoluteNumber)).Nodup) :
    ∃ s1, AllNodeExecCon env tn (polkadot.startTask env tn nid) s = (Res.ok none, s1) ∧
      countExec ExecKind.DockerExecdLog s1.trace =
        countExec ExecKind.DockerExecdLog s.trace + N * N ∧
      (∀ node ∈ tn.Nodes,
        countExecOn ExecKind.DockerExecdLog node.AbsoluteNumber s1.trace =
          countExecOn ExecKind.DockerExecdLog node.AbsoluteNumber s.trace + N) ∧
      countIncrements s1.trace = countIncrements s.trace + N := by
  have hlen : (env.schedule s.trace tn.Nodes).length = N := by
    rw [(hsched s.trace).length_eq, hN]
  have key : ∀ n, ∃ s1,
      AllNodeExecCon env tn (polkadot.startTask env tn nid) s = (Res.ok none, s1) ∧
      countExec ExecKind.DockerExecdLog s1.trace =
        countExec ExecKind.DockerExecdLog s.trace + N * N ∧
      countExecOn ExecKind.DockerExecdLog n s1.trace =
        countExecOn ExecKind.DockerExecdLog n s.trace +
          N * (tn.Nodes.map (fun x => x.AbsoluteNumber)).count n ∧
      countIncrements s1.trace = countIncrements s.trace + N := by
    intro n
    obtain ⟨s1, h1, a1, b1, c1⟩ := polkadot_startTasks_run env tn nid hsched n
      (env.schedule s.trace tn.Nodes) { s with trace := s.trace ++ [Event.AllNodeExecCon] }
    refine ⟨s1, h1, ?_, ?_, ?_⟩
    · rw [a1, hlen, hN]
      simp [countExec_append, countExec]
    · rw [b1, hlen]
      simp [countExecOn_append, countExecOn]
    · rw [c1, hlen]
      simp [countIncrements_append, countIncrements]
  obtain ⟨s1, h1, a1, _, c1⟩ := key 0
  refine ⟨s1, h1, a1, ?_, c1⟩
  intro node hnode
  obtain ⟨s2, h2, _, b2, _⟩ := key node.AbsoluteNumber
  have hs : s2 = s1 := by
    have := h2.symm.trans h1
    exact (Prod.mk.inj this).2
  subst hs
  have hcount : (tn.Nodes.map (fun x => x.AbsoluteNumber)).count node.AbsoluteNumber = 1 :=
    List.count_eq_one_of_mem hnodup (List.mem_map_of_mem _ hnode)
  rw [b2, hcount, Nat.mul_one]

/-- C20 on the network of two nodes: four start commands, two to each node, two
progress increments. -/
theorem polkadot_start_executions_witness :
    ∃ s1, AllNodeExecCon okEnv (demoNet 2)
          (polkadot.startTask okEnv (demoNet 2) "/ip4/10.0.0.0/tcp/30333/p2p/a")
          (St.init BuildState.fresh) = (Res.ok none, s1) ∧
      countExec ExecKind.DockerExecdLog s1.trace =
        countExec ExecKind.DockerExecdLog (St.init BuildState.fresh).trace + 2 * 2 ∧
      (∀ node ∈ (demoNet 2).Nodes,
        countExecOn ExecKind.DockerExecdLog node.AbsoluteNumber s1.trace =
          countExecOn ExecKind.DockerExecdLog node.AbsoluteNumber
            (St.init BuildState.fresh).trace + 2) ∧
      countIncrements s1.trace = countIncrements (St.init BuildState.fresh).trace + 2 :=
  polkadot_start_executions okEnv (demoNet 2) "/ip4/10.0.0.0/tcp/30333/p2p/a" 2
    (St.init BuildState.fresh) (by decide) (fun _ => List.Perm.refl _) (by decide)

/-- The whole polkadot build on two nodes where every command succeeds: it returns nil
with six daemon commands in the trace, the two of "Initializing polkadot" and four
start commands, two of them on node 0. -/
theorem polkadot_build_eval :
    (polkadot.build okEnv (demoNet 2) (St.init BuildState.fresh)).1 = Res.ok none ∧
    countExec ExecKind.DockerExecdLog
      (polkadot.build okEnv (demoNet 2) (St.init BuildState.fresh)).2.trace = 6 ∧
    countExecOn ExecKind.DockerExecdLog 0
      (polkadot.build okEnv (demoNet 2) (St.init BuildState.fresh)).2.trace = 3 := by
  decide!

end Polkadot


section Consensus

/-! ## The default case of the consensus switch -/

theorem endUnknown_bind {α : Type} (msg : Error) (m : Run α)
    (f : α → Run (Option Error)) (g : α → Run (Error ⊕ (ParityConf × List String)))
    (h : ∀ a s, f a s = parity.endUnknown msg (g a s)) :
    ∀ s, Run.bind m f s = parity.endUnknown msg (Run.bind m g s) := by
  intro s
  unfold Run.bind
  rcases hm : m s with ⟨r, s1⟩
  cases r with
  | ok a => exact h a s1
  | panic => rfl
  | hang => rfl

theorem endUnknown_match (msg : Error) (err : Option Error)
    (f : Run (Option Error)) (g : Run (Error ⊕ (ParityConf × List String)))
    (h : ∀ s, f s = parity.endUnknown msg (g s)) :
    ∀ s, (match err with
        | some e => Run.pure (some (LogError e))
        | none => f : Run (Option Error)) s =
      parity.endUnknown msg
        ((match err with
          | some e => Run.pure (Sum.inl (LogError e))
          | none => g : Run (Error ⊕ (ParityConf × List String))) s) := by
  intro s
  cases err with
  | some e => rfl
  | none => exact h s

theorem endUnknown_pure (msg : Error) (x : ParityConf × List String) :
    ∀ s, (Run.pure (some (LogError msg)) : Run (Option Error)) s =
      parity.endUnknown msg (Run.pure (Sum.inr x) s) := by
  intro s
  rfl

/-- C14: the default case of the consensus switch, for every environment, network and
start state. If the configured consensus is neither "ethash" nor "poa", the run of
`build` is the run of its statements before the switch followed by a return: where
they reach the switch the result is the error "Unknown consensus ..." in the state
they leave, where one of them returns an error that error is the result, and nil is
never returned. If the consensus stored by the previous build is neither "ethash" nor
"poa", the same holds of `add`, whatever the configured consensus, which is the one
its message names. In both cases no setup, account import, daemon start, enode
collection or peering takes place. -/
theorem unknown_consensus_stops (env : Env) (tn : TestNet) (s : St) :
    (env.parityNewConf.1.Consensus ≠ "ethash" → env.parityNewConf.1.Consensus ≠ "poa" →
      parity.build env tn s =
        parity.endUnknown ("Unknown consensus " ++ env.parityNewConf.1.Consensus)
          (parity.buildEarly env tn s) ∧
      (∀ x s1, parity.buildEarly env tn s = (Res.ok (Sum.inr x), s1) →
        parity.build env tn s =
          (Res.ok (some ("Unknown consensus " ++ env.parityNewConf.1.Consensus)), s1)) ∧
      (parity.build env tn s).1 ≠ Res.ok none) ∧
    (parity.storedConsensus s.bs ≠ "ethash" → parity.storedConsensus s.bs ≠ "poa" →
      parity.add env tn s =
        parity.endUnknown ("Unknown consensus " ++ env.parityNewConf.1.Consensus)
          (parity.addEarly env tn s) ∧
      (∀ x s1, parity.addEarly env tn s = (Res.ok (Sum.inr x), s1) →
        parity.add env tn s =
          (Res.ok (some ("Unknown consensus " ++ env.parityNewConf.1.Consensus)), s1)) ∧
      (parity.add env tn s).1 ≠ Res.ok none) := by
  constructor
  · intro hb1 hb2
    have hb : parity.build env tn s =
        parity.endUnknown ("Unknown consensus " ++ env.parityNewConf.1.Consensus)
          (parity.buildEarly env tn s) := by
      have hc : ∀ wallets, parity.chooseSetup env env.parityNewConf.1 wallets = none := by
        intro wallets
        simp only [parity.chooseSetup, if_neg hb1, if_neg hb2]
      simp only [parity.build, parity.buildEarly, bind, Run.bind, newMutex, parity.newConf,
        orReturn, pure, hc]
      repeat' (first
        | exact endUnknown_pure _ _ _
        | apply endUnknown_match
        | apply endUnknown_bind
        | intro _)
    refine ⟨hb, ?_, ?_⟩
    · intro x s1 hearly
      rw [hb, hearly]
      rfl
    · rw [hb]
      rcases parity.buildEarly env tn s with ⟨r, s1⟩
      rcases r with (e | x) | _ | _ <;> simp [parity.endUnknown]
  · intro ha1 ha2
    have ha : parity.add env tn s =
        parity.endUnknown ("Unknown consensus " ++ env.parityNewConf.1.Consensus)
          (parity.addEarly env tn s) := by
      simp only [parity.storedConsensus] at ha1 ha2
      simp only [parity.add, parity.addEarly, bind, Run.bind, newMutex, parity.newConf,
        IncrementBuildProgress, SetBuildStage, BuildState.GetP, SetBuildSteps,
        orReturn, pure]
      rcases hget : GoMap.get? s.bs.artifacts "etcconf" with _ | v
      · rw [hget] at ha1 ha2
        simp only [parity.chooseNewSetup, if_neg ha1, if_neg ha2]
        repeat' (first
          | exact endUnknown_pure _ _ _
          | apply endUnknown_match
          | apply endUnknown_bind
          | intro _)
      · rw [hget] at ha1 ha2
        cases v <;>
        · simp only [parity.chooseNewSetup, if_neg ha1, if_neg ha2]
          repeat' (first
            | exact endUnknown_pure _ _ _
            | apply endUnknown_match
            | apply endUnknown_bind
            | intro _)
    refine ⟨ha, ?_, ?_⟩
    · intro x s1 hearly
      rw [ha, hearly]
      rfl
    · rw [ha]
      rcases parity.addEarly env tn s with ⟨r, s1⟩
      rcases r with (e | x) | _ | _ <;> simp [parity.endUnknown]

/-- C14 at concrete runs, every command succeeding: the build of two nodes with the
configured consensus "clique" ends with "Unknown consensus clique"; the add of nodes
2 and 3 with the stored consensus "clique" and the valid configured consensus
"ethash" ends with "Unknown consensus ethash", as it does with "poa" configured and
no stored configuration at all. -/
theorem unknown_consensus_stops_witness :
    (parity.build cliqueEnv (demoNet 2) (St.init BuildState.fresh)).1 =
      Res.ok (some "Unknown consensus clique") ∧
    (parity.add okEnv addNet (St.init (storedState "clique"))).1 =
      Res.ok (some "Unknown consensus ethash") ∧
    (parity.add poaEnv addNet (St.init BuildState.fresh)).1 =
      Res.ok (some "Unknown consensus poa") :=
  ⟨by
      rw [((unknown_consensus_stops cliqueEnv (demoNet 2) (St.init BuildState.fresh)).1
        (by decide) (by decide)).1]
      decide!,
    by
      rw [((unknown_consensus_stops okEnv addNet (St.init (storedState "clique"))).2
        (by decide) (by decide)).1]
      decide!,
    by
      rw [((unknown_consensus_stops poaEnv addNet (St.init BuildState.fresh)).2
        (by decide) (by decide)).1]
      decide!⟩

/-- The runs of the C14 witness evaluated: both end with the error "Unknown consensus
clique", with no daemon started, no enode requested and no peer added; and `add`
with the stored consensus "clique" but the configured consensus "ethash" ends with
"Unknown consensus ethash". -/
theorem unknown_consensus_eval :
    (parity.build cliqueEnv (demoNet 2) (St.init (storedState "clique"))).1 =
      Res.ok (some "Unknown consensus clique") ∧
    (parity.add cliqueEnv (demoNet 2) (St.init (storedState "clique"))).1 =
      Res.ok (some "Unknown consensus clique") ∧
    (parity.add okEnv (demoNet 2) (St.init (storedState "clique"))).1 =
      Res.ok (some "Unknown consensus ethash") ∧
    hasExec ExecKind.DockerRunMainDaemon
      (parity.build cliqueEnv (demoNet 2) (St.init (storedState "clique"))).2.trace = false ∧
    hasExec ExecKind.KeepTryRun
      (parity.build cliqueEnv (demoNet 2) (St.init (storedState "clique"))).2.trace = false ∧
    hasExec ExecKind.Run
      (parity.build cliqueEnv (demoNet 2) (St.init (storedState "clique"))).2.trace = false ∧
    hasExec ExecKind.DockerRunMainDaemon
      (parity.add cliqueEnv (demoNet 2) (St.init (storedState "clique"))).2.trace = false ∧
    hasExec ExecKind.KeepTryRun
      (parity.add cliqueEnv (demoNet 2) (St.init (storedState "clique"))).2.trace = false ∧
    hasExec ExecKind.Run
      (parity.add cliqueEnv (demoNet 2) (St.init (storedState "clique"))).2.trace = false := by
  decide!

end Consensus


section AddKeys

/-! ## The shared results of the add-node tasks -/

/-- C17: in the parity `add` the wallets are appended in the order in which the wallet
tasks take effect and then read at position `abs % LDD.Nodes`; they are not keyed by
the node's absolute number. With the new nodes 2 and 3 (`LDD.Nodes` = 2), every
command succeeding and the command on node `n` answering "w" ++ n: when the tasks
take effect in the order 3, 2 the operation returns nil having started the daemon of
node 2 with the wallet created on node 3 and that of node 3 with the wallet created
on node 2; in node order each node gets its own. With the new nodes 2 and 4 both
enodes go to slot 0 of the two-slot list: the later one overwrites the earlier one
and slot 1 stays empty. -/
theorem add_results_not_keyed_by_node :
    (parity.add reverseEnv addNet (St.init (storedState "ethash"))).1 = Res.ok none ∧
    (reverseEnv.remote [] ExecKind.DockerExec ⟨2, "10.0.0.2"⟩
      "parity --base-path=/parity/ --password=/parity/passwd account new").1 = "w2\n" ∧
    (reverseEnv.remote [] ExecKind.DockerExec ⟨3, "10.0.0.3"⟩
      "parity --base-path=/parity/ --password=/parity/passwd account new").1 = "w3\n" ∧
    daemonCommands (parity.add reverseEnv addNet (St.init (storedState "ethash"))).2.trace =
      [(3, "parity --author=w2 -c /parity/config.toml --chain=/parity/spec.json"),
       (2, "parity --author=w3 -c /parity/config.toml --chain=/parity/spec.json")] ∧
    daemonCommands (parity.add inOrderEnv addNet (St.init (storedState "ethash"))).2.trace =
      [(2, "parity --author=w2 -c /parity/config.toml --chain=/parity/spec.json"),
       (3, "parity --author=w3 -c /parity/config.toml --chain=/parity/spec.json")] ∧
    (parity.add reverseEnv gapNet (St.init (storedState "ethash"))).1 = Res.ok none ∧
    (parity.add reverseEnv gapNet (St.init (storedState "ethash"))).2.slices Slice.enodes =
      ["w2\n", ""] ∧
    (parity.add inOrderEnv gapNet (St.init (storedState "ethash"))).2.slices Slice.enodes =
      ["w4\n", ""] := by
  decide!

end AddKeys


section Alphabet

set_option linter.unusedTactic false
set_option linter.unreachableTactic false
set_option linter.unusedVariables false
set_option maxHeartbeats 1000000

variable {α β : Type} {P : Event → Prop}

/-! ## Events by class: per-node tasks -/

theorem parity_createWallet_alphabet (env : Env) (node : Node)
    (hL : ∀ e, e.isLocal = true → P e)
    (hX : ∀ kind cmd, kind ≠ ExecKind.Run → kind ≠ ExecKind.KeepTryRun →
      P (Event.exec kind node.AbsoluteNumber cmd)) :
    Emits P (parity.createWallet env node) := by
  unfold parity.createWallet
  repeat' (first
    | exact Emits.runPure _
    | exact Emits.pure _
    | apply Emits.orReturn
    | apply Emits.bind
    | (apply Emits.remoteExec; exact hX _ _ (by decide) (by decide))
    | (apply Emits.Lock; exact hL _ rfl)
    | (apply Emits.Unlock; exact hL _ rfl)
    | (apply Emits.IncrementBuildProgress; exact hL _ rfl)
    | apply Emits.storeSlice
    | intro _
    | dsimp only
    | split)

theorem parity_importLoop_alphabet (env : Env) (node : Node)
    (hL : ∀ e, e.isLocal = true → P e)
    (hX : ∀ kind cmd, kind ≠ ExecKind.Run → kind ≠ ExecKind.KeepTryRun →
      P (Event.exec kind node.AbsoluteNumber cmd))
    (rawWallets : List String) :
    ∀ i, Emits P (parity.importLoop env node rawWallets i) := by
  induction rawWallets with
  | nil => intro i; exact Emits.runPure _
  | cons x rest ih =>
    intro i
    unfold parity.importLoop
    repeat' (first
      | exact ih _
      | exact Emits.runPure _
      | exact Emits.pure _
      | apply Emits.orReturn
      | apply Emits.bind
      | (apply Emits.remoteExec; exact hX _ _ (by decide) (by decide))
      | intro _
      | dsimp only)

theorem parity_importWallets_alphabet (env : Env) (node : Node)
    (hL : ∀ e, e.isLocal = true → P e)
    (hX : ∀ kind cmd, kind ≠ ExecKind.Run → kind ≠ ExecKind.KeepTryRun →
      P (Event.exec kind node.AbsoluteNumber cmd)) :
    Emits P (parity.importWallets env node) := by
  unfold parity.importWallets
  repeat' (first
    | exact parity_importLoop_alphabet env node hL hX _ _
    | exact Emits.runPure _
    | exact Emits.pure _
    | apply Emits.orReturn
    | apply Emits.bind
    | (apply Emits.IncrementBuildProgress; exact hL _ rfl)
    | apply Emits.readSlice
    | intro _
    | dsimp only)

theorem parity_startDaemon_alphabet (env : Env) (node : Node)
    (hL : ∀ e, e.isLocal = true → P e)
    (hX : ∀ kind cmd, kind ≠ ExecKind.Run → kind ≠ ExecKind.KeepTryRun →
      P (Event.exec kind node.AbsoluteNumber cmd))
    (author : Option String) : Emits P (parity.startDaemon env node author) := by
  unfold parity.startDaemon
  repeat' (first
    | exact Emits.runPure _
    | exact Emits.pure _
    | exact Emits.panic
    | apply Emits.bind
    | (apply Emits.remoteExec; exact hX _ _ (by decide) (by decide))
    | (apply Emits.IncrementBuildProgress; exact hL _ rfl)
    | intro _
    | dsimp only
    | split)

theorem parity_enodeLoop_alphabet (env : Env) (node : Node)
    (hL : ∀ e, e.isLocal = true → P e)
    (hR : ∀ kind method params,
      P (Event.exec kind node.AbsoluteNumber (curl node.IP method params))) (k : Nat) :
    Emits P (parity.enodeLoop env node k) := by
  induction k with
  | zero => exact Emits.hang
  | succ k ih =>
    unfold parity.enodeLoop
    repeat' (first
      | exact ih
      | exact Emits.runPure _
      | exact Emits.pure _
      | apply Emits.bind
      | (apply Emits.remoteExec; exact hR _ _ _)
      | intro _
      | dsimp only
      | split)

theorem parity_collectEnode_alphabet (env : Env) (node : Node)
    (hL : ∀ e, e.isLocal = true → P e)
    (hR : ∀ kind method params,
      P (Event.exec kind node.AbsoluteNumber (curl node.IP method params)))
    (slot : Option Nat) : Emits P (parity.collectEnode env node slot) := by
  unfold parity.collectEnode
  repeat' (first
    | exact parity_enodeLoop_alphabet env node hL hR _
    | exact Emits.runPure _
    | exact Emits.pure _
    | exact Emits.panic
    | apply Emits.bind
    | (apply Emits.Lock; exact hL _ rfl)
    | (apply Emits.Unlock; exact hL _ rfl)
    | (apply Emits.IncrementBuildProgress; exact hL _ rfl)
    | apply Emits.storeSlice
    | intro _
    | dsimp only
    | split)

theorem parity_newConf_alphabet (env : Env) (hC : ∀ args, P (Event.call "newConf" args)) :
    Emits P (parity.newConf env) :=
  Emits.one (Event.call "newConf" []) (hC _) (fun _ => rfl)

theorem parity_specCall_alphabet (env : Env) (fn : String) (pconf : ParityConf)
    (wallets : List String) (hC : ∀ args, P (Event.call fn args)) :
    Emits P (parity.specCall env fn pconf wallets) :=
  Emits.one (Event.call fn wallets) (hC _) (fun _ => rfl)

theorem parity_setupPOA_alphabet (env : Env) (pconf : ParityConf) (wallets : List String)
    (hL : ∀ e, e.isLocal = true → P e) (hC : ∀ fn args, P (Event.call fn args)) :
    Emits P (parity.setupPOA env pconf wallets) := by
  unfold parity.setupPOA
  repeat' (first
    | exact parity_specCall_alphabet _ _ _ _ (hC _)
    | exact Emits.pure _
    | apply Emits.orReturn
    | apply Emits.bind
    | (apply Emits.helperCall; exact hC _ _)
    | intro _
    | dsimp only)

theorem parity_setupPOW_alphabet (env : Env) (pconf : ParityConf) (wallets : List String)
    (hL : ∀ e, e.isLocal = true → P e) (hC : ∀ fn args, P (Event.call fn args)) :
    Emits P (parity.setupPOW env pconf wallets) := by
  unfold parity.setupPOW
  repeat' (first
    | exact parity_specCall_alphabet _ _ _ _ (hC _)
    | exact Emits.pure _
    | apply Emits.orReturn
    | apply Emits.bind
    | (apply Emits.helperCall; exact hC _ _)
    | (apply Emits.IncrementBuildProgress; exact hL _ rfl)
    | intro _
    | dsimp only)

theorem parity_chooseSetup_alphabet (env : Env) (pconf : ParityConf)
    (wallets : List String) (run : Run (Option Error))
    (hL : ∀ e, e.isLocal = true → P e) (hC : ∀ fn args, P (Event.call fn args))
    (h : parity.chooseSetup env pconf wallets = some run) : Emits P run := by
  unfold parity.chooseSetup at h
  split at h
  · cases h; exact parity_setupPOW_alphabet _ _ _ hL hC
  · split at h
    · cases h; exact parity_setupPOA_alphabet _ _ _ hL hC
    · cases h

end Alphabet


section Barrier

set_option linter.unusedTactic false
set_option linter.unreachableTactic false
set_option linter.unusedVariables false

variable {α β : Type} {P : Event → Prop}

/-! ## The barrier between enode collection and peering in the parity build -/

theorem reaches_of_emits {Q : Res α × St → Prop} {m : Run α} (h : Emits P m) :
    Reaches P Q m :=
  ⟨fun s => Or.inl (h.out s)⟩

theorem reaches_bind {Q : Res β × St → Prop} {m : Run α} {f : α → Run β}
    (hm : Emits P m) (hf : ∀ a, Reaches P Q (f a)) : Reaches P Q (m >>= f) := by
  constructor
  intro s
  obtain ⟨e1, h1, hp1⟩ := hm.out s
  show (∃ evs, (Run.bind m f s).2.trace = s.trace ++ evs ∧ ∀ e ∈ evs, P e) ∨
    Q (Run.bind m f s)
  unfold Run.bind
  rcases hms : m s with ⟨r, s1⟩
  rw [hms] at h1
  simp only at h1
  cases r with
  | ok a =>
    rcases (hf a).out s1 with ⟨e2, h2, hp2⟩ | hq
    · left
      refine ⟨e1 ++ e2, ?_, ?_⟩
      · simp only [h2, h1, List.append_assoc]
      · intro e he
        rcases List.mem_append.mp he with h | h
        · exact hp1 e h
        · exact hp2 e h
    · right
      exact hq
  | panic => exact Or.inl ⟨e1, h1, hp1⟩
  | hang => exact Or.inl ⟨e1, h1, hp1⟩

theorem reaches_orReturn {Q : Res (Option Error) × St → Prop} {err : Option Error}
    {rest : Run (Option Error)} (h : Reaches P Q rest) : Reaches P Q (orReturn err rest) := by
  cases err with
  | none => exact h
  | some e => exact reaches_of_emits (Emits.runPure _)

/-- A node-executor run that returns nil: its first task returned nil, and so did the
run of the remaining tasks. -/
theorem forNodes_nil_cons (f : Node → Run (Option Error)) (x : Node) (rest : List Node)
    (s s2 : St) (h : forNodes f (x :: rest) s = (Res.ok none, s2)) :
    ∃ s1, f x s = (Res.ok none, s1) ∧ forNodes f rest s1 = (Res.ok none, s2) := by
  rcases hx : f x s with ⟨r, s1⟩
  rcases hr : forNodes f rest s1 with ⟨r2, s3⟩
  unfold forNodes at h
  rw [hx] at h
  cases r with
  | ok err =>
    simp only at h
    rw [hr] at h
    cases r2 with
    | ok err2 =>
      simp only at h
      obtain ⟨h1, h2⟩ := Prod.mk.inj h
      cases err with
      | some e => simp at h1
      | none =>
        simp only at h1
        have h3 : err2 = none := by
          injection h1
        subst h3
        subst h2
        exact ⟨s1, rfl, hr⟩
    | panic => simp at h
    | hang => simp at h
  | panic => simp at h
  | hang =>
    simp only at h
    rw [hr] at h
    cases r2 <;> simp at h

/-- An enode the loop of the enode task returns without error was collected from the
node; the loop leaves the slices and the mutex as they were. -/
theorem parity_enodeLoop_value (env : Env) (node : Node) (k : Nat) :
    ∀ (s s1 : St) (v : String),
      parity.enodeLoop env node k s = (Res.ok (v, none), s1) →
      parity.collectedFrom env node v ∧ s1.slices = s.slices ∧
        s1.muxLocked = s.muxLocked := by
  induction k with
  | zero =>
    intro s s1 v h
    simp [parity.enodeLoop, Run.hang] at h
  | succ k ih =>
    intro s s1 v h
    simp only [parity.enodeLoop, bind, Run.bind, remoteExec, pure, Run.pure] at h
    rcases hr : (env.remote s.trace ExecKind.KeepTryRun node
      (curl node.IP "parity_enode" "")).2 with _ | e
    · rw [hr] at h
      simp only at h
      rcases hj : env.jsonUnmarshal (env.remote s.trace ExecKind.KeepTryRun node
        (curl node.IP "parity_enode" "")).1 with _ | e
      · rw [hj] at h
        simp only at h
        rcases hg : (env.GetJSONString (env.remote s.trace ExecKind.KeepTryRun node
          (curl node.IP "parity_enode" "")).1).2 with _ | e
        · rw [hg] at h
          simp only at h
          split at h
          · obtain ⟨hc, hs, hm⟩ := ih _ _ _ h
            exact ⟨hc, hs, hm⟩
          · rename_i hlen
            obtain ⟨h1, h2⟩ := Prod.mk.inj h
            have hv : (env.GetJSONString (env.remote s.trace ExecKind.KeepTryRun node
                (curl node.IP "parity_enode" "")).1).1 = v := by
              injection h1 with h1
              exact (Prod.mk.inj h1).1
            subst h2
            refine ⟨⟨?_, s.trace, hv.symm⟩, rfl, rfl⟩
            intro hempty
            apply hlen
            rw [hv, hempty]
            rfl
        · rw [hg] at h
          simp [Run.pure] at h
      · rw [hj] at h
        simp [Run.pure] at h
    · rw [hr] at h
      simp [Run.pure] at h

/-- An enode task that returns nil has written an address collected from its node to
its slot of the enodes list, and nothing else to that list. -/
theorem parity_collectEnode_nil (env : Env) (node : Node) (i : Nat) (s s1 : St)
    (h : parity.collectEnode env node (some i) s = (Res.ok none, s1)) :
    ∃ v, parity.collectedFrom env node v ∧ i < (s.slices Slice.enodes).length ∧
      s1.slices Slice.enodes = (s.slices Slice.enodes).set i v := by
  simp only [parity.collectEnode, bind, Run.bind] at h
  rcases hloop : parity.enodeLoop env node env.fuel s with ⟨r, s2⟩
  rw [hloop] at h
  cases r with
  | ok a =>
    obtain ⟨v, e⟩ := a
    cases e with
    | some e => simp [pure, Run.pure] at h
    | none =>
      obtain ⟨hc, hs, hm⟩ := parity_enodeLoop_value env node env.fuel s s2 v hloop
      refine ⟨v, hc, ?_⟩
      simp only [Run.bind, IncrementBuildProgress, Lock] at h
      by_cases hlock : s2.muxLocked = true
      · simp [hlock] at h
      · simp only [hlock, Bool.false_eq_true, if_false, storeSlice, hs] at h
        by_cases hi : i < (s.slices Slice.enodes).length
        · refine ⟨hi, ?_⟩
          simp only [hi, if_true, Unlock, pure, Run.pure] at h
          obtain ⟨_, h2⟩ := Prod.mk.inj h
          rw [← h2]
          simp
        · simp [hi] at h
  | panic => simp at h
  | hang => simp at h

/-- The enode tasks of a list of nodes with distinct absolute numbers, when the run
returns nil: the list keeps its length, the slot of every node of the list holds an
address collected from it, and the other slots are as before. -/
theorem parity_collectEnodes_nil (env : Env) :
    ∀ (l : List Node) (s s1 : St),
      (l.map (fun x => x.AbsoluteNumber)).Nodup →
      forNodes (fun node => parity.collectEnode env node (some node.AbsoluteNumber)) l s =
        (Res.ok none, s1) →
      (s1.slices Slice.enodes).length = (s.slices Slice.enodes).length ∧
      (∀ node ∈ l, ∃ v, (s1.slices Slice.enodes)[node.AbsoluteNumber]? = some v ∧
        parity.collectedFrom env node v) ∧
      (∀ i, i ∉ l.map (fun x => x.AbsoluteNumber) →
        (s1.slices Slice.enodes)[i]? = (s.slices Slice.enodes)[i]?) := by
  intro l
  induction l with
  | nil =>
    intro s s1 _ h
    simp only [forNodes, Run.pure] at h
    obtain ⟨_, h2⟩ := Prod.mk.inj h
    subst h2
    exact ⟨rfl, by simp, fun _ _ => rfl⟩
  | cons x rest ih =>
    intro s s1 hnd h
    obtain ⟨s2, hx, hrest⟩ := forNodes_nil_cons _ x rest s s1 h
    obtain ⟨v, hv, hi, hset⟩ := parity_collectEnode_nil env x x.AbsoluteNumber s s2 hx
    simp only [List.map_cons, List.nodup_cons] at hnd
    obtain ⟨hlen, hslots, hother⟩ := ih s2 s1 hnd.2 hrest
    refine ⟨?_, ?_, ?_⟩
    · rw [hlen, hset, List.length_set]
    · intro node hnode
      rcases List.mem_cons.mp hnode with rfl | hmem
      · refine ⟨v, ?_, hv⟩
        rw [hother _ hnd.1, hset]
        simp [hi]
      · exact hslots node hmem
    · intro i hi2
      simp only [List.map_cons, List.mem_cons, not_or] at hi2
      rw [hother i hi2.2, hset]
      exact List.getElem?_set_ne (Ne.symm hi2.1)

/-- From the allocation of the enodes list on, the parity build either appends no
start of a node-executor call over the new nodes, or reaches peering after a
collection that returned nil and filled every slot. -/
theorem parity_collection_reaches (env : Env) (tn : TestNet) (N : Nat)
    (pconf : ParityConf) (wallets : List String) (hN : tn.LDDNodes = (N : Int))
    (hdense : (tn.Nodes.map (fun x => x.AbsoluteNumber)).Perm (List.range N))
    (hsched : ∀ tr, (env.schedule tr tn.Nodes).Perm tn.Nodes) :
    Reaches (fun e : Event => e ≠ Event.AllNewNodeExecCon)
      (parity.broadcastAfterCollection env tn N)
      (makeSlice Slice.enodes tn.LDDNodes >>= fun _ =>
        AllNodeExecCon env tn
          (fun node => parity.collectEnode env node (some node.AbsoluteNumber)) >>= fun err =>
        orReturn err (parity.buildBroadcast env tn pconf wallets)) := by
  constructor
  intro s
  have hL : ∀ e : Event, e.isLocal = true → e ≠ Event.AllNewNodeExecCon := by
    intro e h he
    subst he
    cases h
  have hP : Emits (fun e : Event => e ≠ Event.AllNewNodeExecCon)
      (AllNodeExecCon env tn
        (fun node => parity.collectEnode env node (some node.AbsoluteNumber))) :=
    Emits.AllNodeExecCon env tn (by simp)
      (fun node => parity_collectEnode_alphabet env node hL (fun _ _ _ => by simp) _)
  obtain ⟨s1, hmk, hs1t, hs1e⟩ : ∃ s1, makeSlice Slice.enodes tn.LDDNodes s = (Res.ok (), s1) ∧
      s1.trace = s.trace ∧ s1.slices Slice.enodes = List.replicate N "" := by
    have hnn : ¬ ((N : Int) < 0) := by omega
    refine ⟨(assignSlice Slice.enodes (List.replicate N "") s).2, ?_, rfl, ?_⟩
    · simp only [makeSlice, hN, if_neg hnn, assignSlice, Int.toNat_ofNat]
    · simp [assignSlice]
  obtain ⟨evs, htr, hev⟩ := hP.out s1
  rcases hcol : AllNodeExecCon env tn
      (fun node => parity.collectEnode env node (some node.AbsoluteNumber)) s1 with ⟨r, sc⟩
  rw [hcol, hs1t] at htr
  simp only at htr
  have hrun : (makeSlice Slice.enodes tn.LDDNodes >>= fun _ =>
        AllNodeExecCon env tn
          (fun node => parity.collectEnode env node (some node.AbsoluteNumber)) >>= fun err =>
        orReturn err (parity.buildBroadcast env tn pconf wallets)) s =
      Run.bind (fun _ => (r, sc))
        (fun err => orReturn err (parity.buildBroadcast env tn pconf wallets)) s := by
    show Run.bind _ _ s = _
    unfold Run.bind
    rw [hmk]
    show Run.bind _ _ _ = _
    unfold Run.bind
    rw [hcol]
  rw [hrun]
  cases r with
  | ok err =>
    cases err with
    | some e => exact Or.inl ⟨evs, htr, hev⟩
    | none =>
      right
      refine ⟨_, sc, pconf, wallets, hcol, ?_, rfl⟩
      have hcol2 := hcol
      unfold AllNodeExecCon at hcol2
      have hperm := hsched s1.trace
      have hnd : ((env.schedule s1.trace tn.Nodes).map (fun x => x.AbsoluteNumber)).Nodup :=
        ((hperm.map _).trans hdense).nodup_iff.mpr (List.nodup_range N)
      obtain ⟨hlen, hslots, _⟩ := parity_collectEnodes_nil env _ _ _ hnd hcol2
      refine ⟨?_, ?_⟩
      · rw [hlen]
        show (s1.slices Slice.enodes).length = N
        rw [hs1e]
        simp
      · intro i hi
        have hi2 : i ∈ tn.Nodes.map (fun x => x.AbsoluteNumber) :=
          hdense.mem_iff.mpr (List.mem_range.mpr hi)
        obtain ⟨node, hnode, habs⟩ := List.mem_map.mp hi2
        obtain ⟨v, hv, hc⟩ := hslots node (hperm.mem_iff.mpr hnode)
        exact ⟨node, hnode, habs, v, by rw [← habs]; exact hv, hc⟩
  | panic => exact Or.inl ⟨evs, htr, hev⟩
  | hang => exact Or.inl ⟨evs, htr, hev⟩

/-- The parity build either never starts a node-executor call over the new nodes, or
reaches peering after a collection that returned nil and filled every slot. -/
theorem parity_build_reaches (env : Env) (tn : TestNet) (N : Nat)
    (hN : tn.LDDNodes = (N : Int))
    (hdense : (tn.Nodes.map (fun x => x.AbsoluteNumber)).Perm (List.range N))
    (hsched : ∀ tr, (env.schedule tr tn.Nodes).Perm tn.Nodes) :
    Reaches (fun e : Event => e ≠ Event.AllNewNodeExecCon)
      (parity.broadcastAfterCollection env tn N) (parity.build env tn) := by
  have hL : ∀ e : Event, e.isLocal = true → e ≠ Event.AllNewNodeExecCon := by
    intro e h he
    subst he
    cases h
  have hC : ∀ fn args, Event.call fn args ≠ Event.AllNewNodeExecCon := by
    intro fn args h
    cases h
  have hX : ∀ (node : Node) kind cmd,
      Event.exec kind node.AbsoluteNumber cmd ≠ Event.AllNewNodeExecCon := by
    intro node kind cmd h
    cases h
  have hA : Event.AllNodeExecCon ≠ Event.AllNewNodeExecCon := by
    intro h
    cases h
  unfold parity.build
  repeat' (first
    | exact parity_collection_reaches env tn N _ _ hN hdense hsched
    | exact reaches_of_emits (Emits.pure _)
    | exact reaches_of_emits (Emits.runPure _)
    | apply reaches_orReturn
    | apply reaches_bind
    | (apply parity_chooseSetup_alphabet _ _ _ _ hL hC; assumption)
    | exact parity_newConf_alphabet _ (hC _)
    | exact parity_createWallet_alphabet _ _ hL (fun _ _ _ _ => hX _ _ _)
    | exact parity_importWallets_alphabet _ _ hL (fun _ _ _ _ => hX _ _ _)
    | exact parity_startDaemon_alphabet _ _ hL (fun _ _ _ _ => hX _ _ _) _
    | exact Emits.newMutex
    | (apply Emits.helperCall; exact hC _ _)
    | (apply Emits.IncrementBuildProgress; exact hL _ rfl)
    | (apply Emits.SetBuildSteps; exact hL _ rfl)
    | (apply Emits.Sleep; exact hL _ rfl)
    | apply Emits.makeSlice
    | apply Emits.readSlice
    | (apply Emits.AllNodeExecCon; exact hA)
    | intro _
    | dsimp only
    | split)

/-- C16: in the parity build over `N` nodes whose absolute numbers are 0 .. N-1, each
once, on every path and for every outcome of the commands: either no node-executor
call over the new nodes is started, so `peerAllNodes` (the only place of `build`
that starts one) does not run; or the enode-collection call has returned nil,
leaving a state `sc` in which the enodes list has `N` slots of which slot `i` holds a
non-empty address collected from the node with absolute number `i`, and the run is
that of `buildBroadcast` from `sc`: it reads that list, stores the parameters and
calls `peerAllNodes` with it. -/
theorem parity_build_barrier (env : Env) (tn : TestNet) (N : Nat) (s : St)
    (hN : tn.LDDNodes = (N : Int))
    (hdense : (tn.Nodes.map (fun x => x.AbsoluteNumber)).Perm (List.range N))
    (hsched : ∀ tr, (env.schedule tr tn.Nodes).Perm tn.Nodes) :
    (∃ evs, (parity.build env tn s).2.trace = s.trace ++ evs ∧
      Event.AllNewNodeExecCon ∉ evs) ∨
    (∃ s0 sc pconf wallets,
      AllNodeExecCon env tn
        (fun node => parity.collectEnode env node (some node.AbsoluteNumber)) s0 =
          (Res.ok none, sc) ∧
      (sc.slices Slice.enodes).length = N ∧
      (∀ i, i < N → ∃ node ∈ tn.Nodes, node.AbsoluteNumber = i ∧
        ∃ v, (sc.slices Slice.enodes)[i]? = some v ∧ parity.collectedFrom env node v) ∧
      parity.build env tn s = parity.buildBroadcast env tn pconf wallets sc ∧
      parity.buildBroadcast env tn pconf wallets sc =
        (parity.storeParameters env tn pconf wallets (sc.slices Slice.enodes) >>= fun _ =>
          IncrementBuildProgress >>= fun _ =>
          parity.peerAllNodes env tn (sc.slices Slice.enodes)) sc) := by
  rcases (parity_build_reaches env tn N hN hdense hsched).out s with ⟨evs, htr, hev⟩ | hq
  · left
    exact ⟨evs, htr, fun h => hev _ h rfl⟩
  · right
    obtain ⟨s0, sc, pconf, wallets, hcol, ⟨hlen, hslots⟩, hrun⟩ := hq
    exact ⟨s0, sc, pconf, wallets, hcol, hlen, hslots, hrun, rfl⟩

/-- C16 on two nodes where every command succeeds. -/
theorem parity_build_barrier_witness :
    (∃ evs, (parity.build okEnv (demoNet 2) (St.init BuildState.fresh)).2.trace =
        (St.init BuildState.fresh).trace ++ evs ∧
      Event.AllNewNodeExecCon ∉ evs) ∨
    (∃ s0 sc pconf wallets,
      AllNodeExecCon okEnv (demoNet 2)
        (fun node => parity.collectEnode okEnv node (some node.AbsoluteNumber)) s0 =
          (Res.ok none, sc) ∧
      (sc.slices Slice.enodes).length = 2 ∧
      (∀ i, i < 2 → ∃ node ∈ (demoNet 2).Nodes, node.AbsoluteNumber = i ∧
        ∃ v, (sc.slices Slice.enodes)[i]? = some v ∧ parity.collectedFrom okEnv node v) ∧
      parity.build okEnv (demoNet 2) (St.init BuildState.fresh) =
        parity.buildBroadcast okEnv (demoNet 2) pconf wallets sc ∧
      parity.buildBroadcast okEnv (demoNet 2) pconf wallets sc =
        (parity.storeParameters okEnv (demoNet 2) pconf wallets
            (sc.slices Slice.enodes) >>= fun _ =>
          IncrementBuildProgress >>= fun _ =>
          parity.peerAllNodes okEnv (demoNet 2) (sc.slices Slice.enodes)) sc) :=
  parity_build_barrier okEnv (demoNet 2) 2 (St.init BuildState.fresh) rfl (by decide)
    (fun _ => List.Perm.refl _)

/-- The run of the C16 witness does reach peering, with both slots filled; and where
the collection fails on every node no peering is started. -/
theorem parity_build_barrier_eval :
    Event.AllNewNodeExecCon ∈
      (parity.build okEnv (demoNet 2) (St.init BuildState.fresh)).2.trace ∧
    (parity.build okEnv (demoNet 2) (St.init BuildState.fresh)).2.slices Slice.enodes =
      ["enode://ab@10.0.0.1:30303", "enode://ab@10.0.0.1:30303"] ∧
    Event.AllNewNodeExecCon ∉
      (parity.build (flakyEnv 5) (demoNet 2) (St.init BuildState.fresh)).2.trace := by
  decide!

end Barrier


section KeystoreMutex

/-! ## The mutex of the "Starting geth" task -/

/-- A keystore task started while the mutex is held blocks for ever. -/
theorem ethclassic_moveKeystore_blocked (env : Env) (etcconf : EtcConf) (node : Node)
    (s : St) (hheld : s.muxLocked = true) :
    ethclassic.moveKeystore env etcconf node s = (Res.hang, s) := by
  simp only [ethclassic.moveKeystore, bind, Run.bind, Lock, hheld, if_true]

/-- The keystore tasks of a non-empty list of nodes, started while the mutex is held,
never all return. -/
theorem ethclassic_moveKeystore_all_blocked (env : Env) (etcconf : EtcConf) :
    ∀ (l : List Node) (s : St), l ≠ [] → s.muxLocked = true →
      forNodes (ethclassic.moveKeystore env etcconf) l s = (Res.hang, s) := by
  intro l
  induction l with
  | nil => intro s h; exact absurd rfl h
  | cons node rest ih =>
    intro s _ hheld
    have h1 := ethclassic_moveKeystore_blocked env etcconf node s hheld
    cases rest with
    | nil => simp only [forNodes, h1, Run.pure]
    | cons node2 rest2 =>
      have h2 := ih s (List.cons_ne_nil _ _) hheld
      simp only [forNodes] at h2 ⊢
      simp only [h1, h2]

/-- C21: the first task of the "Starting geth" phase, started with the mutex free.
When the keystore move succeeds the task releases the mutex, whatever the later
command does. When the move fails with error `e` the task returns `e` right after
the command, without `Unlock`: the mutex stays held, every keystore task started
afterwards blocks for ever at `Lock`, and a node-executor run in which a further
task comes after the failing one never returns. -/
theorem moveKeystore_mutex (env : Env) (etcconf : EtcConf) (node : Node) (s : St)
    (hfree : s.muxLocked = false) :
    ((env.remote (s.trace ++ [Event.Lock]) ExecKind.DockerExec node
        (ethclassic.keystoreMove etcconf)).2 = none →
      (ethclassic.moveKeystore env etcconf node s).2.muxLocked = false) ∧
    (∀ e, (env.remote (s.trace ++ [Event.Lock]) ExecKind.DockerExec node
        (ethclassic.keystoreMove etcconf)).2 = some e →
      ∃ s1, ethclassic.moveKeystore env etcconf node s = (Res.ok (some (LogError e)), s1) ∧
        s1.muxLocked = true ∧
        s1.trace = s.trace ++ [Event.Lock,
          Event.exec ExecKind.DockerExec node.AbsoluteNumber
            (ethclassic.keystoreMove etcconf)] ∧
        (∀ node2, ethclassic.moveKeystore env etcconf node2 s1 = (Res.hang, s1)) ∧
        (∀ l, l ≠ [] →
          forNodes (ethclassic.moveKeystore env etcconf) (node :: l) s = (Res.hang, s1))) := by
  constructor
  · intro hok
    simp only [ethclassic.keystoreMove] at hok
    simp only [ethclassic.moveKeystore, bind, Run.bind, Lock, hfree, Bool.false_eq_true,
      if_false, remoteExec, hok, orReturn, Unlock, if_true]
    cases (env.remote
      (s.trace ++ [Event.Lock] ++
        [Event.exec ExecKind.DockerExec node.AbsoluteNumber
          ("mv /geth/mainnet/keystore/ /geth/" ++ etcconf.Identity ++ "/")] ++ [Event.Unlock])
      ExecKind.DockerExec node
      ("bash -c 'cd /geth/" ++ etcconf.Identity ++ "/keystore && cat $(ls | sed -n " ++
        toString (node.AbsoluteNumber + 1) ++ "p)'")).2 <;> rfl
  · intro e hfail
    simp only [ethclassic.keystoreMove] at hfail
    have hrun : ethclassic.moveKeystore env etcconf node s =
        (Res.ok (some (LogError e)),
          { s with
            trace := s.trace ++ [Event.Lock,
              Event.exec ExecKind.DockerExec node.AbsoluteNumber
                (ethclassic.keystoreMove etcconf)]
            muxLocked := true }) := by
      simp only [ethclassic.moveKeystore, bind, Run.bind, Lock, hfree, Bool.false_eq_true,
        if_false, remoteExec, hfail, orReturn, Run.pure, ethclassic.keystoreMove,
        List.append_assoc, List.singleton_append]
    refine ⟨_, hrun, rfl, rfl, ?_, ?_⟩
    · intro node2
      exact ethclassic_moveKeystore_blocked env etcconf node2 _ rfl
    · intro l hl
      have hrest := ethclassic_moveKeystore_all_blocked env etcconf l
        { s with
          trace := s.trace ++ [Event.Lock,
            Event.exec ExecKind.DockerExec node.AbsoluteNumber
              (ethclassic.keystoreMove etcconf)]
          muxLocked := true } hl rfl
      simp only [forNodes, hrun, hrest]

/-- C21 where every remote command fails, on node 0 of two. -/
theorem moveKeystore_mutex_witness :
    ((remoteFailEnv.remote ((St.init BuildState.fresh).trace ++ [Event.Lock])
        ExecKind.DockerExec ⟨0, "10.0.0.0"⟩ (ethclassic.keystoreMove EtcConf.zero)).2 = none →
      (ethclassic.moveKeystore remoteFailEnv EtcConf.zero ⟨0, "10.0.0.0"⟩
        (St.init BuildState.fresh)).2.muxLocked = false) ∧
    (∀ e, (remoteFailEnv.remote ((St.init BuildState.fresh).trace ++ [Event.Lock])
        ExecKind.DockerExec ⟨0, "10.0.0.0"⟩ (ethclassic.keystoreMove EtcConf.zero)).2 = some e →
      ∃ s1, ethclassic.moveKeystore remoteFailEnv EtcConf.zero ⟨0, "10.0.0.0"⟩
            (St.init BuildState.fresh) = (Res.ok (some (LogError e)), s1) ∧
        s1.muxLocked = true ∧
        s1.trace = (St.init BuildState.fresh).trace ++ [Event.Lock,
          Event.exec ExecKind.DockerExec (⟨0, "10.0.0.0"⟩ : Node).AbsoluteNumber
            (ethclassic.keystoreMove EtcConf.zero)] ∧
        (∀ node2, ethclassic.moveKeystore remoteFailEnv EtcConf.zero node2 s1 =
          (Res.hang, s1)) ∧
        (∀ l, l ≠ [] →
          forNodes (ethclassic.moveKeystore remoteFailEnv EtcConf.zero)
            (⟨0, "10.0.0.0"⟩ :: l) (St.init BuildState.fresh) = (Res.hang, s1))) :=
  moveKeystore_mutex remoteFailEnv EtcConf.zero ⟨0, "10.0.0.0"⟩ (St.init BuildState.fresh) rfl

/-- The ethclassic build on two nodes evaluated: where the keystore move fails on node
0 and node 1 comes after it, the build never returns; where node 1 comes first, the
build returns nil with the mutex still held; where every command succeeds, it
returns nil with the mutex free. -/
theorem ethclassic_build_keystore_eval :
    (ethclassic.build mvFailEnv (demoNet 2) (St.init BuildState.fresh)).1 = Res.hang ∧
    (ethclassic.build mvFailEnv (demoNet 2) (St.init BuildState.fresh)).2.muxLocked = true ∧
    (ethclassic.build mvFailLastEnv (demoNet 2) (St.init BuildState.fresh)).1 = Res.ok none ∧
    (ethclassic.build mvFailLastEnv (demoNet 2) (St.init BuildState.fresh)).2.muxLocked =
      true ∧
    (ethclassic.build okEnv (demoNet 2) (St.init BuildState.fresh)).1 = Res.ok none ∧
    (ethclassic.build okEnv (demoNet 2) (St.init BuildState.fresh)).2.muxLocked = false := by
  decide!

end KeystoreMutex


section GenesisFile

/-! ## The genesis file of ethclassic -/

theorem GoMap.mem_keys_set {V : Type} (m : GoMap V) (k k2 : String) (v : V) :
    k2 ∈ (GoMap.set m k v).map Prod.fst ↔ k2 = k ∨ k2 ∈ m.map Prod.fst := by
  induction m with
  | nil => simp [GoMap.set]
  | cons p rest ih =>
    obtain ⟨k1, v1⟩ := p
    by_cases h : k1 = k
    · subst h
      simp [GoMap.set]
    · simp only [GoMap.set, if_neg h, List.map_cons, List.mem_cons, ih]
      constructor
      · rintro (h1 | h1 | h1)
        · exact Or.inr (Or.inl h1)
        · exact Or.inl h1
        · exact Or.inr (Or.inr h1)
      · rintro (h1 | h1 | h1)
        · exact Or.inr (Or.inl h1)
        · exact Or.inl h1
        · exact Or.inr (Or.inr h1)

theorem GoMap.nodup_keys_set {V : Type} (m : GoMap V) (k : String) (v : V)
    (hnd : (m.map Prod.fst).Nodup) : ((GoMap.set m k v).map Prod.fst).Nodup := by
  induction m with
  | nil => simp [GoMap.set]
  | cons p rest ih =>
    obtain ⟨k1, v1⟩ := p
    simp only [List.map_cons, List.nodup_cons] at hnd
    by_cases h : k1 = k
    · subst h
      simp only [GoMap.set, if_true, List.map_cons, List.nodup_cons]
      exact hnd
    · simp only [GoMap.set, if_neg h, List.map_cons, List.nodup_cons]
      refine ⟨?_, ih hnd.2⟩
      intro hmem
      rcases (GoMap.mem_keys_set rest k k1 v).mp hmem with h1 | h1
      · exact h h1
      · exact hnd.1 h1

/-- The allocation loop from a map `m0`: an account's key gets the balance entry, other
keys keep what `m0` has; the keys stay distinct and are those of `m0` and of the
accounts. -/
theorem ethclassic_allocLoop (bal : String) (accounts : List Account) :
    ∀ (m0 : GoMap (GoMap String)),
      (∀ k, GoMap.get?
          (accounts.foldl
            (fun alloc account =>
              GoMap.set alloc (account.HexAddress.drop 2) [("balance", bal)]) m0) k =
        if k ∈ accounts.map (fun a => a.HexAddress.drop 2) then some [("balance", bal)]
        else GoMap.get? m0 k) ∧
      ((m0.map Prod.fst).Nodup →
        ((accounts.foldl
          (fun alloc account =>
            GoMap.set alloc (account.HexAddress.drop 2) [("balance", bal)]) m0).map
          Prod.fst).Nodup) ∧
      (∀ k, k ∈ (accounts.foldl
          (fun alloc account =>
            GoMap.set alloc (account.HexAddress.drop 2) [("balance", bal)]) m0).map
          Prod.fst ↔
        k ∈ m0.map Prod.fst ∨ k ∈ accounts.map (fun a => a.HexAddress.drop 2)) := by
  induction accounts with
  | nil =>
    intro m0
    simp
  | cons a rest ih =>
    intro m0
    obtain ⟨h1, h2, h3⟩ := ih (GoMap.set m0 (a.HexAddress.drop 2) [("balance", bal)])
    simp only [List.foldl_cons, List.map_cons, List.mem_cons]
    refine ⟨?_, ?_, ?_⟩
    · intro k
      rw [h1 k]
      by_cases hk : k ∈ rest.map (fun a => a.HexAddress.drop 2)
      · simp [hk]
      · by_cases hka : k = a.HexAddress.drop 2
        · subst hka
          simp [GoMap.get?_set_self]
        · rw [GoMap.get?_set_ne _ _ _ _ (Ne.symm hka)]
          simp [hk, hka]
    · intro hnd
      exact h2 (GoMap.nodup_keys_set _ _ _ hnd)
    · intro k
      rw [h3 k, GoMap.mem_keys_set]
      constructor
      · rintro ((h | h) | h)
        · exact Or.inr (Or.inl h)
        · exact Or.inl h
        · exact Or.inr (Or.inr h)
      · rintro (h | h | h)
        · exact Or.inl (Or.inr h)
        · exact Or.inl (Or.inl h)
        · exact Or.inr h

theorem drop_two_of_0x (h : String) : ("0x" ++ h).drop 2 = h := by
  rw [String.drop_eq]
  apply String.ext
  simp

theorem append_0x_injective : Function.Injective (fun k : String => "0x" ++ k) := by
  intro k1 k2 h
  have hd := congrArg String.data h
  simp only [String.data_append] at hd
  exact String.ext (List.append_cancel_left hd)

theorem zeros_length (n : Nat) : (zeros n).length = n := by
  simp [zeros, String.length]

/-- C22: `createGenesisfile` on accounts whose addresses are "0x" followed by digits.
With consensus "clique" and a first account of address "0x" ++ h, the extraData is
"0x", 64 zero digits, h, 130 zero digits (196 + len(h) characters, 236 for 40
digits), whatever the accounts after the first. For every consensus the alloc map
has distinct keys, holds the entry "balance": InitBalance under exactly the keys k
for which "0x" ++ k is the address of an account, and so has as many entries as there
are distinct addresses. When the extraData expression does not panic, the function
stores that map under "alloc", the configuration under "etcconf", and hands the
extraData to `helpers.CreateConfigs`, whose error it returns. -/
theorem createGenesisfile_extraData_alloc (env : Env) (etcconf : EtcConf)
    (accounts : List Account) (s : St)
    (haddr : ∀ a ∈ accounts, ∃ h, a.HexAddress = "0x" ++ h) :
    (etcconf.Consensus = "clique" → ∀ a rest, accounts = a :: rest →
      ∃ h, a.HexAddress = "0x" ++ h ∧
        ethclassic.genesisExtraData etcconf accounts =
          some ("0x" ++ zeros 64 ++ h ++ zeros 130) ∧
        ("0x" ++ zeros 64 ++ h ++ zeros 130).length = 196 + h.length ∧
        ∀ rest2, ethclassic.genesisExtraData etcconf (a :: rest2) =
          ethclassic.genesisExtraData etcconf accounts) ∧
    (∀ k, GoMap.get? (ethclassic.genesisAlloc etcconf accounts) k =
      if "0x" ++ k ∈ accounts.map (fun a => a.HexAddress) then
        some [("balance", etcconf.InitBalance)]
      else none) ∧
    ((ethclassic.genesisAlloc etcconf accounts).map Prod.fst).Nodup ∧
    (ethclassic.genesisAlloc etcconf accounts).length =
      ((accounts.map (fun a => a.HexAddress)).dedup).length ∧
    (∀ extraData, ethclassic.genesisExtraData etcconf accounts = some extraData →
      ∃ s1, ethclassic.createGenesisfile env etcconf accounts s =
          (Res.ok (env.helper (s.trace ++ [Event.Set "alloc", Event.Set "etcconf"])
            "helpers.CreateConfigs" ["/geth/chain.json", extraData]), s1) ∧
        s1.trace = s.trace ++ [Event.Set "alloc", Event.Set "etcconf",
          Event.call "helpers.CreateConfigs" ["/geth/chain.json", extraData]] ∧
        (∃ m, GoMap.get? s1.bs.artifacts "alloc" = some (Val.alloc m) ∧
          m = ethclassic.genesisAlloc etcconf accounts) ∧
        (∃ c, GoMap.get? s1.bs.artifacts "etcconf" = some (Val.etcconf c) ∧
          c = etcconf)) := by
  have hkey : ∀ a ∈ accounts, "0x" ++ a.HexAddress.drop 2 = a.HexAddress := by
    intro a ha
    obtain ⟨h, hh⟩ := haddr a ha
    rw [hh, drop_two_of_0x]
  have hmem : ∀ k, "0x" ++ k ∈ accounts.map (fun a => a.HexAddress) ↔
      k ∈ accounts.map (fun a => a.HexAddress.drop 2) := by
    intro k
    simp only [List.mem_map]
    constructor
    · rintro ⟨a, ha, hk⟩
      refine ⟨a, ha, ?_⟩
      rw [← hkey a ha] at hk
      exact append_0x_injective hk
    · rintro ⟨a, ha, hk⟩
      refine ⟨a, ha, ?_⟩
      rw [← hk, hkey a ha]
  have hmap : accounts.map (fun a => a.HexAddress) =
      (accounts.map (fun a => a.HexAddress.drop 2)).map (fun k => "0x" ++ k) := by
    rw [List.map_map]
    apply List.map_congr_left
    intro a ha
    exact (hkey a ha).symm
  obtain ⟨h1, h2, h3⟩ := ethclassic_allocLoop etcconf.InitBalance accounts []
  refine ⟨?_, ?_, ?_, ?_, ?_⟩
  · intro hc a rest hacc
    subst hacc
    obtain ⟨h, hh⟩ := haddr a (List.mem_cons_self _ _)
    have hlit1 : "0x0000000000000000000000000000000000000000000000000000000000000000" =
        "0x" ++ zeros 64 := by decide
    have hlit2 : ("000000000000000000000000000000000000000000000000000000000000000000" ++
        "0000000000000000000000000000000000000000000000000000000000000000") =
        zeros 130 := by decide
    have hex : ∀ rest2, ethclassic.genesisExtraData etcconf (a :: rest2) =
        some ("0x" ++ zeros 64 ++ h ++ zeros 130) := by
      intro rest2
      simp only [ethclassic.genesisExtraData, if_pos hc, ethclassic.cliqueExtraData,
        List.getElem?_cons_zero, hh, drop_two_of_0x, hlit1, hlit2]
    refine ⟨h, hh, hex rest, ?_, ?_⟩
    · simp only [String.length_append, zeros_length]
      have : ("0x" : String).length = 2 := by decide
      omega
    · intro rest2
      rw [hex rest2, hex rest]
  · intro k
    have := h1 k
    simp only [GoMap.get?] at this
    unfold ethclassic.genesisAlloc
    rw [this]
    by_cases hk : k ∈ accounts.map (fun a => a.HexAddress.drop 2)
    · rw [if_pos hk, if_pos ((hmem k).mpr hk)]
    · rw [if_neg hk, if_neg (fun hx => hk ((hmem k).mp hx))]
  · unfold ethclassic.genesisAlloc
    exact h2 (by simp)
  · have hnd : ((ethclassic.genesisAlloc etcconf accounts).map Prod.fst).Nodup := by
      unfold ethclassic.genesisAlloc
      exact h2 (by simp)
    have hperm : ((ethclassic.genesisAlloc etcconf accounts).map Prod.fst).Perm
        ((accounts.map (fun a => a.HexAddress.drop 2)).dedup) := by
      rw [List.perm_ext_iff_of_nodup hnd (List.nodup_dedup _)]
      intro k
      unfold ethclassic.genesisAlloc
      rw [h3 k, List.mem_dedup]
      simp
    have hlen := hperm.length_eq
    rw [List.length_map] at hlen
    rw [hlen, hmap, List.dedup_map_of_injective append_0x_injective, List.length_map]
  · intro extraData hex
    refine ⟨(ethclassic.createGenesisfile env etcconf accounts s).2, ?_, ?_, ?_, ?_⟩
    · simp only [ethclassic.createGenesisfile, hex, bind, Run.bind, BuildState.Set,
        helperCall, List.append_assoc, List.singleton_append]
    · simp only [ethclassic.createGenesisfile, hex, bind, Run.bind, BuildState.Set,
        helperCall, List.append_assoc, List.singleton_append]
      rfl
    · refine ⟨ethclassic.genesisAlloc etcconf accounts, ?_, rfl⟩
      simp only [ethclassic.createGenesisfile, hex, bind, Run.bind, BuildState.Set,
        helperCall]
      rw [GoMap.get?_set_ne _ _ _ _ (by decide), GoMap.get?_set_self]
    · refine ⟨etcconf, ?_, rfl⟩
      simp only [ethclassic.createGenesisfile, hex, bind, Run.bind, BuildState.Set,
        helperCall]
      rw [GoMap.get?_set_self]

/-- C22 at consensus "clique" and three accounts with 40-digit addresses of which two
are the same. -/
theorem createGenesisfile_extraData_alloc_witness :
    (cliqueConf.Consensus = "clique" → ∀ a rest, longAccounts = a :: rest →
      ∃ h, a.HexAddress = "0x" ++ h ∧
        ethclassic.genesisExtraData cliqueConf longAccounts =
          some ("0x" ++ zeros 64 ++ h ++ zeros 130) ∧
        ("0x" ++ zeros 64 ++ h ++ zeros 130).length = 196 + h.length ∧
        ∀ rest2, ethclassic.genesisExtraData cliqueConf (a :: rest2) =
          ethclassic.genesisExtraData cliqueConf longAccounts) ∧
    (∀ k, GoMap.get? (ethclassic.genesisAlloc cliqueConf longAccounts) k =
      if "0x" ++ k ∈ longAccounts.map (fun a => a.HexAddress) then
        some [("balance", cliqueConf.InitBalance)]
      else none) ∧
    ((ethclassic.genesisAlloc cliqueConf longAccounts).map Prod.fst).Nodup ∧
    (ethclassic.genesisAlloc cliqueConf longAccounts).length =
      ((longAccounts.map (fun a => a.HexAddress)).dedup).length ∧
    (∀ extraData, ethclassic.genesisExtraData cliqueConf longAccounts = some extraData →
      ∃ s1, ethclassic.createGenesisfile okEnv cliqueConf longAccounts
            (St.init BuildState.fresh) =
          (Res.ok (okEnv.helper
            ((St.init BuildState.fresh).trace ++ [Event.Set "alloc", Event.Set "etcconf"])
            "helpers.CreateConfigs" ["/geth/chain.json", extraData]), s1) ∧
        s1.trace = (St.init BuildState.fresh).trace ++
          [Event.Set "alloc", Event.Set "etcconf",
           Event.call "helpers.CreateConfigs" ["/geth/chain.json", extraData]] ∧
        (∃ m, GoMap.get? s1.bs.artifacts "alloc" = some (Val.alloc m) ∧
          m = ethclassic.genesisAlloc cliqueConf longAccounts) ∧
        (∃ c, GoMap.get? s1.bs.artifacts "etcconf" = some (Val.etcconf c) ∧
          c = cliqueConf)) :=
  createGenesisfile_extraData_alloc okEnv cliqueConf longAccounts (St.init BuildState.fresh)
    (by
      intro a ha
      simp only [longAccounts, List.mem_cons, List.mem_singleton, List.not_mem_nil,
        or_false] at ha
      rcases ha with rfl | rfl | rfl
      · exact ⟨"00000000000000000000000000000000000000a0", by decide⟩
      · exact ⟨"00000000000000000000000000000000000000a1", by decide⟩
      · exact ⟨"00000000000000000000000000000000000000a0", by decide⟩)

/-- The genesis values of the C22 witness evaluated: an extraData of 236 characters,
and two alloc entries for the three accounts. -/
theorem ethclassic_genesis_eval :
    ethclassic.genesisExtraData cliqueConf longAccounts =
      some ("0x" ++ zeros 64 ++ "00000000000000000000000000000000000000a0" ++ zeros 130) ∧
    ("0x" ++ zeros 64 ++ "00000000000000000000000000000000000000a0" ++ zeros 130).length =
      236 ∧
    ethclassic.genesisAlloc cliqueConf longAccounts =
      [("00000000000000000000000000000000000000a0", [("balance", "100")]),
       ("00000000000000000000000000000000000000a1", [("balance", "100")])] ∧
    ethclassic.genesisExtraData cliqueConf [] = none := by
  decide!

end GenesisFile


end Genesis

